import Mathlib

/-!
# ugmat: a shallow embedding of `ugmat.cpp`

The program reads a sparse matrix in a text format, extracts one scalar per
row (diagonal, maximal or minimal off-diagonal entry) and writes the result
as a vector file.

Conventions of the embedding:

* `number` (a C++ `double`) is modelled by the rationals: exact, totally
  ordered, without NaN or infinities.  Comparisons, `fabs`, `std::max` and
  `std::min` are the ones of the source on such values.
* Where the order of the weights decides the result (`MaxOffDiag` and
  `MinOffDiag`), the functions are embedded a second time over `Dbl`, a
  `double` with NaN, infinities and both zeros, compared by the `operator<` of
  the source (`MaxOffDiagD`, `MinOffDiagD`).  On values without NaN the two
  embeddings agree (`MaxOffDiagD_ofMatrix`, `MinOffDiagD_ofMatrix`).
* `std::vector` is a `List`; an access `v[i]` is `v[i]?`, and an access out of
  bounds (undefined behaviour in C++) makes the embedded function return
  `none` (or `Outcome.ub` in the loader and the driver).
* `for(size_t i = 0; i < n; ++i) body` is `forRange n body`.
* Library calls whose result depends on the C library or on the file system
  (`strtod`, the text form of a `double`, opening a file, the values delivered
  by `operator>>` and `getline`) are parameters of the embedding (`Env`).
* The tokenizer loop of `LoadMatrix` need not end; it is run with a `fuel`
  that bounds its iterations, and a run that uses up the fuel is
  `Outcome.timeout`.
-/

namespace Ugmat

/-! ## Data model -/

/-- The typedef `number` of the source (a `double`), modelled by exact rationals. -/
abbrev number := ℚ

/-- The struct `Node`: coordinates and the component (occurrence) index `ci`. -/
structure Node where
  x : number
  y : number
  z : number
  ci : Int
deriving DecidableEq

/-- The constructor `Node()`: all fields zero. -/
def Node.init : Node := ⟨0, 0, 0, 0⟩

/-- The typedef `Link`, a `pair<size_t, number>`: target index and weight. -/
abbrev Link := Nat × number

/-- The struct `Matrix`. -/
structure Matrix where
  worldDim : Int
  nodes : List Node
  links : List (List Link)
deriving DecidableEq

/-- The constructor `Matrix()`: world dimension 0, no nodes, no rows. -/
def Matrix.init : Matrix := ⟨0, [], []⟩

/-- The struct `SimpleVector`. -/
structure SimpleVector where
  worldDim : Int
  entries : List (Node × number)
deriving DecidableEq

/-- The constructor `SimpleVector()`: world dimension 0, no entries. -/
def SimpleVector.init : SimpleVector := ⟨0, []⟩

/-! ## Control structure and library helpers -/

/-- The loop `for(size_t i = 0; i < n; ++i) s = body(i, s)`; `none` as soon as
one iteration is undefined. -/
def forRange {σ : Type} : Nat → (Nat → σ → Option σ) → σ → Option σ
  | 0, _, s => some s
  | n + 1, body, s => (forRange n body s).bind (body n)

/-- The call `v.resize(n)` of `std::vector`: keeps the first `n` elements and
pads with value-initialised elements `d`. -/
def resize {α : Type} (l : List α) (n : Nat) (d : α) : List α :=
  l.take n ++ List.replicate (n - l.length) d

/-- The function `fabs` on a `number`. -/
def fabs (w : number) : number := if w < 0 then -w else w

/-- The function `std::max(a, b)`: `(a < b) ? b : a`. -/
def stdMax (a b : number) : number := if a < b then b else a

/-- The function `std::min(a, b)`: `(b < a) ? b : a`. -/
def stdMin (a b : number) : number := if b < a then b else a

/-! ## MakeAbs -/

/-- Inner loop of `MakeAbs` over one row:
`links[ilink].second = fabs(links[ilink].second)`. -/
def MakeAbs.row (links : List Link) : Option (List Link) :=
  forRange links.length
    (fun ilink ls =>
      match ls[ilink]? with
      | none => none
      | some l => some (ls.set ilink (l.1, fabs l.2)))
    links

/-- One iteration of the outer loop of `MakeAbs`: `m.links[inode]` is taken by
reference and rewritten in place. -/
def MakeAbs.body (inode : Nat) (rows : List (List Link)) : Option (List (List Link)) :=
  match rows[inode]? with
  | none => none
  | some links =>
    match MakeAbs.row links with
    | none => none
    | some links1 => some (rows.set inode links1)

/-- The function `MakeAbs(Matrix& m)`; the result is the matrix after the call. -/
def MakeAbs (m : Matrix) : Option Matrix :=
  (forRange m.nodes.length MakeAbs.body m.links).map fun rows => { m with links := rows }

/-! ## Extraction algorithms -/

/-- Inner loop of `Diagonal`: the first link with `first == inode` sets the
value and breaks. -/
def Diagonal.scan (inode : Nat) : List Link → number → number
  | [], cur => cur
  | l :: ls, cur => if l.1 = inode then l.2 else Diagonal.scan inode ls cur

/-- One iteration of the outer loop of `Diagonal`. -/
def Diagonal.body (m : Matrix) (inode : Nat) (entries : List (Node × number)) :
    Option (List (Node × number)) :=
  match entries[inode]?, m.nodes[inode]? with
  | some _, some node =>
    -- vOut.entries[inode].first = m.nodes[inode]; vOut.entries[inode].second = 0;
    match m.links[inode]? with
    | none => none
    | some links => some (entries.set inode (node, Diagonal.scan inode links 0))
  | _, _ => none

/-- The function `Diagonal(SimpleVector& vOut, const Matrix& m)`; the result is
`vOut` after the call. -/
def Diagonal (vOut : SimpleVector) (m : Matrix) : Option SimpleVector :=
  (forRange m.nodes.length (Diagonal.body m)
      (resize vOut.entries m.nodes.length (Node.init, 0))).map
    fun es => { worldDim := m.worldDim, entries := es }

/-- First inner loop of `MaxOffDiag` and `MinOffDiag`: every iteration first
stores 0; the first off-diagonal link then stores its weight and breaks. -/
def offDiagSeed (inode : Nat) : List Link → number → number
  | [], cur => cur
  | l :: ls, _ => if l.1 ≠ inode then l.2 else offDiagSeed inode ls 0

/-- Second inner loop of `MaxOffDiag` and `MinOffDiag`: folds `op` (that is
`std::max` or `std::min`) over the off-diagonal links. -/
def offDiagFold (op : number → number → number) (inode : Nat) : List Link → number → number
  | [], cur => cur
  | l :: ls, cur => offDiagFold op inode ls (if l.1 ≠ inode then op cur l.2 else cur)

/-- One iteration of the outer loop of `MaxOffDiag` (`op = std::max`) and of
`MinOffDiag` (`op = std::min`); the two functions differ in `op` only. -/
def offDiagBody (op : number → number → number) (m : Matrix) (inode : Nat)
    (entries : List (Node × number)) : Option (List (Node × number)) :=
  match entries[inode]?, m.nodes[inode]? with
  | some e, some node =>
    -- vOut.entries[inode].first = m.nodes[inode]; the scalar keeps its old value
    match m.links[inode]? with
    | none => none
    | some links =>
      some (entries.set inode (node, offDiagFold op inode links (offDiagSeed inode links e.2)))
  | _, _ => none

/-- The function `MaxOffDiag(SimpleVector& vOut, const Matrix& m)`. -/
def MaxOffDiag (vOut : SimpleVector) (m : Matrix) : Option SimpleVector :=
  (forRange m.nodes.length (offDiagBody stdMax m)
      (resize vOut.entries m.nodes.length (Node.init, 0))).map
    fun es => { worldDim := m.worldDim, entries := es }

/-- The function `MinOffDiag(SimpleVector& vOut, const Matrix& m)`. -/
def MinOffDiag (vOut : SimpleVector) (m : Matrix) : Option SimpleVector :=
  (forRange m.nodes.length (offDiagBody stdMin m)
      (resize vOut.entries m.nodes.length (Node.init, 0))).map
    fun es => { worldDim := m.worldDim, entries := es }

/-- The common shape of one outer iteration of the three extraction functions. -/
def rowBody (val : Nat → List Link → number → number) (m : Matrix) (inode : Nat)
    (entries : List (Node × number)) : Option (List (Node × number)) :=
  match entries[inode]?, m.nodes[inode]? with
  | some e, some node =>
    match m.links[inode]? with
    | none => none
    | some links => some (entries.set inode (node, val inode links e.2))
  | _, _ => none

/-! ## Outcomes, the C library and the file system -/

/-- How a run of a function ends. -/
inductive Outcome (α : Type) where
  /-- The function returned `a`. -/
  | ret (a : α)
  /-- A C++ exception left the function. -/
  | thrown
  /-- Undefined behaviour: an access out of bounds or an undefined conversion. -/
  | ub
  /-- The fuel given to the run was used up before the run ended. -/
  | timeout
deriving DecidableEq

/-- The output on `cout` (one string per line ended by `endl`) and the way the
run ended. -/
structure Run (α : Type) where
  out : List String
  res : Outcome α
deriving DecidableEq

/-- What the input stream of `LoadMatrix` delivers for one file: the three
header integers read by `operator>>`, the reals delivered by the following
extractions of a `double` (an extraction that fails leaves 0, so the list is
read as followed by zeros), and the lines delivered by the calls of `getline`
inside the `while(!in.eof())` loop (after the rest of the coordinate line and
the separator line have been dropped). -/
structure MatFile where
  blockSize : Int
  worldDim : Int
  numEntries : Int
  reals : List number
  lines : List String
deriving DecidableEq

/-- The environment of a run: the C library and the file system. -/
structure Env where
  /-- The call `strtod(startPtr, &endPtr)` on a C string: the value and
  `endPtr - startPtr`. -/
  strtod : List Char → number × Nat
  /-- The bytes that follow the string literal `"n"` (and its terminating 0)
  in memory. -/
  afterLowerN : Nat → Char
  /-- The bytes that follow the string literal `"N"` (and its terminating 0)
  in memory. -/
  afterUpperN : Nat → Char
  /-- The text `operator<<` writes for a `double` under the given precision. -/
  showNumber : Nat → number → String
  /-- Opening a file for reading: `none` when the stream is not good. -/
  readFile : String → Option MatFile
  /-- Opening a file for writing succeeds. -/
  canWrite : String → Bool

/-- The conversion of a `size_t` to `int` (32 bits, two's complement). -/
def intOfSizeT (n : Nat) : Int :=
  if n % 4294967296 < 2147483648 then Int.ofNat (n % 4294967296)
  else Int.ofNat (n % 4294967296) - 4294967296

/-- The conversion `static_cast<size_t>(v)` of a `double`: truncation towards
zero; undefined (`none`) when the truncated value is not a `size_t`. -/
def toSizeT (v : number) : Option Nat :=
  if 0 ≤ Int.tdiv v.num v.den ∧ Int.tdiv v.num v.den < 18446744073709551616 then
    some (Int.tdiv v.num v.den).toNat
  else none

/-- Search of `needle` in `s` at the positions `p, p + 1, ...`, where `s` is
the rest of the string from position `p` on. -/
def strFindFrom (needle : List Char) : List Char → Nat → Option Nat
  | [], p => if needle = [] then some p else none
  | c :: cs, p =>
    if needle.isPrefixOf (c :: cs) then some p else strFindFrom needle cs (p + 1)

/-- The call `s.find(needle, pos)` of `std::string`: the least position
`p ≥ pos` at which `needle` occurs in `s`, `none` for `npos`. -/
def strFind (s needle : List Char) (pos : Nat) : Option Nat :=
  if pos ≤ s.length then strFindFrom needle (s.drop pos) pos else none

/-- The character range `[s, s + count)` that `line.find(s, pos, count)` takes
as its needle when `s` is a string literal of one character `c`: the literal
is the array `c, 0`; a `count` above 2 reads the bytes behind it. -/
def literalRange (c : Char) (after : Nat → Char) (count : Nat) : List Char :=
  (List.range count).map fun k =>
    match k with
    | 0 => c
    | 1 => Char.ofNat 0
    | k + 2 => after k

/-! ## LoadMatrix -/

/-- The state of the tokenizer loop over one line: the position `start`, the
vector `values` and the counter `numNANs`. -/
structure Tok where
  start : Nat
  values : List number
  numNANs : Nat
deriving DecidableEq

/-- One iteration of the loop `while(start < line.size())` of `LoadMatrix`.
In `line.find("n", start, num)` the third argument of `std::string::find` is
the number of characters of the searched string `"n"`, so the call searches
the line from `start` on for the range `literalRange` of `num` characters; for
a token of one character that is the letter itself, searched up to the end of
the line. -/
def tokenBody (env : Env) (ln : List Char) (t : Tok) : Tok :=
  match ln[t.start]? with
  | none => t
  | some cur =>
    if cur = ' ' then { t with start := t.start + 1 }
    else if cur = '[' ∨ cur = ']' then { t with start := t.start + 1 }
    else
      -- size_t end = line.find(' ', start); if(end == npos) end = line.size();
      let stop := (strFind ln [' '] t.start).getD ln.length
      let num := stop - t.start
      if (strFind ln (literalRange 'n' env.afterLowerN num) t.start).isSome
          ∨ (strFind ln (literalRange 'N' env.afterUpperN num) t.start).isSome then
        -- ++numNANs; continue;
        { t with numNANs := t.numNANs + 1 }
      else
        { t with
          values := t.values ++ [(env.strtod (ln.drop t.start)).1]
          start := t.start + (env.strtod (ln.drop t.start)).2 }

/-- The loop `while(start < line.size())` of `LoadMatrix`, run for at most
`fuel` iterations: `none` when the fuel is used up before the loop ends. -/
def tokenLoop (env : Env) (ln : List Char) : Nat → Tok → Option Tok
  | 0, _ => none
  | fuel + 1, t =>
    if t.start < ln.length then tokenLoop env ln fuel (tokenBody env ln t) else some t

/-- The operator `<` of `Node`. -/
def Node.lt (a p : Node) : Bool :=
  if a.ci < p.ci then true
  else if a.ci > p.ci then false
  else if a.x < p.x then true
  else if a.x > p.x then false
  else if a.y < p.y then true
  else if a.y > p.y then false
  else if a.z < p.z then true
  else if a.z > p.z then false
  else false

/-- Two keys of a `std::map<Node, size_t>` are the same key when neither is
less than the other. -/
def Node.sameKey (a p : Node) : Bool := !Node.lt a p && !Node.lt p a

/-- The value of `nodeMap[p]`: the counter stored for the key `p`, 0 when the
key is inserted by the lookup. The map is kept as a list of its entries. -/
def nodeMapGet : List (Node × Nat) → Node → Nat
  | [], _ => 0
  | kv :: rest, p => if Node.sameKey kv.1 p then kv.2 else nodeMapGet rest p

/-- The map after `size_t& ci = nodeMap[p]; ++ci;`. -/
def nodeMapIncr : List (Node × Nat) → Node → List (Node × Nat)
  | [], p => [(p, 1)]
  | kv :: rest, p =>
    if Node.sameKey kv.1 p then (kv.1, kv.2 + 1) :: rest else kv :: nodeMapIncr rest p

/-- The `switch(m.worldDim)` that reads the coordinates of one node: the node
(with `ci` still 0) and the reals left in the stream; `none` in the default
case. -/
def readCoords (worldDim : Int) (reals : List number) : Option (Node × List number) :=
  if worldDim = 1 then some (⟨reals.getD 0 0, 0, 0, 0⟩, reals.drop 1)
  else if worldDim = 2 then some (⟨reals.getD 0 0, reals.getD 1 0, 0, 0⟩, reals.drop 2)
  else if worldDim = 3 then
    some (⟨reals.getD 0 0, reals.getD 1 0, reals.getD 2 0, 0⟩, reals.drop 3)
  else none

/-- The loop `for(int i = 0; i < numEntries; ++i)` of `LoadMatrix` with `count`
iterations left: `(true, nodes)` when it ends, `(false, nodes)` when the default
case of the switch returns. -/
def readNodes (worldDim : Int) :
    Nat → List number → List (Node × Nat) → List Node → Bool × List Node
  | 0, _, _, nodes => (true, nodes)
  | count + 1, reals, nodeMap, nodes =>
    match readCoords worldDim reals with
    | none => (false, nodes)
    | some (p, rest) =>
      readNodes worldDim count rest (nodeMapIncr nodeMap p)
        (nodes ++ [{ p with ci := intOfSizeT (nodeMapGet nodeMap p) }])

/-- The state of the loop over the link lines: the rows and the counter
`numNANs`. -/
structure LoadState where
  links : List (List Link)
  numNANs : Nat
deriving DecidableEq

/-- The two index checks of `LoadMatrix` on `ind1` and `ind2`: the output on
`cout` after them. Neither check changes the control flow. -/
def reportIndices (filename : String) (numEntries ind1 ind2 : Nat) (out : List String) :
    List String :=
  let out1 :=
    if ind1 ≥ numEntries then
      out ++ ["ERROR -- Bad source index: " ++ toString ind1 ++ ". In File: " ++ filename]
    else out
  if ind2 ≥ numEntries then
    out1 ++ ["ERROR -- Bad target index: " ++ toString ind2 ++ ". In File: " ++ filename]
  else out1

/-- One iteration of the loop `while(!in.eof())` of `LoadMatrix`, for the line
delivered by `getline`; `out` is the output on `cout` so far. -/
def linkLine (env : Env) (fuel : Nat) (filename : String) (numEntries : Nat)
    (ln : String) (s : LoadState) (out : List String) : Run LoadState :=
  if ln.data = [] then ⟨out, .ret s⟩
  else
    match tokenLoop env ln.data fuel ⟨0, [], s.numNANs⟩ with
    | none => ⟨out, .timeout⟩
    | some t =>
      if t.values.length < 3 then
        ⟨out ++ ["ERROR -- Not enough values specified in connection. In File: " ++ filename,
            "line read: " ++ ln],
          .ret ⟨s.links, t.numNANs⟩⟩
      else if t.values.length > 3 then
        ⟨out ++ ["ERROR -- Too many values specified in connection. "
              ++ "Block matrices currently not supported. In File: " ++ filename,
            "line read: " ++ ln],
          .ret ⟨s.links, t.numNANs⟩⟩
      else
        match toSizeT (t.values.getD 0 0), toSizeT (t.values.getD 1 0) with
        | some ind1, some ind2 =>
          -- m.links[ind1].push_back(Link(ind2, values[2]));
          match s.links[ind1]? with
          | none => ⟨reportIndices filename numEntries ind1 ind2 out, .ub⟩
          | some row =>
            ⟨reportIndices filename numEntries ind1 ind2 out,
              .ret ⟨s.links.set ind1 (row ++ [(ind2, t.values.getD 2 0)]), t.numNANs⟩⟩
        | _, _ => ⟨out, .ub⟩

/-- The loop `while(!in.eof())` of `LoadMatrix` over the lines of the file. -/
def linkLines (env : Env) (fuel : Nat) (filename : String) (numEntries : Nat) :
    List String → LoadState → List String → Run LoadState
  | [], s, out => ⟨out, .ret s⟩
  | ln :: rest, s, out =>
    match linkLine env fuel filename numEntries ln s out with
    | ⟨out1, .ret s1⟩ => linkLines env fuel filename numEntries rest s1 out1
    | r => r

/-- The function `LoadMatrix(Matrix& m, const char* filename)`, with the global
`params::makeAbs` as an argument: the output on `cout`, and on return the
returned flag and the matrix `m` after the call. `fuel` bounds the iterations of
the tokenizer loop on each line. -/
def LoadMatrix (env : Env) (makeAbs : Bool) (fuel : Nat) (m : Matrix) (filename : String) :
    Run (Bool × Matrix) :=
  let out0 := ["INFO -- loading matrix from " ++ filename]
  match env.readFile filename with
  | none => ⟨out0 ++ ["ERROR -- File not found: " ++ filename], .ret (false, m)⟩
  | some f =>
    -- m.nodes.reserve(numEntries) converts numEntries to size_t
    if f.numEntries < 0 then ⟨out0, .thrown⟩
    else
      match readNodes f.worldDim f.numEntries.toNat f.reals [] [] with
      | (false, nodes) =>
        ⟨out0 ++ ["ERROR -- Unsupported world-dimension (" ++ toString f.worldDim
            ++ ") during write: " ++ filename],
          .ret (false, { worldDim := f.worldDim, nodes := nodes, links := m.links })⟩
      | (true, nodes) =>
        match linkLines env fuel filename f.numEntries.toNat f.lines
            ⟨List.replicate f.numEntries.toNat [], 0⟩ out0 with
        | ⟨out1, .ret s⟩ =>
          let out2 :=
            if s.numNANs > 0 then
              out1 ++ ["  -> WARNING: vector contains " ++ toString s.numNANs
                ++ " 'nan' entries!"]
            else out1
          let m1 : Matrix := { worldDim := f.worldDim, nodes := nodes, links := s.links }
          if makeAbs then
            match MakeAbs m1 with
            | none => ⟨out2, .ub⟩
            | some m2 => ⟨out2, .ret (true, m2)⟩
          else ⟨out2, .ret (true, m1)⟩
        | ⟨out1, .thrown⟩ => ⟨out1, .thrown⟩
        | ⟨out1, .ub⟩ => ⟨out1, .ub⟩
        | ⟨out1, .timeout⟩ => ⟨out1, .timeout⟩

/-! ## SaveSimpleVector -/

/-- The `switch(v.worldDim)` that writes the coordinates of one node: the line
written, `none` in the default case. Coordinates are written under the
default precision 6. -/
def coordLine (env : Env) (worldDim : Int) (n : Node) : Option String :=
  if worldDim = 1 then some (env.showNumber 6 n.x)
  else if worldDim = 2 then some (env.showNumber 6 n.x ++ " " ++ env.showNumber 6 n.y)
  else if worldDim = 3 then
    some (env.showNumber 6 n.x ++ " " ++ env.showNumber 6 n.y ++ " " ++ env.showNumber 6 n.z)
  else none

/-- The first loop of `SaveSimpleVector` over the entries; `written` holds the
lines written to the file so far. The flag is `false` when the default case of
the switch returns. -/
def coordLines (env : Env) (worldDim : Int) :
    List (Node × number) → List String → Bool × List String
  | [], written => (true, written)
  | e :: es, written =>
    match coordLine env worldDim e.1 with
    | none => (false, written)
    | some text => coordLines env worldDim es (written ++ [text])

/-- The second loop of `SaveSimpleVector`, from index `i` on: the line
`int(i) int(i) value` for each entry, the value under the precision
`digits10 + 1 = 16`. -/
def valueLines (env : Env) : Nat → List (Node × number) → List String
  | _, [] => []
  | i, e :: es =>
    (toString (intOfSizeT i) ++ " " ++ toString (intOfSizeT i) ++ " "
      ++ env.showNumber 16 e.2) :: valueLines env (i + 1) es

/-- The result of `SaveSimpleVector`: the output on `cout`, the lines written
to the file (`none` when the file was not opened) and the returned flag. -/
structure SaveResult where
  out : List String
  file : Option (List String)
  ok : Bool
deriving DecidableEq

/-- The function `SaveSimpleVector(const SimpleVector& v, const char* filename)`. -/
def SaveSimpleVector (env : Env) (v : SimpleVector) (filename : String) : SaveResult :=
  let out0 := ["INFO -- saving vector to " ++ filename]
  if env.canWrite filename then
    match coordLines env v.worldDim v.entries
        ["1", toString v.worldDim, toString v.entries.length] with
    | (false, written) =>
      ⟨out0 ++ ["ERROR -- Unsupported world-dimension (" ++ toString v.worldDim
          ++ ") during write: " ++ filename],
        some written, false⟩
    | (true, written) =>
      ⟨out0, some (written ++ ["1"] ++ valueLines env 0 v.entries), true⟩
  else
    ⟨out0 ++ ["ERROR -- File can not be opened for write: " ++ filename], none, false⟩

/-! ## main -/

/-- The globals of the namespace `params`. -/
structure Params where
  makeAbs : Bool
  verbose : Bool
deriving DecidableEq

/-- The result of the loop of `main` over `argv[2..]`: the flags and the file
arguments, or the message printed before `return 1`. -/
inductive Scan where
  | ok (p : Params) (files : List String)
  | exit (message : String)
deriving DecidableEq

/-- The constant `maxNumFiles`. -/
def maxNumFiles : Nat := 3

/-- The loop `for(int i = 2; i < argc; ++i)` of `main` over the arguments that
are left. -/
def scanArgs : List String → Params → List String → Scan
  | [], p, files => .ok p files
  | arg :: rest, p, files =>
    if arg.data.head? = some '-' then
      if arg = "-abs" then scanArgs rest { p with makeAbs := true } files
      else if arg = "-verbose" then scanArgs rest { p with verbose := true } files
      else .exit ("Invalid option supplied: " ++ arg)
    else if files.length < maxNumFiles then scanArgs rest p (files ++ [arg])
    else .exit ("Can't interpret parameter " ++ arg ++ ": Too many parameters specified.")

/-- The branch of the `if`/`else if` chain of `main` that a command word takes. -/
inductive Command where
  | diag
  | maxOffDiag
  | minOffDiag
  | help
deriving DecidableEq

/-- The conditions `command.find("...") == 0` of `main`, in their order. -/
def selectCommand (command : String) : Command :=
  if strFind command.data "diag".data 0 = some 0 then .diag
  else if strFind command.data "maxOffDiag".data 0 = some 0 then .maxOffDiag
  else if strFind command.data "minOffDiag".data 0 = some 0 then .minOffDiag
  else .help

/-- The extraction function called in the branch of a command. -/
def Command.extract : Command → SimpleVector → Matrix → Option SimpleVector
  | .diag => Diagonal
  | .maxOffDiag => MaxOffDiag
  | .minOffDiag => MinOffDiag
  | .help => fun v _ => some v

/-- The text printed in the last branch of `main`. -/
def helpText : List String :=
  ["",
   "ugmat - (c) 2017 Sebastian Reiter, G-CSC Frankfurt",
   "",
   "USAGE: ugmat command [options] [files]",
   "OR:    ugmat command [files] [options]",
   "",
   "SAMPLE: ugmat diag -consistent A.mat diag.vec",
   "",
   "COMMANDS:",
   "  diag:       Extracts the diagonal of the specified matrix and writes it to the specified",
   "              vector file.",
   "              2 Files required - 1: in-file ('.mat'), 2: out-file ('.ugx')",
   "",
   "  maxOffDiag: Extracts the maximal off-diagonal values of the specified matrix",
   "              and writes them to the specified vector file.",
   "              2 Files required - 1: in-file ('.mat'), 2: out-file ('.ugx')",
   "",
   "  minOffDiag: Extracts the minimal off-diagonal values of the specified matrix",
   "              and writes them to the specified vector file.",
   "              2 Files required - 1: in-file ('.mat'), 2: out-file ('.ugx')",
   "",
   "OPTIONS:",
   "  -abs:             Only absolute values will be regarded.",
   "",
   "  -verbose:         If specified, additional information is printed for each processed vector.",
   ""]

/-- The result of `main`: the output on `cout`, the files written (path and
lines) and the exit code. -/
structure MainResult where
  out : List String
  files : List (String × List String)
  res : Outcome Int
deriving DecidableEq

/-- The body shared by the three command branches of `main`, which differ in
the extraction function only: the macro `CHECK` on the number of files, then
`LoadMatrix` (its returned flag is dropped), the extraction on a new
`SimpleVector` and `SaveSimpleVector` (its returned flag is dropped). An
exception is caught by `catch(...)`, which returns 1. -/
def runCommand (env : Env) (fuel : Nat) (p : Params) (files : List String)
    (extract : SimpleVector → Matrix → Option SimpleVector) : MainResult :=
  if files.length = 2 then
    match LoadMatrix env p.makeAbs fuel Matrix.init (files.getD 0 "") with
    | ⟨out1, .ret (_, m)⟩ =>
      match extract SimpleVector.init m with
      | none => ⟨out1, [], .ub⟩
      | some v =>
        match SaveSimpleVector env v (files.getD 1 "") with
        | ⟨out2, none, _⟩ => ⟨out1 ++ out2, [], .ret 0⟩
        | ⟨out2, some written, _⟩ => ⟨out1 ++ out2, [(files.getD 1 "", written)], .ret 0⟩
    | ⟨out1, .thrown⟩ => ⟨out1, [], .ret 1⟩
    | ⟨out1, .ub⟩ => ⟨out1, [], .ub⟩
    | ⟨out1, .timeout⟩ => ⟨out1, [], .timeout⟩
  else
    -- CHECK(numFiles == 2, ...) prints and throws CommonError
    ⟨["ERROR: An in-file and an out-file have to be specified"], [], .ret 1⟩

/-- The function `main(argc, argv)`; `argv` holds the program name, the command
word and the arguments. -/
def main (env : Env) (fuel : Nat) (argv : List String) : MainResult :=
  match scanArgs (argv.drop 2) ⟨false, false⟩ [] with
  | .exit message => ⟨[message], [], .ret 1⟩
  | .ok p files =>
    match selectCommand (argv.getD 1 "") with
    | .help => ⟨helpText, [], .ret 0⟩
    | c => runCommand env fuel p files c.extract

/-! ## Sample inputs and a concrete environment for runs on them -/

/-- The value and the number of the leading decimal digits of a string. -/
def leadingDigits : List Char → Nat → Nat → Nat × Nat
  | [], acc, count => (acc, count)
  | c :: cs, acc, count =>
    if c.isDigit then leadingDigits cs (10 * acc + (c.toNat - 48)) (count + 1)
    else (acc, count)

/-- The function `strtod` on plain decimal numbers without exponent (an
optional `-`, digits, an optional `.` and digits): the value and the number of
characters used, `(0, 0)` when the string does not start with a number. This
part of `strtod` is enough for the sample files; the theorems hold for every
`strtod`. -/
def sampleStrtod (s : List Char) : number × Nat :=
  let neg := s.head? = some '-'
  let body := if neg then s.drop 1 else s
  let whole := leadingDigits body 0 0
  let frac :=
    if (body.drop whole.2).head? = some '.' then leadingDigits (body.drop (whole.2 + 1)) 0 0
    else (0, 0)
  let dot := if (body.drop whole.2).head? = some '.' then 1 else 0
  if whole.2 + frac.2 = 0 then (0, 0)
  else
    let mag : number :=
      if frac.1 = 0 then (whole.1 : ℚ) else (whole.1 : ℚ) + mkRat frac.1 (10 ^ frac.2)
    (if neg then -mag else mag, (if neg then 1 else 0) + whole.2 + dot + frac.2)

/-- The text of a `double` for integers and odd halves, as `operator<<` writes
them under a precision of 6 or more digits. -/
def sampleShow (_precision : Nat) (x : number) : String :=
  if x.den = 1 then toString x.num
  else if x.den = 2 then
    (if x.num < 0 then "-" else "") ++ toString (x.num.natAbs / 2) ++ ".5"
  else toString x.num ++ "/" ++ toString x.den

/-- A matrix file of world dimension 2 with two nodes and three links; the
only off-diagonal weight of row 0 is -5. -/
def sampleFile : MatFile :=
  { blockSize := 1, worldDim := 2, numEntries := 2, reals := [0, 0, 1, 1],
    lines := ["0 0 2.0", "0 1 -5.0", "1 1 3.0", ""] }

/-- A matrix file of world dimension 1 with four nodes, three of them at the
coordinate 7, and no links. -/
def sampleDupFile : MatFile :=
  { blockSize := 1, worldDim := 1, numEntries := 4, reals := [7, 7, 3, 7], lines := [""] }

/-- An environment in which `in.mat` holds `sampleFile` and `dup.mat` holds
`sampleDupFile`, no other file can be read, and every file but `locked.vec`
can be written. -/
def sampleEnv : Env :=
  { strtod := sampleStrtod
    afterLowerN := fun _ => Char.ofNat 0
    afterUpperN := fun _ => Char.ofNat 0
    showNumber := sampleShow
    readFile := fun path =>
      if path = "in.mat" then some sampleFile
      else if path = "dup.mat" then some sampleDupFile
      else none
    canWrite := fun path => path != "locked.vec" }

/-- The matrix that `LoadMatrix` returns for `sampleFile` without the flag. -/
def sampleLoaded : Matrix :=
  ⟨2, [⟨0, 0, 0, 0⟩, ⟨1, 1, 0, 0⟩], [[(0, 2), (1, -5)], [(1, 3)]]⟩

/-- The matrix that `LoadMatrix` returns for `sampleDupFile`. -/
def sampleDupLoaded : Matrix :=
  ⟨1, [⟨7, 0, 0, 0⟩, ⟨7, 0, 0, 1⟩, ⟨3, 0, 0, 0⟩, ⟨7, 0, 0, 2⟩], [[], [], [], []]⟩

/-- The coordinates `(x, y, z)` of the coordinate record `i` of a file of world
dimension `d` whose extractions deliver `reals`; unused coordinates are 0. -/
def recordAt (d : Nat) (reals : List number) (i : Nat) : number × number × number :=
  (reals.getD (d * i) 0,
   if 2 ≤ d then reals.getD (d * i + 1) 0 else 0,
   if 3 ≤ d then reals.getD (d * i + 2) 0 else 0)

/-- The number of records before record `k` whose coordinates are `c`. -/
def countBefore (d : Nat) (reals : List number) (k : Nat) (c : number × number × number) : Nat :=
  ((List.range k).filter fun j => recordAt d reals j = c).length

/-- The node that record `i` gives: its coordinates, and as `ci` the number of
earlier records with the same coordinates converted to `int`. -/
def specNode (d : Nat) (reals : List number) (i : Nat) : Node :=
  ⟨(recordAt d reals i).1, (recordAt d reals i).2.1, (recordAt d reals i).2.2,
    intOfSizeT (countBefore d reals i (recordAt d reals i))⟩

/-- A row 0 with the self-links 4 and 7 and the off-diagonal weights 2, -5, 3. -/
def sampleRow : List Link := [(0, 4), (1, 2), (2, -5), (0, 7), (1, 3)]

/-- A matrix of world dimension 2 with three rows: row 0 is `sampleRow`, row 1
holds one self-link, row 2 is empty. -/
def sampleMatrix : Matrix :=
  ⟨2, [⟨0, 0, 0, 0⟩, ⟨1, 1, 0, 0⟩, ⟨1, 1, 0, 1⟩], [sampleRow, [(1, 6)], []]⟩

/-! ## Reference texts of the output lines -/

/-- The coordinate line of a node for a world dimension 1, 2 or 3: the first
`d` coordinates under precision 6, separated by single spaces. -/
def coordText (env : Env) (d : Nat) (n : Node) : String :=
  " ".intercalate (([n.x, n.y, n.z].take d).map (env.showNumber 6))

/-- The index line of entry `i` with scalar `w`: the index `i` twice and the
scalar under precision 16, separated by single spaces. -/
def valueText (env : Env) (i : Nat) (w : number) : String :=
  toString i ++ " " ++ toString i ++ " " ++ env.showNumber 16 w

/-- A vector of world dimension 2 with the nodes (0,0) and (1,1) and the
scalars 0.5 and -0.5. -/
def sampleVector : SimpleVector :=
  ⟨2, [(⟨0, 0, 0, 0⟩, 1 / 2), (⟨1, 1, 0, 0⟩, -1 / 2)]⟩

/-- A matrix file that declares the world dimension 4 and two nodes. -/
def sampleBadDimFile : MatFile :=
  { blockSize := 1, worldDim := 4, numEntries := 2, reals := [0, 0, 0, 0, 1, 1, 1, 1],
    lines := ["0 0 2.0", ""] }

/-- A matrix file that declares the world dimension 4 and no node. -/
def sampleEmptyBadDimFile : MatFile :=
  { blockSize := 1, worldDim := 4, numEntries := 0, reals := [], lines := [""] }

/-- A matrix file of world dimension 1 with two nodes whose link section holds
the line `5 0 1.0` (source index 5) and the line `1 7 2.0` (target index 7). -/
def sampleBadIndexFile : MatFile :=
  { blockSize := 1, worldDim := 1, numEntries := 2, reals := [0, 1],
    lines := ["1 7 2.0", "5 0 1.0", "0 0 3.0"] }

/-- The environment `sampleEnv` with other files to read: `dim4.mat` holds
`sampleBadDimFile`, `empty4.mat` holds `sampleEmptyBadDimFile`, `index.mat`
holds `sampleBadIndexFile`, and no other file can be read. -/
def sampleEnvDim : Env :=
  { sampleEnv with
    readFile := fun path =>
      if path = "dim4.mat" then some sampleBadDimFile
      else if path = "empty4.mat" then some sampleEmptyBadDimFile
      else if path = "index.mat" then some sampleBadIndexFile
      else none }

/-- The condition on a line under which the row access of its iteration is in
bounds: when the tokenizer gives three values, both indices have a conversion
to `size_t` and the source index is below `n`. -/
def lineInBounds (env : Env) (fuel n : Nat) (ln : String) : Prop :=
  ∀ (k : Nat) (t : Tok), tokenLoop env ln.data fuel ⟨0, [], k⟩ = some t →
    t.values.length = 3 →
    ∃ i1 i2, toSizeT (t.values.getD 0 0) = some i1 ∧ toSizeT (t.values.getD 1 0) = some i2 ∧
      i1 < n

/-! ## Doubles with NaN: the extraction of off-diagonal entries

The extraction functions compare weights, and a weight read by `strtod` can be
a NaN or an infinity, on which `operator<` is not the order of the rationals.
`MaxOffDiag` and `MinOffDiag` are therefore also embedded over `Dbl`, with the
comparison of `double`. -/

/-- A value of the type `double` as far as `operator<` and copying tell values
apart: a NaN, an infinity, the zero with the sign bit set, or a number (`fin 0`
is the zero without sign bit, the value of the literal `0`). -/
inductive Dbl where
  | nan
  | negInf
  | fin (q : ℚ)
  | negZero
  | posInf
deriving DecidableEq

/-- The operator `<` on `double`: false as soon as one side is a NaN; the two
zeros are not less than one another. -/
def Dbl.lt : Dbl → Dbl → Bool
  | .nan, _ => false
  | _, .nan => false
  | _, .negInf => false
  | .negInf, _ => true
  | .posInf, _ => false
  | _, .posInf => true
  | .fin a, .fin b => decide (a < b)
  | .fin a, .negZero => decide (a < 0)
  | .negZero, .fin b => decide (0 < b)
  | .negZero, .negZero => false

/-- The operator `<=` on `double`: false as soon as one side is a NaN, and
otherwise the negation of `b < a`. -/
def Dbl.le (a b : Dbl) : Bool :=
  decide (a ≠ Dbl.nan) && decide (b ≠ Dbl.nan) && !Dbl.lt b a

/-- The function `std::max(a, b)` on `double`: `(a < b) ? b : a`. -/
def dblMax (a b : Dbl) : Dbl := if Dbl.lt a b then b else a

/-- The function `std::min(a, b)` on `double`: `(b < a) ? b : a`. -/
def dblMin (a b : Dbl) : Dbl := if Dbl.lt b a then b else a

/-- The typedef `Link` with a weight that can be a NaN. -/
abbrev LinkD := Nat × Dbl

/-- The struct `Matrix` with weights that can be NaN. -/
structure MatrixD where
  worldDim : Int
  nodes : List Node
  links : List (List LinkD)
deriving DecidableEq

/-- The struct `SimpleVector` with scalars that can be NaN. -/
structure SimpleVectorD where
  worldDim : Int
  entries : List (Node × Dbl)
deriving DecidableEq

/-- The constructor `SimpleVector()`: world dimension 0, no entries. -/
def SimpleVectorD.init : SimpleVectorD := ⟨0, []⟩

/-- First inner loop of `MaxOffDiag` and `MinOffDiag` over `Dbl`: every
iteration first stores 0; the first off-diagonal link then stores its weight
and breaks. -/
def offDiagSeedD (inode : Nat) : List LinkD → Dbl → Dbl
  | [], cur => cur
  | l :: ls, _ => if l.1 ≠ inode then l.2 else offDiagSeedD inode ls (.fin 0)

/-- Second inner loop of `MaxOffDiag` and `MinOffDiag` over `Dbl`: folds `op`
(that is `std::max` or `std::min`) over the off-diagonal links. -/
def offDiagFoldD (op : Dbl → Dbl → Dbl) (inode : Nat) : List LinkD → Dbl → Dbl
  | [], cur => cur
  | l :: ls, cur => offDiagFoldD op inode ls (if l.1 ≠ inode then op cur l.2 else cur)

/-- One iteration of the outer loop of `MaxOffDiag` (`op = std::max`) and of
`MinOffDiag` (`op = std::min`) over `Dbl`. -/
def offDiagBodyD (op : Dbl → Dbl → Dbl) (m : MatrixD) (inode : Nat)
    (entries : List (Node × Dbl)) : Option (List (Node × Dbl)) :=
  match entries[inode]?, m.nodes[inode]? with
  | some e, some node =>
    -- vOut.entries[inode].first = m.nodes[inode]; the scalar keeps its old value
    match m.links[inode]? with
    | none => none
    | some links =>
      some (entries.set inode
        (node, offDiagFoldD op inode links (offDiagSeedD inode links e.2)))
  | _, _ => none

/-- The function `MaxOffDiag(SimpleVector& vOut, const Matrix& m)` over `Dbl`. -/
def MaxOffDiagD (vOut : SimpleVectorD) (m : MatrixD) : Option SimpleVectorD :=
  (forRange m.nodes.length (offDiagBodyD dblMax m)
      (resize vOut.entries m.nodes.length (Node.init, .fin 0))).map
    fun es => { worldDim := m.worldDim, entries := es }

/-- The function `MinOffDiag(SimpleVector& vOut, const Matrix& m)` over `Dbl`. -/
def MinOffDiagD (vOut : SimpleVectorD) (m : MatrixD) : Option SimpleVectorD :=
  (forRange m.nodes.length (offDiagBodyD dblMin m)
      (resize vOut.entries m.nodes.length (Node.init, .fin 0))).map
    fun es => { worldDim := m.worldDim, entries := es }

/-- A matrix without NaN weights as a matrix over `Dbl`. -/
def MatrixD.ofMatrix (m : Matrix) : MatrixD :=
  ⟨m.worldDim, m.nodes, m.links.map (List.map fun l => (l.1, Dbl.fin l.2))⟩

/-- A vector without NaN scalars as a vector over `Dbl`. -/
def SimpleVectorD.ofVector (v : SimpleVector) : SimpleVectorD :=
  ⟨v.worldDim, v.entries.map fun e => (e.1, Dbl.fin e.2)⟩

/-- The row `sampleRow` over `Dbl`, with a NaN weight on a self-link added. -/
def sampleRowD : List LinkD :=
  [(0, .fin 4), (1, .fin 2), (0, .nan), (2, .fin (-5)), (0, .fin 7), (1, .fin 3)]

/-- A matrix of three rows over `Dbl`: row 0 is `sampleRowD`, row 1 holds one
self-link, row 2 is empty. -/
def sampleMatrixD : MatrixD :=
  ⟨2, [⟨0, 0, 0, 0⟩, ⟨1, 1, 0, 0⟩, ⟨1, 1, 0, 1⟩], [sampleRowD, [(1, .fin 6)], []]⟩

/-- A matrix of three rows whose row 0 holds two off-diagonal links, first one
of weight NaN, then one of weight 5. -/
def sampleNanFirst : MatrixD :=
  ⟨2, [⟨0, 0, 0, 0⟩, ⟨1, 1, 0, 0⟩, ⟨1, 1, 0, 1⟩], [[(1, .nan), (2, .fin 5)], [], []]⟩

/-- The matrix `sampleNanFirst` with the two links of row 0 stored in the other
order: first the weight 5, then the NaN. -/
def sampleNanLast : MatrixD :=
  ⟨2, [⟨0, 0, 0, 0⟩, ⟨1, 1, 0, 0⟩, ⟨1, 1, 0, 1⟩], [[(2, .fin 5), (1, .nan)], [], []]⟩

/-! ## Loop lemmas -/

theorem forRange_succ {σ : Type} (n : Nat) (body : Nat → σ → Option σ) (s : σ) :
    forRange (n + 1) body s = (forRange n body s).bind (body n) := rfl

/-- A loop whose iteration `i` rewrites position `i` only. -/
theorem forRange_pointwise {α : Type} (g : Nat → α → Option α)
    (body : Nat → List α → Option (List α))
    (hbody : ∀ i s a, s[i]? = some a → body i s = (g i a).map (fun b => s.set i b))
    (s : List α) (n : Nat) (hn : n ≤ s.length)
    (hg : ∀ i a, i < n → s[i]? = some a → ∃ b, g i a = some b) :
    ∃ s1, forRange n body s = some s1 ∧ s1.length = s.length ∧
      (∀ i a, i < n → s[i]? = some a → s1[i]? = g i a) ∧
      (∀ i, n ≤ i → s1[i]? = s[i]?) := by
  induction n with
  | zero => exact ⟨s, rfl, rfl, by intro i a h; omega, by intros; rfl⟩
  | succ n ih =>
    obtain ⟨s1, h1, hlen, hlt, hge⟩ := ih (by omega) (fun i a hi => hg i a (by omega))
    have hns : n < s.length := by omega
    have hsn : s[n]? = some s[n] := List.getElem?_eq_getElem hns
    have hs1n : s1[n]? = some s[n] := by rw [hge n (le_refl n), hsn]
    obtain ⟨b, hb⟩ := hg n s[n] (by omega) hsn
    refine ⟨s1.set n b, ?_, ?_, ?_, ?_⟩
    · rw [forRange_succ, h1]
      show body n s1 = _
      rw [hbody n s1 _ hs1n, hb]; rfl
    · simp [hlen]
    · intro i a hi hia
      by_cases hin : i = n
      · subst hin
        rw [hsn] at hia
        cases hia
        rw [hb]
        simp [List.getElem?_set, hlen, hns]
      · rw [List.getElem?_set_ne (Ne.symm hin)]
        exact hlt i a (by omega) hia
    · intro i hi
      rw [List.getElem?_set_ne (by omega)]
      exact hge i (by omega)

theorem resize_length {α : Type} (l : List α) (n : Nat) (d : α) : (resize l n d).length = n := by
  simp [resize]; omega

theorem resize_nil_getElem? {α : Type} (n : Nat) (d : α) (i : Nat) (hi : i < n) :
    (resize ([] : List α) n d)[i]? = some d := by
  simp [resize, List.getElem?_replicate, hi]

/-! ## MakeAbs: lemmas -/

theorem fabs_eq_abs (w : number) : fabs w = |w| := by
  unfold fabs
  split
  · rename_i h; rw [abs_of_neg h]
  · rename_i h; rw [abs_of_nonneg (not_lt.mp h)]

theorem MakeAbs.row_eq (links : List Link) :
    MakeAbs.row links = some (links.map fun l => (l.1, |l.2|)) := by
  obtain ⟨s1, h1, hlen, hlt, -⟩ :=
    forRange_pointwise (fun _ (l : Link) => some (l.1, fabs l.2))
      (fun ilink ls =>
        match ls[ilink]? with
        | none => none
        | some l => some (ls.set ilink (l.1, fabs l.2)))
      (by intro i s a h; simp [h]) links links.length (le_refl _)
      (by intro i a _ _; exact ⟨_, rfl⟩)
  unfold MakeAbs.row
  rw [h1]
  congr 1
  apply List.ext_getElem?
  intro i
  by_cases hi : i < links.length
  · rw [hlt i links[i] hi (List.getElem?_eq_getElem hi)]
    simp [List.getElem?_map, List.getElem?_eq_getElem hi, fabs_eq_abs]
  · rw [List.getElem?_eq_none (by omega), List.getElem?_eq_none (by simp; omega)]

theorem MakeAbs_eq (m : Matrix) (h : m.links.length = m.nodes.length) :
    MakeAbs m = some { m with links := m.links.map (List.map fun l => (l.1, |l.2|)) } := by
  obtain ⟨s1, h1, hlen, hlt, -⟩ :=
    forRange_pointwise (fun _ (r : List Link) => MakeAbs.row r) MakeAbs.body
      (by
        intro i s a h
        simp only [MakeAbs.body, h, MakeAbs.row_eq]
        rfl)
      m.links m.nodes.length (by omega)
      (by intro i a _ _; exact ⟨_, MakeAbs.row_eq a⟩)
  unfold MakeAbs
  rw [h1]
  simp only [Option.map_some']
  congr 2
  apply List.ext_getElem?
  intro i
  by_cases hi : i < m.links.length
  · rw [hlt i m.links[i] (by omega) (List.getElem?_eq_getElem hi), MakeAbs.row_eq]
    simp [List.getElem?_map, List.getElem?_eq_getElem hi]
  · rw [List.getElem?_eq_none (by omega), List.getElem?_eq_none (by simp; omega)]

/-! ## Extraction: lemmas -/

theorem Diagonal.body_eq (m : Matrix) :
    Diagonal.body m = rowBody (fun i ls _ => Diagonal.scan i ls 0) m := by
  funext i es
  unfold Diagonal.body rowBody
  cases es[i]? <;> cases m.nodes[i]? <;> rfl

theorem offDiagBody_eq (op : number → number → number) (m : Matrix) :
    offDiagBody op m = rowBody (fun i ls c => offDiagFold op i ls (offDiagSeed i ls c)) m := rfl

theorem rowBody_loop (val : Nat → List Link → number → number) (m : Matrix)
    (h : m.links.length = m.nodes.length) (es : List (Node × number))
    (hes : es.length = m.nodes.length) :
    ∃ es1, forRange m.nodes.length (rowBody val m) es = some es1 ∧
      es1.length = m.nodes.length ∧
      ∀ i node links e, m.nodes[i]? = some node → m.links[i]? = some links →
        es[i]? = some e → es1[i]? = some (node, val i links e.2) := by
  obtain ⟨s1, h1, hlen, hlt, -⟩ :=
    forRange_pointwise
      (fun i (e : Node × number) =>
        match m.nodes[i]?, m.links[i]? with
        | some node, some links => some (node, val i links e.2)
        | _, _ => none)
      (rowBody val m)
      (by
        intro i s a hs
        unfold rowBody
        rw [hs]
        dsimp only
        cases m.nodes[i]? <;> cases m.links[i]? <;> rfl)
      es m.nodes.length (by omega)
      (by
        intro i a hi _
        dsimp only
        rw [List.getElem?_eq_getElem hi, List.getElem?_eq_getElem (h ▸ hi)]
        exact ⟨_, rfl⟩)
  refine ⟨s1, h1, by omega, ?_⟩
  intro i node links e hn hl he
  have hi : i < m.nodes.length := by
    by_contra hc
    rw [List.getElem?_eq_none (by omega)] at hn
    cases hn
  rw [hlt i e hi he, hn, hl]

theorem Diagonal.scan_first (i : Nat) (w : number) (post : List Link) (c : number) :
    ∀ pre : List Link, (∀ l ∈ pre, l.1 ≠ i) →
      Diagonal.scan i (pre ++ (i, w) :: post) c = w
  | [], _ => by simp [Diagonal.scan]
  | p :: pre, h => by
    have hp : p.1 ≠ i := h p (List.mem_cons_self _ _)
    simp only [List.cons_append, Diagonal.scan, if_neg hp]
    exact Diagonal.scan_first i w post c pre (fun l hl => h l (List.mem_cons_of_mem _ hl))

theorem Diagonal.scan_none (i : Nat) (c : number) :
    ∀ row : List Link, (∀ l ∈ row, l.1 ≠ i) → Diagonal.scan i row c = c
  | [], _ => rfl
  | p :: row, h => by
    have hp : p.1 ≠ i := h p (List.mem_cons_self _ _)
    simp only [Diagonal.scan, if_neg hp]
    exact Diagonal.scan_none i c row (fun l hl => h l (List.mem_cons_of_mem _ hl))

theorem rowBody_shape (val : Nat → List Link → number → number) (vOut : SimpleVector)
    (m : Matrix) (h : m.links.length = m.nodes.length) :
    ∃ es1, forRange m.nodes.length (rowBody val m)
        (resize vOut.entries m.nodes.length (Node.init, 0)) = some es1 ∧
      es1.length = m.nodes.length ∧ es1.map Prod.fst = m.nodes := by
  obtain ⟨es1, h1, hlen, hval⟩ := rowBody_loop val m h
    (resize vOut.entries m.nodes.length (Node.init, 0)) (resize_length _ _ _)
  refine ⟨es1, h1, hlen, ?_⟩
  apply List.ext_getElem?
  intro i
  by_cases hi : i < m.nodes.length
  · have hr : i < (resize vOut.entries m.nodes.length (Node.init, (0 : number))).length := by
      rw [resize_length]; exact hi
    rw [List.getElem?_map, hval i m.nodes[i] m.links[i] _ (List.getElem?_eq_getElem hi)
      (List.getElem?_eq_getElem (h ▸ hi)) (List.getElem?_eq_getElem hr)]
    simp [List.getElem?_eq_getElem hi]
  · rw [List.getElem?_eq_none (by simp; omega), List.getElem?_eq_none (by omega)]

/-! ## Extraction over doubles with NaN: lemmas -/

theorem Dbl.lt_irrefl (a : Dbl) : Dbl.lt a a = false := by
  cases a <;> simp [Dbl.lt]

theorem Dbl.lt_asymm (a b : Dbl) (h : Dbl.lt a b = true) : Dbl.lt b a = false := by
  cases a <;> cases b <;> simp [Dbl.lt] at h ⊢ <;> linarith

theorem Dbl.le_trans (a b c : Dbl) (h1 : Dbl.le a b = true) (h2 : Dbl.le b c = true) :
    Dbl.le a c = true := by
  cases a <;> cases b <;> cases c <;> simp [Dbl.le, Dbl.lt] at h1 h2 ⊢ <;> linarith

theorem Dbl.le_of_not_nan (a b : Dbl) (ha : a ≠ Dbl.nan) (hb : b ≠ Dbl.nan)
    (h : Dbl.lt b a = false) : Dbl.le a b = true := by
  simp [Dbl.le, ha, hb, h]

theorem dblMax_cases (a b : Dbl) : dblMax a b = a ∨ dblMax a b = b := by
  unfold dblMax
  split
  · exact Or.inr rfl
  · exact Or.inl rfl

theorem dblMin_cases (a b : Dbl) : dblMin a b = a ∨ dblMin a b = b := by
  unfold dblMin
  split
  · exact Or.inr rfl
  · exact Or.inl rfl

theorem dblMax_upper (a b : Dbl) (ha : a ≠ Dbl.nan) (hb : b ≠ Dbl.nan) :
    dblMax a b ≠ Dbl.nan ∧ Dbl.le a (dblMax a b) = true ∧ Dbl.le b (dblMax a b) = true := by
  unfold dblMax
  cases hlt : Dbl.lt a b
  · exact ⟨by simpa using ha, Dbl.le_of_not_nan a a ha ha (Dbl.lt_irrefl a),
      Dbl.le_of_not_nan b a hb ha hlt⟩
  · exact ⟨by simpa using hb, Dbl.le_of_not_nan a b ha hb (Dbl.lt_asymm a b hlt),
      Dbl.le_of_not_nan b b hb hb (Dbl.lt_irrefl b)⟩

theorem dblMin_lower (a b : Dbl) (ha : a ≠ Dbl.nan) (hb : b ≠ Dbl.nan) :
    dblMin a b ≠ Dbl.nan ∧ Dbl.le (dblMin a b) a = true ∧ Dbl.le (dblMin a b) b = true := by
  unfold dblMin
  cases hlt : Dbl.lt b a
  · exact ⟨by simpa using ha, Dbl.le_of_not_nan a a ha ha (Dbl.lt_irrefl a),
      Dbl.le_of_not_nan a b ha hb hlt⟩
  · exact ⟨by simpa using hb, Dbl.le_of_not_nan b a hb ha (Dbl.lt_asymm b a hlt),
      Dbl.le_of_not_nan b b hb hb (Dbl.lt_irrefl b)⟩

theorem offDiagBodyD_loop (op : Dbl → Dbl → Dbl) (m : MatrixD)
    (h : m.links.length = m.nodes.length) (es : List (Node × Dbl))
    (hes : es.length = m.nodes.length) :
    ∃ es1, forRange m.nodes.length (offDiagBodyD op m) es = some es1 ∧
      es1.length = m.nodes.length ∧
      ∀ i node links e, m.nodes[i]? = some node → m.links[i]? = some links →
        es[i]? = some e →
        es1[i]? = some (node, offDiagFoldD op i links (offDiagSeedD i links e.2)) := by
  obtain ⟨s1, h1, hlen, hlt, -⟩ :=
    forRange_pointwise
      (fun i (e : Node × Dbl) =>
        match m.nodes[i]?, m.links[i]? with
        | some node, some links =>
          some (node, offDiagFoldD op i links (offDiagSeedD i links e.2))
        | _, _ => none)
      (offDiagBodyD op m)
      (by
        intro i s a hs
        unfold offDiagBodyD
        rw [hs]
        dsimp only
        cases m.nodes[i]? <;> cases m.links[i]? <;> rfl)
      es m.nodes.length (by omega)
      (by
        intro i a hi _
        dsimp only
        rw [List.getElem?_eq_getElem hi, List.getElem?_eq_getElem (h ▸ hi)]
        exact ⟨_, rfl⟩)
  refine ⟨s1, h1, by omega, ?_⟩
  intro i node links e hn hl he
  have hi : i < m.nodes.length := by
    by_contra hc
    rw [List.getElem?_eq_none (by omega)] at hn
    cases hn
  rw [hlt i e hi he, hn, hl]

theorem offDiagSeedD_diag (i : Nat) :
    ∀ row : List LinkD, (∀ l ∈ row, l.1 = i) → offDiagSeedD i row (.fin 0) = .fin 0
  | [], _ => rfl
  | p :: row, h => by
    have hp : p.1 = i := h p (List.mem_cons_self _ _)
    simp only [offDiagSeedD, hp, ne_eq, not_true_eq_false, if_false]
    exact offDiagSeedD_diag i row (fun l hl => h l (List.mem_cons_of_mem _ hl))

theorem offDiagSeedD_mem (i : Nat) :
    ∀ (row : List LinkD) (c : Dbl), (∃ l ∈ row, l.1 ≠ i) →
      ∃ l ∈ row, l.1 ≠ i ∧ l.2 = offDiagSeedD i row c
  | [], _, h => by obtain ⟨l, hl, _⟩ := h; cases hl
  | p :: row, c, h => by
    by_cases hp : p.1 ≠ i
    · exact ⟨p, List.mem_cons_self _ _, hp, by simp [offDiagSeedD, hp]⟩
    · have h2 : ∃ l ∈ row, l.1 ≠ i := by
        obtain ⟨l, hl, hne⟩ := h
        rcases List.mem_cons.mp hl with rfl | hl
        · exact absurd hne hp
        · exact ⟨l, hl, hne⟩
      obtain ⟨l, hl, hne, hv⟩ := offDiagSeedD_mem i row (.fin 0) h2
      refine ⟨l, List.mem_cons_of_mem _ hl, hne, ?_⟩
      simp only [offDiagSeedD, if_neg hp]
      exact hv

theorem offDiagFoldD_diag (op : Dbl → Dbl → Dbl) (i : Nat) :
    ∀ (row : List LinkD) (c : Dbl), (∀ l ∈ row, l.1 = i) → offDiagFoldD op i row c = c
  | [], _, _ => rfl
  | p :: row, c, h => by
    have hp : p.1 = i := h p (List.mem_cons_self _ _)
    simp only [offDiagFoldD, hp, ne_eq, not_true_eq_false, if_false]
    exact offDiagFoldD_diag op i row c (fun l hl => h l (List.mem_cons_of_mem _ hl))

/-- The second loop returns its start value or the weight of an off-diagonal
link, whatever the weights are, as `op` returns one of its arguments. -/
theorem offDiagFoldD_mem (op : Dbl → Dbl → Dbl) (hop : ∀ a b, op a b = a ∨ op a b = b)
    (i : Nat) :
    ∀ (row : List LinkD) (c : Dbl),
      offDiagFoldD op i row c = c ∨ ∃ l ∈ row, l.1 ≠ i ∧ l.2 = offDiagFoldD op i row c
  | [], _ => Or.inl rfl
  | p :: row, c => by
    have h3 := offDiagFoldD_mem op hop i row (if p.1 ≠ i then op c p.2 else c)
    simp only [offDiagFoldD]
    by_cases hp : p.1 ≠ i
    · simp only [if_pos hp] at h3 ⊢
      rcases h3 with h3 | ⟨l, hl, hne, hv⟩
      · rcases hop c p.2 with hm | hm
        · left; rw [h3, hm]
        · right; exact ⟨p, List.mem_cons_self _ _, hp, by rw [h3, hm]⟩
      · right; exact ⟨l, List.mem_cons_of_mem _ hl, hne, hv⟩
    · simp only [if_neg hp] at h3 ⊢
      rcases h3 with h3 | ⟨l, hl, hne, hv⟩
      · left; exact h3
      · right; exact ⟨l, List.mem_cons_of_mem _ hl, hne, hv⟩

/-- On a row whose off-diagonal weights are no NaN, the second loop of
`MaxOffDiag`, started at a value that is no NaN, ends at a value that is no
NaN and not below the start value or any off-diagonal weight. -/
theorem offDiagFoldD_max (i : Nat) :
    ∀ (row : List LinkD) (c : Dbl), c ≠ Dbl.nan → (∀ l ∈ row, l.1 ≠ i → l.2 ≠ Dbl.nan) →
      offDiagFoldD dblMax i row c ≠ Dbl.nan ∧
      Dbl.le c (offDiagFoldD dblMax i row c) = true ∧
      (∀ l ∈ row, l.1 ≠ i → Dbl.le l.2 (offDiagFoldD dblMax i row c) = true)
  | [], c, hc, _ =>
    ⟨hc, Dbl.le_of_not_nan c c hc hc (Dbl.lt_irrefl c), fun l hl => absurd hl (List.not_mem_nil l)⟩
  | p :: row, c, hc, hrow => by
    have hrest : ∀ l ∈ row, l.1 ≠ i → l.2 ≠ Dbl.nan :=
      fun l hl => hrow l (List.mem_cons_of_mem _ hl)
    simp only [offDiagFoldD]
    by_cases hp : p.1 ≠ i
    · have hpn : p.2 ≠ Dbl.nan := hrow p (List.mem_cons_self _ _) hp
      obtain ⟨u1, u2, u3⟩ := dblMax_upper c p.2 hc hpn
      obtain ⟨h1, h2, h3⟩ := offDiagFoldD_max i row (dblMax c p.2) u1 hrest
      simp only [if_pos hp]
      refine ⟨h1, Dbl.le_trans _ _ _ u2 h2, ?_⟩
      intro l hl hne
      rcases List.mem_cons.mp hl with rfl | hl
      · exact Dbl.le_trans _ _ _ u3 h2
      · exact h3 l hl hne
    · obtain ⟨h1, h2, h3⟩ := offDiagFoldD_max i row c hc hrest
      simp only [if_neg hp]
      refine ⟨h1, h2, ?_⟩
      intro l hl hne
      rcases List.mem_cons.mp hl with rfl | hl
      · exact absurd hne hp
      · exact h3 l hl hne

/-- On a row whose off-diagonal weights are no NaN, the second loop of
`MinOffDiag`, started at a value that is no NaN, ends at a value that is no
NaN and not above the start value or any off-diagonal weight. -/
theorem offDiagFoldD_min (i : Nat) :
    ∀ (row : List LinkD) (c : Dbl), c ≠ Dbl.nan → (∀ l ∈ row, l.1 ≠ i → l.2 ≠ Dbl.nan) →
      offDiagFoldD dblMin i row c ≠ Dbl.nan ∧
      Dbl.le (offDiagFoldD dblMin i row c) c = true ∧
      (∀ l ∈ row, l.1 ≠ i → Dbl.le (offDiagFoldD dblMin i row c) l.2 = true)
  | [], c, hc, _ =>
    ⟨hc, Dbl.le_of_not_nan c c hc hc (Dbl.lt_irrefl c), fun l hl => absurd hl (List.not_mem_nil l)⟩
  | p :: row, c, hc, hrow => by
    have hrest : ∀ l ∈ row, l.1 ≠ i → l.2 ≠ Dbl.nan :=
      fun l hl => hrow l (List.mem_cons_of_mem _ hl)
    simp only [offDiagFoldD]
    by_cases hp : p.1 ≠ i
    · have hpn : p.2 ≠ Dbl.nan := hrow p (List.mem_cons_self _ _) hp
      obtain ⟨u1, u2, u3⟩ := dblMin_lower c p.2 hc hpn
      obtain ⟨h1, h2, h3⟩ := offDiagFoldD_min i row (dblMin c p.2) u1 hrest
      simp only [if_pos hp]
      refine ⟨h1, Dbl.le_trans _ _ _ h2 u2, ?_⟩
      intro l hl hne
      rcases List.mem_cons.mp hl with rfl | hl
      · exact Dbl.le_trans _ _ _ h2 u3
      · exact h3 l hl hne
    · obtain ⟨h1, h2, h3⟩ := offDiagFoldD_min i row c hc hrest
      simp only [if_neg hp]
      refine ⟨h1, h2, ?_⟩
      intro l hl hne
      rcases List.mem_cons.mp hl with rfl | hl
      · exact absurd hne hp
      · exact h3 l hl hne

/-! ## The extraction over doubles with NaN agrees with the one over numbers -/

theorem forRange_map {σ τ : Type} (f : σ → τ) (body : Nat → σ → Option σ)
    (bodyD : Nat → τ → Option τ) (hb : ∀ i s, bodyD i (f s) = (body i s).map f) :
    ∀ (n : Nat) (s : σ), forRange n bodyD (f s) = (forRange n body s).map f
  | 0, _ => rfl
  | n + 1, s => by
    rw [forRange_succ, forRange_succ, forRange_map f body bodyD hb n s]
    cases forRange n body s with
    | none => rfl
    | some s1 => exact hb n s1

theorem resize_map {α β : Type} (f : α → β) (l : List α) (n : Nat) (d : α) :
    resize (l.map f) n (f d) = (resize l n d).map f := by
  simp [resize, List.map_take]

theorem dblMax_fin (a b : number) : dblMax (Dbl.fin a) (Dbl.fin b) = Dbl.fin (stdMax a b) := by
  unfold dblMax stdMax
  by_cases h : a < b
  · simp [Dbl.lt, h]
  · simp [Dbl.lt, h]

theorem dblMin_fin (a b : number) : dblMin (Dbl.fin a) (Dbl.fin b) = Dbl.fin (stdMin a b) := by
  unfold dblMin stdMin
  by_cases h : b < a
  · simp [Dbl.lt, h]
  · simp [Dbl.lt, h]

theorem offDiagSeedD_fin (i : Nat) :
    ∀ (ls : List Link) (c : number),
      offDiagSeedD i (ls.map fun l => (l.1, Dbl.fin l.2)) (Dbl.fin c)
        = Dbl.fin (offDiagSeed i ls c)
  | [], _ => rfl
  | l :: ls, _ => by
    simp only [List.map_cons, offDiagSeedD, offDiagSeed]
    split
    · rfl
    · exact offDiagSeedD_fin i ls 0

theorem offDiagFoldD_fin (op : number → number → number) (opD : Dbl → Dbl → Dbl)
    (hop : ∀ a b, opD (Dbl.fin a) (Dbl.fin b) = Dbl.fin (op a b)) (i : Nat) :
    ∀ (ls : List Link) (c : number),
      offDiagFoldD opD i (ls.map fun l => (l.1, Dbl.fin l.2)) (Dbl.fin c)
        = Dbl.fin (offDiagFold op i ls c)
  | [], _ => rfl
  | l :: ls, c => by
    simp only [List.map_cons, offDiagFoldD, offDiagFold]
    by_cases hl : l.1 ≠ i
    · simp only [if_pos hl, hop]
      exact offDiagFoldD_fin op opD hop i ls _
    · simp only [if_neg hl]
      exact offDiagFoldD_fin op opD hop i ls _

theorem offDiagBodyD_fin (op : number → number → number) (opD : Dbl → Dbl → Dbl)
    (hop : ∀ a b, opD (Dbl.fin a) (Dbl.fin b) = Dbl.fin (op a b)) (m : Matrix) (i : Nat)
    (es : List (Node × number)) :
    offDiagBodyD opD (MatrixD.ofMatrix m) i (es.map fun e => (e.1, Dbl.fin e.2))
      = (offDiagBody op m i es).map (List.map fun e => (e.1, Dbl.fin e.2)) := by
  unfold offDiagBodyD offDiagBody MatrixD.ofMatrix
  simp only [List.getElem?_map]
  cases es[i]? with
  | none => rfl
  | some e =>
    cases m.nodes[i]? with
    | none => rfl
    | some node =>
      cases m.links[i]? with
      | none => rfl
      | some links =>
        simp only [Option.map_some', offDiagSeedD_fin, offDiagFoldD_fin op opD hop,
          List.map_set]

/-- On a matrix and an output vector without NaN, `MaxOffDiag` over doubles
with NaN gives what `MaxOffDiag` over numbers gives. -/
theorem MaxOffDiagD_ofMatrix (v : SimpleVector) (m : Matrix) :
    MaxOffDiagD (SimpleVectorD.ofVector v) (MatrixD.ofMatrix m)
      = (MaxOffDiag v m).map SimpleVectorD.ofVector := by
  unfold MaxOffDiagD MaxOffDiag
  have hr := resize_map (fun e : Node × number => (e.1, Dbl.fin e.2)) v.entries
    m.nodes.length (Node.init, 0)
  have hf := forRange_map (List.map fun e : Node × number => (e.1, Dbl.fin e.2))
    (offDiagBody stdMax m) (offDiagBodyD dblMax (MatrixD.ofMatrix m))
    (offDiagBodyD_fin stdMax dblMax dblMax_fin m) m.nodes.length
    (resize v.entries m.nodes.length (Node.init, 0))
  show Option.map _ (forRange m.nodes.length (offDiagBodyD dblMax (MatrixD.ofMatrix m))
    (resize (v.entries.map fun e => (e.1, Dbl.fin e.2)) m.nodes.length
      (Node.init, Dbl.fin 0))) = _
  rw [hr, hf]
  cases forRange m.nodes.length (offDiagBody stdMax m)
    (resize v.entries m.nodes.length (Node.init, 0)) <;> rfl

/-- On a matrix and an output vector without NaN, `MinOffDiag` over doubles
with NaN gives what `MinOffDiag` over numbers gives. -/
theorem MinOffDiagD_ofMatrix (v : SimpleVector) (m : Matrix) :
    MinOffDiagD (SimpleVectorD.ofVector v) (MatrixD.ofMatrix m)
      = (MinOffDiag v m).map SimpleVectorD.ofVector := by
  unfold MinOffDiagD MinOffDiag
  have hr := resize_map (fun e : Node × number => (e.1, Dbl.fin e.2)) v.entries
    m.nodes.length (Node.init, 0)
  have hf := forRange_map (List.map fun e : Node × number => (e.1, Dbl.fin e.2))
    (offDiagBody stdMin m) (offDiagBodyD dblMin (MatrixD.ofMatrix m))
    (offDiagBodyD_fin stdMin dblMin dblMin_fin m) m.nodes.length
    (resize v.entries m.nodes.length (Node.init, 0))
  show Option.map _ (forRange m.nodes.length (offDiagBodyD dblMin (MatrixD.ofMatrix m))
    (resize (v.entries.map fun e => (e.1, Dbl.fin e.2)) m.nodes.length
      (Node.init, Dbl.fin 0))) = _
  rw [hr, hf]
  cases forRange m.nodes.length (offDiagBody stdMin m)
    (resize v.entries m.nodes.length (Node.init, 0)) <;> rfl

/-! ## Claims on the extraction functions and on MakeAbs -/

/-- C1: for a matrix with as many rows as nodes, each of `Diagonal`, `MaxOffDiag`
and `MinOffDiag` returns a vector whose world dimension is the one of the
matrix, that has one entry per node, and whose entries carry the nodes of the
matrix in the same order (all four fields), whatever the output vector held. -/
theorem C1_extraction_shape (vOut : SimpleVector) (m : Matrix)
    (h : m.links.length = m.nodes.length) :
    (∃ v, Diagonal vOut m = some v ∧ v.worldDim = m.worldDim ∧
      v.entries.length = m.nodes.length ∧ v.entries.map Prod.fst = m.nodes) ∧
    (∃ v, MaxOffDiag vOut m = some v ∧ v.worldDim = m.worldDim ∧
      v.entries.length = m.nodes.length ∧ v.entries.map Prod.fst = m.nodes) ∧
    (∃ v, MinOffDiag vOut m = some v ∧ v.worldDim = m.worldDim ∧
      v.entries.length = m.nodes.length ∧ v.entries.map Prod.fst = m.nodes) := by
  refine ⟨?_, ?_, ?_⟩
  · obtain ⟨es1, h1, hlen, hmap⟩ := rowBody_shape (fun i ls _ => Diagonal.scan i ls 0) vOut m h
    exact ⟨⟨m.worldDim, es1⟩, by simp [Diagonal, Diagonal.body_eq, h1], rfl, hlen, hmap⟩
  · obtain ⟨es1, h1, hlen, hmap⟩ :=
      rowBody_shape (fun i ls c => offDiagFold stdMax i ls (offDiagSeed i ls c)) vOut m h
    exact ⟨⟨m.worldDim, es1⟩, by simp [MaxOffDiag, offDiagBody_eq, h1], rfl, hlen, hmap⟩
  · obtain ⟨es1, h1, hlen, hmap⟩ :=
      rowBody_shape (fun i ls c => offDiagFold stdMin i ls (offDiagSeed i ls c)) vOut m h
    exact ⟨⟨m.worldDim, es1⟩, by simp [MinOffDiag, offDiagBody_eq, h1], rfl, hlen, hmap⟩

/-- C1 at `sampleMatrix`, with an output vector that already holds an entry. -/
theorem C1_extraction_shape_witness :
    sampleMatrix.links.length = sampleMatrix.nodes.length ∧
    ((∃ v, Diagonal ⟨7, [(Node.init, 9)]⟩ sampleMatrix = some v ∧
        v.worldDim = sampleMatrix.worldDim ∧
        v.entries.length = sampleMatrix.nodes.length ∧
        v.entries.map Prod.fst = sampleMatrix.nodes) ∧
      (∃ v, MaxOffDiag ⟨7, [(Node.init, 9)]⟩ sampleMatrix = some v ∧
        v.worldDim = sampleMatrix.worldDim ∧
        v.entries.length = sampleMatrix.nodes.length ∧
        v.entries.map Prod.fst = sampleMatrix.nodes) ∧
      (∃ v, MinOffDiag ⟨7, [(Node.init, 9)]⟩ sampleMatrix = some v ∧
        v.worldDim = sampleMatrix.worldDim ∧
        v.entries.length = sampleMatrix.nodes.length ∧
        v.entries.map Prod.fst = sampleMatrix.nodes)) :=
  ⟨by decide, C1_extraction_shape ⟨7, [(Node.init, 9)]⟩ sampleMatrix (by decide)⟩

/-- C2: for a matrix with as many rows as nodes and a row `i`, `Diagonal` gives
entry `i` the weight of the first link of row `i` (in stored order) whose target
index is `i`, so the earliest of several self-links decides, and gives 0 when
row `i` has no link with target index `i`. -/
theorem C2_diagonal_value (vOut : SimpleVector) (m : Matrix)
    (h : m.links.length = m.nodes.length) (i : Nat) (row : List Link)
    (hrow : m.links[i]? = some row) :
    ∃ v, Diagonal vOut m = some v ∧
      (∀ pre w post, row = pre ++ (i, w) :: post → (∀ l ∈ pre, l.1 ≠ i) →
        (v.entries[i]?).map Prod.snd = some w) ∧
      ((∀ l ∈ row, l.1 ≠ i) → (v.entries[i]?).map Prod.snd = some 0) := by
  obtain ⟨es1, h1, hlen, hval⟩ := rowBody_loop (fun i ls _ => Diagonal.scan i ls 0) m h
    (resize vOut.entries m.nodes.length (Node.init, 0)) (resize_length _ _ _)
  have hi : i < m.nodes.length := by
    by_contra hc
    rw [List.getElem?_eq_none (by omega)] at hrow
    cases hrow
  have hr : i < (resize vOut.entries m.nodes.length (Node.init, (0 : number))).length := by
    rw [resize_length]; exact hi
  have hv := hval i m.nodes[i] row _ (List.getElem?_eq_getElem hi) hrow
    (List.getElem?_eq_getElem hr)
  refine ⟨⟨m.worldDim, es1⟩, by simp [Diagonal, Diagonal.body_eq, h1], ?_, ?_⟩
  · intro pre w post hsplit hpre
    simp only [hv, Option.map_some', hsplit, Diagonal.scan_first i w post 0 pre hpre]
  · intro hno
    simp only [hv, Option.map_some', Diagonal.scan_none i 0 row hno]

/-- C2 at row 0 of `sampleMatrix`: the self-links 4 and 7 give 4. -/
theorem C2_diagonal_value_witness :
    sampleMatrix.links.length = sampleMatrix.nodes.length ∧
    sampleMatrix.links[0]? = some sampleRow ∧
    Diagonal SimpleVector.init sampleMatrix =
      some ⟨2, [(⟨0, 0, 0, 0⟩, 4), (⟨1, 1, 0, 0⟩, 6), (⟨1, 1, 0, 1⟩, 0)]⟩ ∧
    ∃ v, Diagonal SimpleVector.init sampleMatrix = some v ∧
      (∀ pre w post, sampleRow = pre ++ (0, w) :: post →
        (∀ l ∈ pre, l.1 ≠ 0) → (v.entries[0]?).map Prod.snd = some w) ∧
      ((∀ l ∈ sampleRow, l.1 ≠ 0) →
        (v.entries[0]?).map Prod.snd = some 0) :=
  ⟨by decide, by decide, by decide,
    C2_diagonal_value SimpleVector.init sampleMatrix (by decide) 0 sampleRow (by decide)⟩

/-- C3 (amended): for a matrix with as many rows as nodes, a freshly constructed
output vector and a row `i`: when row `i` has a link whose target index differs
from `i`, `MaxOffDiag` and `MinOffDiag` each give entry `i` the weight of one of
those off-diagonal links (self-links are ignored), and when none of the
off-diagonal weights of the row is a NaN, the entry of `MaxOffDiag` is the
greatest and the entry of `MinOffDiag` the least of them; when row `i` has no
off-diagonal link (it is empty or holds self-links only), both give 0. -/
theorem C3_offdiag_value (m : MatrixD) (h : m.links.length = m.nodes.length) (i : Nat)
    (row : List LinkD) (hrow : m.links[i]? = some row) :
    ∃ vmax vmin a b,
      MaxOffDiagD SimpleVectorD.init m = some vmax ∧
      MinOffDiagD SimpleVectorD.init m = some vmin ∧
      (vmax.entries[i]?).map Prod.snd = some a ∧
      (vmin.entries[i]?).map Prod.snd = some b ∧
      ((∃ l ∈ row, l.1 ≠ i) →
        (∃ l ∈ row, l.1 ≠ i ∧ l.2 = a) ∧ (∃ l ∈ row, l.1 ≠ i ∧ l.2 = b) ∧
        ((∀ l ∈ row, l.1 ≠ i → l.2 ≠ Dbl.nan) →
          (∀ l ∈ row, l.1 ≠ i → Dbl.le l.2 a = true) ∧
          (∀ l ∈ row, l.1 ≠ i → Dbl.le b l.2 = true))) ∧
      ((∀ l ∈ row, l.1 = i) → a = Dbl.fin 0 ∧ b = Dbl.fin 0) := by
  obtain ⟨emax, hmax, -, vmaxv⟩ :=
    offDiagBodyD_loop dblMax m h
      (resize SimpleVectorD.init.entries m.nodes.length (Node.init, Dbl.fin 0))
      (resize_length _ _ _)
  obtain ⟨emin, hmin, -, vminv⟩ :=
    offDiagBodyD_loop dblMin m h
      (resize SimpleVectorD.init.entries m.nodes.length (Node.init, Dbl.fin 0))
      (resize_length _ _ _)
  have hi : i < m.nodes.length := by
    by_contra hc
    rw [List.getElem?_eq_none (by omega)] at hrow
    cases hrow
  have hfresh :
      (resize SimpleVectorD.init.entries m.nodes.length (Node.init, Dbl.fin 0))[i]?
        = some (Node.init, Dbl.fin 0) := resize_nil_getElem? _ _ i hi
  have h1 := vmaxv i m.nodes[i] row _ (List.getElem?_eq_getElem hi) hrow hfresh
  have h2 := vminv i m.nodes[i] row _ (List.getElem?_eq_getElem hi) hrow hfresh
  refine ⟨⟨m.worldDim, emax⟩, ⟨m.worldDim, emin⟩,
    offDiagFoldD dblMax i row (offDiagSeedD i row (Dbl.fin 0)),
    offDiagFoldD dblMin i row (offDiagSeedD i row (Dbl.fin 0)),
    by simp [MaxOffDiagD, hmax], by simp [MinOffDiagD, hmin],
    by simp [h1], by simp [h2], ?_, ?_⟩
  · intro hoff
    obtain ⟨s, hs, hsne, hsv⟩ := offDiagSeedD_mem i row (Dbl.fin 0) hoff
    refine ⟨?_, ?_, ?_⟩
    · rcases offDiagFoldD_mem dblMax dblMax_cases i row (offDiagSeedD i row (Dbl.fin 0))
        with a3 | a3
      · exact ⟨s, hs, hsne, by rw [a3]; exact hsv⟩
      · exact a3
    · rcases offDiagFoldD_mem dblMin dblMin_cases i row (offDiagSeedD i row (Dbl.fin 0))
        with b3 | b3
      · exact ⟨s, hs, hsne, by rw [b3]; exact hsv⟩
      · exact b3
    · intro hnan
      have hseed : offDiagSeedD i row (Dbl.fin 0) ≠ Dbl.nan := by
        rw [← hsv]; exact hnan s hs hsne
      exact ⟨(offDiagFoldD_max i row _ hseed hnan).2.2,
        (offDiagFoldD_min i row _ hseed hnan).2.2⟩
  · intro hdiag
    rw [offDiagSeedD_diag i row hdiag, offDiagFoldD_diag dblMax i row _ hdiag,
      offDiagFoldD_diag dblMin i row _ hdiag]
    exact ⟨rfl, rfl⟩

/-- C3 (amended) at row 0 of `sampleMatrixD`: the off-diagonal weights 2, -5, 3
(beside three self-links, one of them of weight NaN) give 3 and -5; rows 1 (one
self-link) and 2 (empty) give 0. -/
theorem C3_offdiag_value_witness :
    sampleMatrixD.links.length = sampleMatrixD.nodes.length ∧
    sampleMatrixD.links[0]? = some sampleRowD ∧
    (∃ l ∈ sampleRowD, l.1 ≠ 0) ∧ (∀ l ∈ sampleRowD, l.1 ≠ 0 → l.2 ≠ Dbl.nan) ∧
    (MaxOffDiagD SimpleVectorD.init sampleMatrixD).map (fun v => v.entries.map Prod.snd)
      = some [Dbl.fin 3, Dbl.fin 0, Dbl.fin 0] ∧
    (MinOffDiagD SimpleVectorD.init sampleMatrixD).map (fun v => v.entries.map Prod.snd)
      = some [Dbl.fin (-5), Dbl.fin 0, Dbl.fin 0] ∧
    ∃ vmax vmin a b,
      MaxOffDiagD SimpleVectorD.init sampleMatrixD = some vmax ∧
      MinOffDiagD SimpleVectorD.init sampleMatrixD = some vmin ∧
      (vmax.entries[0]?).map Prod.snd = some a ∧
      (vmin.entries[0]?).map Prod.snd = some b ∧
      ((∃ l ∈ sampleRowD, l.1 ≠ 0) →
        (∃ l ∈ sampleRowD, l.1 ≠ 0 ∧ l.2 = a) ∧ (∃ l ∈ sampleRowD, l.1 ≠ 0 ∧ l.2 = b) ∧
        ((∀ l ∈ sampleRowD, l.1 ≠ 0 → l.2 ≠ Dbl.nan) →
          (∀ l ∈ sampleRowD, l.1 ≠ 0 → Dbl.le l.2 a = true) ∧
          (∀ l ∈ sampleRowD, l.1 ≠ 0 → Dbl.le b l.2 = true))) ∧
      ((∀ l ∈ sampleRowD, l.1 = 0) → a = Dbl.fin 0 ∧ b = Dbl.fin 0) :=
  ⟨by decide, by decide, by decide, by decide, by decide, by decide,
    C3_offdiag_value sampleMatrixD (by decide) 0 sampleRowD (by decide)⟩

/-- C3 (counterexample): row 0 of `sampleNanFirst` holds the
off-diagonal weights NaN and 5; called with a fresh vector, `MaxOffDiag` and
`MinOffDiag` both give entry 0 the NaN, which is neither the greatest nor the
least of the two weights, as 5 compares neither `<=` nor `>=` to it. With the
same two links stored in the other order (`sampleNanLast`) both give 5. -/
theorem C3_counterexample :
    sampleNanFirst.links.length = sampleNanFirst.nodes.length ∧
    sampleNanFirst.links[0]? = some [(1, Dbl.nan), (2, Dbl.fin 5)] ∧
    (MaxOffDiagD SimpleVectorD.init sampleNanFirst).map (fun v => v.entries.map Prod.snd)
      = some [Dbl.nan, Dbl.fin 0, Dbl.fin 0] ∧
    (MinOffDiagD SimpleVectorD.init sampleNanFirst).map (fun v => v.entries.map Prod.snd)
      = some [Dbl.nan, Dbl.fin 0, Dbl.fin 0] ∧
    Dbl.le (Dbl.fin 5) Dbl.nan = false ∧ Dbl.le Dbl.nan (Dbl.fin 5) = false ∧
    sampleNanLast.links.length = sampleNanLast.nodes.length ∧
    sampleNanLast.links[0]? = some [(2, Dbl.fin 5), (1, Dbl.nan)] ∧
    (MaxOffDiagD SimpleVectorD.init sampleNanLast).map (fun v => v.entries.map Prod.snd)
      = some [Dbl.fin 5, Dbl.fin 0, Dbl.fin 0] ∧
    (MinOffDiagD SimpleVectorD.init sampleNanLast).map (fun v => v.entries.map Prod.snd)
      = some [Dbl.fin 5, Dbl.fin 0, Dbl.fin 0] := by
  decide

/-- C4: for a matrix with as many rows as nodes, `MakeAbs` replaces the weight
of every link of every row by its absolute value and changes nothing else:
world dimension and nodes are kept, and the rows keep their number, their
lengths, the order of their links and every target index. -/
theorem C4_makeAbs_frame (m : Matrix) (h : m.links.length = m.nodes.length) :
    ∃ m1, MakeAbs m = some m1 ∧ m1.worldDim = m.worldDim ∧ m1.nodes = m.nodes ∧
      m1.links = m.links.map (List.map fun l => (l.1, |l.2|)) ∧
      m1.links.length = m.links.length ∧
      (∀ (i : Nat) (r r1 : List Link), m.links[i]? = some r → m1.links[i]? = some r1 →
        r1.length = r.length ∧ r1.map Prod.fst = r.map Prod.fst ∧
        r1.map Prod.snd = r.map fun l => |l.2|) := by
  refine ⟨_, MakeAbs_eq m h, rfl, rfl, rfl, by simp, ?_⟩
  intro i r r1 hr hr1
  simp only [List.getElem?_map, hr, Option.map_some', Option.some.injEq] at hr1
  subst hr1
  refine ⟨by simp, ?_, ?_⟩
  · rw [List.map_map]; rfl
  · rw [List.map_map]; rfl

/-- C4 at `sampleMatrix`. -/
theorem C4_makeAbs_frame_witness :
    sampleMatrix.links.length = sampleMatrix.nodes.length ∧
    MakeAbs sampleMatrix = some ⟨2, [⟨0, 0, 0, 0⟩, ⟨1, 1, 0, 0⟩, ⟨1, 1, 0, 1⟩],
      [[(0, 4), (1, 2), (2, 5), (0, 7), (1, 3)], [(1, 6)], []]⟩ ∧
    ∃ m1, MakeAbs sampleMatrix = some m1 ∧ m1.worldDim = sampleMatrix.worldDim ∧
      m1.nodes = sampleMatrix.nodes ∧
      m1.links = sampleMatrix.links.map (List.map fun l => (l.1, |l.2|)) ∧
      m1.links.length = sampleMatrix.links.length ∧
      (∀ (i : Nat) (r r1 : List Link), sampleMatrix.links[i]? = some r → m1.links[i]? = some r1 →
        r1.length = r.length ∧ r1.map Prod.fst = r.map Prod.fst ∧
        r1.map Prod.snd = r.map fun l => |l.2|) :=
  ⟨by decide, by decide, C4_makeAbs_frame sampleMatrix (by decide)⟩

/-! ## LoadMatrix: lemmas -/

theorem readNodes_length (d : Int) :
    ∀ (count : Nat) (reals : List number) (nodeMap : List (Node × Nat)) (nodes res : List Node),
      readNodes d count reals nodeMap nodes = (true, res) → res.length = nodes.length + count
  | 0, _, _, nodes, res, h => by
    simp only [readNodes, Prod.mk.injEq, true_and] at h
    simp [← h]
  | count + 1, reals, nodeMap, nodes, res, h => by
    unfold readNodes at h
    split at h
    · simp at h
    · have := readNodes_length d count _ _ _ res h
      simp at this
      omega

theorem linkLine_length (env : Env) (fuel : Nat) (filename : String) (n : Nat) (ln : String)
    (s s1 : LoadState) (out out1 : List String)
    (h : linkLine env fuel filename n ln s out = ⟨out1, .ret s1⟩) :
    s1.links.length = s.links.length := by
  unfold linkLine at h
  split at h
  · cases h; rfl
  · split at h
    · cases h
    · split at h
      · cases h; rfl
      · split at h
        · cases h; rfl
        · split at h
          · split at h
            · cases h
            · cases h; simp
          · cases h

theorem linkLines_length (env : Env) (fuel : Nat) (filename : String) (n : Nat) :
    ∀ (lines : List String) (s s1 : LoadState) (out out1 : List String),
      linkLines env fuel filename n lines s out = ⟨out1, .ret s1⟩ →
      s1.links.length = s.links.length
  | [], s, s1, out, out1, h => by
    simp only [linkLines, Run.mk.injEq, Outcome.ret.injEq] at h
    rw [← h.2]
  | ln :: rest, s, s1, out, out1, h => by
    unfold linkLines at h
    split at h
    · rename_i o2 s2 heq
      rw [linkLines_length env fuel filename n rest s2 s1 o2 out1 h]
      exact linkLine_length env fuel filename n ln s s2 out o2 heq
    · rename_i r hne
      rcases hr : linkLine env fuel filename n ln s out with ⟨o2, res2⟩
      rw [hr] at h
      cases h
      exact absurd hr (hne out1 s1)

/-- The output of `LoadMatrix` after the loop over the link lines. -/
theorem LoadMatrix_of (env : Env) (makeAbs : Bool) (fuel : Nat) (m0 : Matrix)
    (filename : String) (f : MatFile) (nodes : List Node) (out1 : List String) (s : LoadState)
    (hf : env.readFile filename = some f) (hn : ¬ f.numEntries < 0)
    (hnodes : readNodes f.worldDim f.numEntries.toNat f.reals [] [] = (true, nodes))
    (hlines : linkLines env fuel filename f.numEntries.toNat f.lines
      ⟨List.replicate f.numEntries.toNat [], 0⟩ ["INFO -- loading matrix from " ++ filename]
      = ⟨out1, .ret s⟩) :
    (LoadMatrix env makeAbs fuel m0 filename).res =
      (if makeAbs then
        match MakeAbs ⟨f.worldDim, nodes, s.links⟩ with
        | none => .ub
        | some m2 => .ret (true, m2)
      else .ret (true, ⟨f.worldDim, nodes, s.links⟩)) ∧
    (LoadMatrix env makeAbs fuel m0 filename).out =
      (if s.numNANs > 0 then
        out1 ++ ["  -> WARNING: vector contains " ++ toString s.numNANs ++ " 'nan' entries!"]
      else out1) := by
  unfold LoadMatrix
  simp only [hf, hn, if_false, hnodes, hlines]
  cases makeAbs
  · simp
  · cases MakeAbs ⟨f.worldDim, nodes, s.links⟩ <;> simp

/-- A successful return of `LoadMatrix` comes from a file that was opened, a
node loop that ended and a loop over the link lines that ended. -/
theorem LoadMatrix_inv (env : Env) (makeAbs : Bool) (fuel : Nat) (m0 m : Matrix)
    (filename : String)
    (h : (LoadMatrix env makeAbs fuel m0 filename).res = .ret (true, m)) :
    ∃ f nodes out1 s, env.readFile filename = some f ∧ ¬ f.numEntries < 0 ∧
      readNodes f.worldDim f.numEntries.toNat f.reals [] [] = (true, nodes) ∧
      linkLines env fuel filename f.numEntries.toNat f.lines
        ⟨List.replicate f.numEntries.toNat [], 0⟩ ["INFO -- loading matrix from " ++ filename]
        = ⟨out1, .ret s⟩ := by
  unfold LoadMatrix at h
  cases hf : env.readFile filename with
  | none => simp [hf] at h
  | some f =>
    by_cases hn : f.numEntries < 0
    · simp [hf, hn] at h
    · rcases hnodes : readNodes f.worldDim f.numEntries.toNat f.reals [] [] with ⟨b, nodes⟩
      cases b
      · simp [hf, hn, hnodes] at h
      · rcases hlines : linkLines env fuel filename f.numEntries.toNat f.lines
          ⟨List.replicate f.numEntries.toNat [], 0⟩
          ["INFO -- loading matrix from " ++ filename] with ⟨out1, r⟩
        cases r with
        | ret s => exact ⟨f, nodes, out1, s, rfl, hn, hnodes, hlines⟩
        | thrown => simp [hf, hn, hnodes, hlines] at h
        | ub => simp [hf, hn, hnodes, hlines] at h
        | timeout => simp [hf, hn, hnodes, hlines] at h

/-- A successful load with the absolute-value flag comes from a successful
load without it. -/
theorem LoadMatrix_abs_flag_conv (env : Env) (fuel : Nat) (m0 m1 : Matrix) (filename : String)
    (h : (LoadMatrix env true fuel m0 filename).res = .ret (true, m1)) :
    ∃ m, (LoadMatrix env false fuel m0 filename).res = .ret (true, m) ∧
      m1 = ⟨m.worldDim, m.nodes, m.links.map (List.map fun l => (l.1, |l.2|))⟩ := by
  obtain ⟨f, nodes, out1, s, hf, hn, hnodes, hlines⟩ := LoadMatrix_inv env true fuel m0 m1 filename h
  obtain ⟨r0, -⟩ := LoadMatrix_of env false fuel m0 filename f nodes out1 s hf hn hnodes hlines
  obtain ⟨r1, -⟩ := LoadMatrix_of env true fuel m0 filename f nodes out1 s hf hn hnodes hlines
  have hlen : (⟨f.worldDim, nodes, s.links⟩ : Matrix).links.length
      = (⟨f.worldDim, nodes, s.links⟩ : Matrix).nodes.length := by
    have h1 := readNodes_length _ _ _ _ _ _ hnodes
    have h2 := linkLines_length _ _ _ _ _ _ _ _ _ hlines
    simp only [List.length_replicate, List.length_nil, Nat.zero_add] at h1 h2
    simp only [h1, h2]
  rw [h] at r1
  simp only [if_true, MakeAbs_eq _ hlen, Outcome.ret.injEq, Prod.mk.injEq, true_and] at r1
  exact ⟨⟨f.worldDim, nodes, s.links⟩, by simpa using r0, r1⟩

/-! ## Claims on the loader -/

/-- C5: when `LoadMatrix` without the absolute-value flag returns success with
the matrix `m`, then on the same file `LoadMatrix` with the flag set returns
success with the same world dimension, the same nodes, the same rows and target
indices, and each weight replaced by its absolute value; the output on `cout`
is the same. -/
theorem C5_abs_flag (env : Env) (fuel : Nat) (m0 m : Matrix) (filename : String)
    (h : (LoadMatrix env false fuel m0 filename).res = .ret (true, m)) :
    (LoadMatrix env true fuel m0 filename).res =
      .ret (true, ⟨m.worldDim, m.nodes, m.links.map (List.map fun l => (l.1, |l.2|))⟩) ∧
    (LoadMatrix env true fuel m0 filename).out = (LoadMatrix env false fuel m0 filename).out := by
  obtain ⟨f, nodes, out1, s, hf, hn, hnodes, hlines⟩ := LoadMatrix_inv env false fuel m0 m filename h
  obtain ⟨r0, o0⟩ := LoadMatrix_of env false fuel m0 filename f nodes out1 s hf hn hnodes hlines
  obtain ⟨r1, o1⟩ := LoadMatrix_of env true fuel m0 filename f nodes out1 s hf hn hnodes hlines
  rw [h] at r0
  simp only [Bool.false_eq_true, if_false, Outcome.ret.injEq, Prod.mk.injEq, true_and] at r0
  have hlen : (⟨f.worldDim, nodes, s.links⟩ : Matrix).links.length
      = (⟨f.worldDim, nodes, s.links⟩ : Matrix).nodes.length := by
    have h1 := readNodes_length _ _ _ _ _ _ hnodes
    have h2 := linkLines_length _ _ _ _ _ _ _ _ _ hlines
    simp only [List.length_replicate, List.length_nil, Nat.zero_add] at h1 h2
    simp only [h1, h2]
  refine ⟨?_, by rw [o0, o1]⟩
  rw [r1, r0]
  simp only [if_true, MakeAbs_eq _ hlen]

/-- C5 on `sampleFile`: row 0 has the only off-diagonal weight -5, and
`MinOffDiag` gives -5 for it without the flag and 5 with the flag. -/
theorem C5_abs_flag_witness :
    (LoadMatrix sampleEnv false 20 Matrix.init "in.mat").res = .ret (true, sampleLoaded) ∧
    MinOffDiag SimpleVector.init sampleLoaded
      = some ⟨2, [(⟨0, 0, 0, 0⟩, -5), (⟨1, 1, 0, 0⟩, 0)]⟩ ∧
    (LoadMatrix sampleEnv true 20 Matrix.init "in.mat").res =
      .ret (true, ⟨2, [⟨0, 0, 0, 0⟩, ⟨1, 1, 0, 0⟩], [[(0, 2), (1, 5)], [(1, 3)]]⟩) ∧
    MinOffDiag SimpleVector.init ⟨2, [⟨0, 0, 0, 0⟩, ⟨1, 1, 0, 0⟩], [[(0, 2), (1, 5)], [(1, 3)]]⟩
      = some ⟨2, [(⟨0, 0, 0, 0⟩, 5), (⟨1, 1, 0, 0⟩, 0)]⟩ ∧
    (LoadMatrix sampleEnv true 20 Matrix.init "in.mat").res =
      .ret (true, ⟨sampleLoaded.worldDim, sampleLoaded.nodes,
        sampleLoaded.links.map (List.map fun l => (l.1, |l.2|))⟩) ∧
    (LoadMatrix sampleEnv true 20 Matrix.init "in.mat").out
      = (LoadMatrix sampleEnv false 20 Matrix.init "in.mat").out :=
  ⟨by decide, by decide, by decide, by decide,
    C5_abs_flag sampleEnv 20 Matrix.init sampleLoaded "in.mat" (by decide)⟩

theorem countBefore_succ (d : Nat) (reals : List number) (k : Nat)
    (c : number × number × number) :
    countBefore d reals (k + 1) c
      = countBefore d reals k c + (if recordAt d reals k = c then 1 else 0) := by
  unfold countBefore
  rw [List.range_succ, List.filter_append, List.length_append]
  by_cases h : recordAt d reals k = c <;> simp [h]

theorem countBefore_le (d : Nat) (reals : List number) (k : Nat)
    (c : number × number × number) : countBefore d reals k c ≤ k := by
  unfold countBefore
  calc ((List.range k).filter fun j => recordAt d reals j = c).length
      ≤ (List.range k).length := List.length_filter_le _ _
    _ = k := List.length_range k

theorem intOfSizeT_small (n : Nat) (h : n < 2147483648) : intOfSizeT n = (n : Int) := by
  unfold intOfSizeT
  have h1 : n % 4294967296 = n := Nat.mod_eq_of_lt (by omega)
  rw [h1, if_pos h]
  rfl

theorem Node.sameKey_iff (a p : Node) (ha : a.ci = 0) (hp : p.ci = 0) :
    Node.sameKey a p = true ↔ a = p := by
  constructor
  · intro h
    obtain ⟨ax, ay, az, aci⟩ := a
    obtain ⟨px, py, pz, pci⟩ := p
    simp only at ha hp
    subst ha hp
    simp only [Node.sameKey, Node.lt, lt_self_iff_false, if_false, gt_iff_lt,
      Bool.and_eq_true, Bool.not_eq_true'] at h
    obtain ⟨h1, h2⟩ := h
    rcases lt_trichotomy ax px with hx | hx | hx
    · simp [hx] at h1
    · subst hx
      rcases lt_trichotomy ay py with hy | hy | hy
      · simp [hy] at h1
      · subst hy
        rcases lt_trichotomy az pz with hz | hz | hz
        · simp [hz] at h1
        · subst hz; rfl
        · simp [hz] at h2
      · simp [hy] at h2
    · simp [hx] at h2
  · rintro rfl
    simp [Node.sameKey, Node.lt]

theorem nodeMapGet_incr :
    ∀ (nodeMap : List (Node × Nat)) (p q : Node), (∀ kv ∈ nodeMap, kv.1.ci = 0) →
      p.ci = 0 → q.ci = 0 →
      nodeMapGet (nodeMapIncr nodeMap p) q
        = if p = q then nodeMapGet nodeMap p + 1 else nodeMapGet nodeMap q
  | [], p, q, _, hp, hq => by
    simp only [nodeMapIncr, nodeMapGet]
    by_cases hpq : p = q
    · simp [hpq, (Node.sameKey_iff q q hq hq).mpr rfl]
    · have : Node.sameKey p q = false := by
        rw [← Bool.not_eq_true]
        exact fun h => hpq ((Node.sameKey_iff p q hp hq).mp h)
      simp [hpq, this]
  | kv :: rest, p, q, hk, hp, hq => by
    have hkv : kv.1.ci = 0 := hk kv (List.mem_cons_self _ _)
    have hrest : ∀ kv ∈ rest, kv.1.ci = 0 := fun x hx => hk x (List.mem_cons_of_mem _ hx)
    have ih := nodeMapGet_incr rest p q hrest hp hq
    have key : ∀ r : Node, r.ci = 0 → (Node.sameKey kv.1 r = true ↔ kv.1 = r) :=
      fun r hr => Node.sameKey_iff kv.1 r hkv hr
    by_cases h1 : kv.1 = p
    · have s1 : Node.sameKey kv.1 p = true := (key p hp).mpr h1
      simp only [nodeMapIncr, s1, if_true, nodeMapGet]
      by_cases hpq : p = q
      · subst hpq
        simp [s1]
      · have s2 : Node.sameKey kv.1 q = false := by
          rw [← Bool.not_eq_true]
          exact fun h => hpq (h1 ▸ (key q hq).mp h)
        simp [s2, hpq]
    · have s1 : Node.sameKey kv.1 p = false := by
        rw [← Bool.not_eq_true]
        exact fun h => h1 ((key p hp).mp h)
      simp only [nodeMapIncr, s1, Bool.false_eq_true, if_false, nodeMapGet, ih]
      by_cases hpq : p = q
      · subst hpq
        simp [s1]
      · simp [hpq]

theorem nodeMapIncr_keys :
    ∀ (nodeMap : List (Node × Nat)) (p : Node), (∀ kv ∈ nodeMap, kv.1.ci = 0) → p.ci = 0 →
      ∀ kv ∈ nodeMapIncr nodeMap p, kv.1.ci = 0
  | [], p, _, hp => by
    intro kv hkv
    simp only [nodeMapIncr, List.mem_singleton] at hkv
    subst hkv
    exact hp
  | x :: rest, p, hk, hp => by
    intro kv hkv
    unfold nodeMapIncr at hkv
    split at hkv
    · rcases List.mem_cons.mp hkv with rfl | h
      · exact hk x (List.mem_cons_self _ _)
      · exact hk kv (List.mem_cons_of_mem _ h)
    · rcases List.mem_cons.mp hkv with rfl | h
      · exact hk kv (List.mem_cons_self _ _)
      · exact nodeMapIncr_keys rest p (fun y hy => hk y (List.mem_cons_of_mem _ hy)) hp kv h

theorem readCoords_drop (d : Nat) (hd : d = 1 ∨ d = 2 ∨ d = 3) (reals : List number) (k : Nat) :
    readCoords (d : Int) (reals.drop (d * k))
      = some (⟨(recordAt d reals k).1, (recordAt d reals k).2.1, (recordAt d reals k).2.2, 0⟩,
          reals.drop (d * (k + 1))) := by
  rcases hd with rfl | rfl | rfl <;>
    simp [readCoords, recordAt, List.getD_eq_getElem?_getD, List.getElem?_drop, Nat.mul_add,
      Nat.add_comm]

theorem readNodes_spec (d : Nat) (hd : d = 1 ∨ d = 2 ∨ d = 3) (reals : List number) :
    ∀ (count k : Nat) (nodeMap : List (Node × Nat)) (nodes : List Node),
      (∀ kv ∈ nodeMap, kv.1.ci = 0) →
      (∀ c : number × number × number,
        nodeMapGet nodeMap ⟨c.1, c.2.1, c.2.2, 0⟩ = countBefore d reals k c) →
      nodes = (List.range k).map (specNode d reals) →
      readNodes (d : Int) count (reals.drop (d * k)) nodeMap nodes
        = (true, (List.range (k + count)).map (specNode d reals))
  | 0, k, _, nodes, _, _, hnodes => by
    simp [readNodes, hnodes]
  | count + 1, k, nodeMap, nodes, hkeys, hrep, hnodes => by
    unfold readNodes
    rw [readCoords_drop d hd reals k]
    simp only
    have hstep := readNodes_spec d hd reals count (k + 1)
      (nodeMapIncr nodeMap
        ⟨(recordAt d reals k).1, (recordAt d reals k).2.1, (recordAt d reals k).2.2, 0⟩)
      (nodes ++ [specNode d reals k])
      (nodeMapIncr_keys _ _ hkeys rfl)
      (by
        intro c
        rw [nodeMapGet_incr _ _ _ hkeys rfl rfl, countBefore_succ, hrep, hrep]
        by_cases hc : recordAt d reals k = c
        · subst hc; simp
        · have : ¬ ((⟨(recordAt d reals k).1, (recordAt d reals k).2.1,
              (recordAt d reals k).2.2, 0⟩ : Node) = ⟨c.1, c.2.1, c.2.2, 0⟩) := by
            intro h
            apply hc
            simp only [Node.mk.injEq, and_true] at h
            exact Prod.ext h.1 (Prod.ext h.2.1 h.2.2)
          simp [hc, this])
      (by rw [List.range_succ, List.map_append, hnodes]; rfl)
    have hci : ({ (⟨(recordAt d reals k).1, (recordAt d reals k).2.1,
        (recordAt d reals k).2.2, 0⟩ : Node) with
        ci := intOfSizeT (nodeMapGet nodeMap
          ⟨(recordAt d reals k).1, (recordAt d reals k).2.1, (recordAt d reals k).2.2, 0⟩) } : Node)
        = specNode d reals k := by
      rw [hrep (recordAt d reals k)]
      rfl
    rw [hci, hstep]
    congr 3
    omega

theorem readNodes_eq (d : Nat) (hd : d = 1 ∨ d = 2 ∨ d = 3) (reals : List number) (n : Nat) :
    readNodes (d : Int) n reals [] [] = (true, (List.range n).map (specNode d reals)) := by
  have h := readNodes_spec d hd reals n 0 [] []
    (by intro kv hkv; cases hkv)
    (by intro c; simp [nodeMapGet, countBefore])
    (by simp)
  simpa using h

theorem countBefore_mono (d : Nat) (reals : List number) (c : number × number × number)
    (k : Nat) : ∀ j, k ≤ j → countBefore d reals k c ≤ countBefore d reals j c := by
  intro j hkj
  induction j with
  | zero =>
    have : k = 0 := by omega
    subst this
    exact le_refl _
  | succ j ih =>
    by_cases hk : k = j + 1
    · subst hk; exact le_refl _
    · have := ih (by omega)
      rw [countBefore_succ]
      omega

/-- C6: when `LoadMatrix` returns success on a file of world dimension 1, 2 or
3, node `i` of the matrix carries the coordinates of record `i` (unused
coordinates 0) and as `ci` the number of earlier records with the same
`(x, y, z)`; hence equal records get 0, 1, 2, ... in their order, and two
nodes at different positions differ in one of the four fields. -/
theorem C6_occurrence_index (env : Env) (makeAbs : Bool) (fuel : Nat) (m0 m : Matrix)
    (filename : String) (f : MatFile) (d : Nat)
    (hf : env.readFile filename = some f) (hd : d = 1 ∨ d = 2 ∨ d = 3)
    (hdim : f.worldDim = (d : Int)) (hint : f.numEntries < 2147483648)
    (h : (LoadMatrix env makeAbs fuel m0 filename).res = .ret (true, m)) :
    m.nodes.length = f.numEntries.toNat ∧
    (∀ i, i < f.numEntries.toNat →
      m.nodes[i]? = some ⟨(recordAt d f.reals i).1, (recordAt d f.reals i).2.1,
        (recordAt d f.reals i).2.2,
        ((countBefore d f.reals i (recordAt d f.reals i) : Nat) : Int)⟩) ∧
    (∀ i j, i < j → j < f.numEntries.toNat → m.nodes[i]? ≠ m.nodes[j]?) := by
  obtain ⟨f1, nodes, out1, s, hf1, hn, hnodes, hlines⟩ :=
    LoadMatrix_inv env makeAbs fuel m0 m filename h
  rw [hf] at hf1
  cases hf1
  obtain ⟨hres, -⟩ := LoadMatrix_of env makeAbs fuel m0 filename f nodes out1 s hf hn hnodes hlines
  rw [hdim, readNodes_eq d hd f.reals] at hnodes
  simp only [Prod.mk.injEq, true_and] at hnodes
  have hmn : m.nodes = (List.range f.numEntries.toNat).map (specNode d f.reals) := by
    rw [h] at hres
    have hlen : (⟨f.worldDim, nodes, s.links⟩ : Matrix).links.length
        = (⟨f.worldDim, nodes, s.links⟩ : Matrix).nodes.length := by
      have h2 := linkLines_length _ _ _ _ _ _ _ _ _ hlines
      simp only [List.length_replicate] at h2
      simp [h2, ← hnodes]
    cases makeAbs
    · simp only [Bool.false_eq_true, if_false, Outcome.ret.injEq, Prod.mk.injEq, true_and] at hres
      rw [hres, hnodes]
    · simp only [if_true, MakeAbs_eq _ hlen, Outcome.ret.injEq, Prod.mk.injEq, true_and] at hres
      rw [hres, hnodes]
  have hbound : ∀ i, i < f.numEntries.toNat →
      intOfSizeT (countBefore d f.reals i (recordAt d f.reals i))
        = ((countBefore d f.reals i (recordAt d f.reals i) : Nat) : Int) := by
    intro i hi
    apply intOfSizeT_small
    have := countBefore_le d f.reals i (recordAt d f.reals i)
    omega
  have hget : ∀ i, i < f.numEntries.toNat →
      m.nodes[i]? = some ⟨(recordAt d f.reals i).1, (recordAt d f.reals i).2.1,
        (recordAt d f.reals i).2.2,
        ((countBefore d f.reals i (recordAt d f.reals i) : Nat) : Int)⟩ := by
    intro i hi
    rw [hmn, List.getElem?_map, List.getElem?_range hi, Option.map_some', specNode, hbound i hi]
  refine ⟨by rw [hmn]; simp, hget, ?_⟩
  intro i j hij hj heq
  rw [hget i (by omega), hget j hj] at heq
  simp only [Option.some.injEq, Node.mk.injEq, Nat.cast_inj] at heq
  obtain ⟨hx, hy, hz, hc⟩ := heq
  have hrec : recordAt d f.reals i = recordAt d f.reals j := Prod.ext hx (Prod.ext hy hz)
  rw [hrec] at hc
  have h1 := countBefore_succ d f.reals i (recordAt d f.reals j)
  rw [if_pos hrec] at h1
  have h2 := countBefore_mono d f.reals (recordAt d f.reals j) (i + 1) j (by omega)
  omega

/-- C6 on `sampleDupFile`: of the records 7, 7, 3, 7 the three records 7 get the
indices 0, 1, 2 in their order. -/
theorem C6_occurrence_index_witness :
    sampleEnv.readFile "dup.mat" = some sampleDupFile ∧
    (LoadMatrix sampleEnv false 20 Matrix.init "dup.mat").res = .ret (true, sampleDupLoaded) ∧
    (sampleDupLoaded.nodes.length = sampleDupFile.numEntries.toNat ∧
      (∀ i, i < sampleDupFile.numEntries.toNat →
        sampleDupLoaded.nodes[i]?
          = some ⟨(recordAt 1 sampleDupFile.reals i).1, (recordAt 1 sampleDupFile.reals i).2.1,
            (recordAt 1 sampleDupFile.reals i).2.2,
            ((countBefore 1 sampleDupFile.reals i (recordAt 1 sampleDupFile.reals i) : Nat)
              : Int)⟩) ∧
      (∀ i j, i < j → j < sampleDupFile.numEntries.toNat →
        sampleDupLoaded.nodes[i]? ≠ sampleDupLoaded.nodes[j]?)) :=
  ⟨by decide, by decide,
    C6_occurrence_index sampleEnv false 20 Matrix.init sampleDupLoaded "dup.mat" sampleDupFile 1
      (by decide) (by decide) (by decide) (by decide) (by decide)⟩

theorem linkLines_cons (env : Env) (fuel : Nat) (filename : String) (n : Nat) (ln : String)
    (rest : List String) (s s1 : LoadState) (out out1 : List String)
    (h : linkLine env fuel filename n ln s out = ⟨out1, .ret s1⟩) :
    linkLines env fuel filename n (ln :: rest) s out
      = linkLines env fuel filename n rest s1 out1 := by
  simp only [linkLines, h]

theorem tokenLoop_nil (env : Env) (fuel : Nat) (t0 t : Tok)
    (h : tokenLoop env [] fuel t0 = some t) : t = t0 := by
  cases fuel with
  | zero => simp [tokenLoop] at h
  | succ k =>
    simp only [tokenLoop, List.length_nil, Nat.not_lt_zero, if_false, Option.some.injEq] at h
    exact h.symm

/-- C7: for a line of the link section on which the tokenizer loop ends with
the values `t.values`: when the number of values is not 3, the iteration
returns with every row as it was and the loop goes on with the lines that
follow; when the values are `a, b, w`, converted to the indices `i1`, `i2`
with `i1` the index of a row, the link `(i2, w)` is appended to the end of
row `i1`, every other row is as it was, and the loop goes on as well. -/
theorem C7_link_line (env : Env) (fuel : Nat) (filename : String) (n : Nat) (ln : String)
    (rest : List String) (s : LoadState) (out : List String) (t : Tok)
    (htok : tokenLoop env ln.data fuel ⟨0, [], s.numNANs⟩ = some t) :
    (t.values.length ≠ 3 →
      ∃ out1, linkLine env fuel filename n ln s out = ⟨out1, .ret ⟨s.links, t.numNANs⟩⟩ ∧
        linkLines env fuel filename n (ln :: rest) s out
          = linkLines env fuel filename n rest ⟨s.links, t.numNANs⟩ out1) ∧
    (∀ (a b w : number) (i1 i2 : Nat) (row : List Link), t.values = [a, b, w] →
      toSizeT a = some i1 → toSizeT b = some i2 → s.links[i1]? = some row →
      ∃ out1 links1,
        linkLine env fuel filename n ln s out = ⟨out1, .ret ⟨links1, t.numNANs⟩⟩ ∧
        links1.length = s.links.length ∧
        links1[i1]? = some (row ++ [(i2, w)]) ∧
        (∀ j, j ≠ i1 → links1[j]? = s.links[j]?) ∧
        linkLines env fuel filename n (ln :: rest) s out
          = linkLines env fuel filename n rest ⟨links1, t.numNANs⟩ out1) := by
  constructor
  · intro hlen
    by_cases hne : ln.data = []
    · rw [hne] at htok
      have ht := tokenLoop_nil env fuel _ t htok
      subst ht
      have h1 : linkLine env fuel filename n ln s out = ⟨out, .ret ⟨s.links, s.numNANs⟩⟩ := by
        simp [linkLine, hne]
      exact ⟨out, h1, linkLines_cons env fuel filename n ln rest s _ out out h1⟩
    · by_cases hlt : t.values.length < 3
      · have h1 : linkLine env fuel filename n ln s out
            = ⟨out ++ ["ERROR -- Not enough values specified in connection. In File: "
                  ++ filename, "line read: " ++ ln], .ret ⟨s.links, t.numNANs⟩⟩ := by
          simp [linkLine, hne, htok, hlt]
        exact ⟨_, h1, linkLines_cons env fuel filename n ln rest s _ out _ h1⟩
      · have hgt : t.values.length > 3 := by omega
        have h1 : linkLine env fuel filename n ln s out
            = ⟨out ++ ["ERROR -- Too many values specified in connection. "
                  ++ "Block matrices currently not supported. In File: " ++ filename,
                "line read: " ++ ln], .ret ⟨s.links, t.numNANs⟩⟩ := by
          simp [linkLine, hne, htok, hlt, hgt]
        exact ⟨_, h1, linkLines_cons env fuel filename n ln rest s _ out _ h1⟩
  · intro a b w i1 i2 row hv ha hb hrow
    have hne : ln.data ≠ [] := by
      intro hnil
      rw [hnil] at htok
      have ht := tokenLoop_nil env fuel _ t htok
      rw [ht] at hv
      simp at hv
    have h1 : linkLine env fuel filename n ln s out
        = ⟨reportIndices filename n i1 i2 out,
            .ret ⟨s.links.set i1 (row ++ [(i2, w)]), t.numNANs⟩⟩ := by
      simp [linkLine, hne, htok, hv, ha, hb, hrow]
    have hi : i1 < s.links.length := by
      by_contra hc
      rw [List.getElem?_eq_none (by omega)] at hrow
      cases hrow
    refine ⟨_, _, h1, by simp, ?_, ?_, linkLines_cons env fuel filename n ln rest s _ out _ h1⟩
    · simp [List.getElem?_set, hi]
    · intro j hj
      exact List.getElem?_set_ne (Ne.symm hj)

/-- C7 on the line `0 1` (two values) in a matrix of two rows. -/
theorem C7_link_line_witness :
    tokenLoop sampleEnv "0 1".data 20 ⟨0, [], 0⟩ = some ⟨3, [0, 1], 0⟩ ∧
    (∃ out1, linkLine sampleEnv 20 "in.mat" 2 "0 1" ⟨[[(0, 2)], []], 0⟩ []
        = ⟨out1, .ret ⟨[[(0, 2)], []], 0⟩⟩ ∧
      linkLines sampleEnv 20 "in.mat" 2 ("0 1" :: ["0 1 -5.0"]) ⟨[[(0, 2)], []], 0⟩ []
        = linkLines sampleEnv 20 "in.mat" 2 ["0 1 -5.0"] ⟨[[(0, 2)], []], 0⟩ out1) ∧
    (linkLines sampleEnv 20 "in.mat" 2 ("0 1" :: ["0 1 -5.0"]) ⟨[[(0, 2)], []], 0⟩ []).res
      = .ret ⟨[[(0, 2), (1, -5)], []], 0⟩ :=
  ⟨by decide,
    (C7_link_line sampleEnv 20 "in.mat" 2 "0 1" ["0 1 -5.0"] ⟨[[(0, 2)], []], 0⟩ []
      ⟨3, [0, 1], 0⟩ (by decide)).1 (by decide),
    by decide⟩

/-! ## The tokenizer loop on a token that is taken as a NaN placeholder -/

/-- When an iteration of the tokenizer loop changes the counter `numNANs`
only, whatever the counter is, the loop never ends. -/
theorem tokenLoop_stuck (env : Env) (ln : List Char) (start : Nat) (values : List number)
    (hlt : start < ln.length)
    (hfix : ∀ k, tokenBody env ln ⟨start, values, k⟩ = ⟨start, values, k + 1⟩) :
    ∀ fuel k, tokenLoop env ln fuel ⟨start, values, k⟩ = none := by
  intro fuel
  induction fuel with
  | zero => intro k; rfl
  | succ fuel ih =>
    intro k
    simp only [tokenLoop, hlt, if_true, hfix k]
    exact ih (k + 1)

/-- On the line `0 1 nan` the first iteration of the tokenizer loop takes the
NaN branch (the search for `n` from position 0 finds the `n` of `nan`), which
adds 1 to the counter and leaves the position at 0. -/
theorem tokenBody_nan_line (env : Env) (k : Nat) :
    tokenBody env "0 1 nan".data ⟨0, [], k⟩ = ⟨0, [], k + 1⟩ := by
  rfl

/-- C8 (the code at the failing input): on the link line `0 1 nan` the
tokenizer loop does not end, whatever the fuel, the C library and the value of
the NaN counter before the line; so the line yields no value list, the counter
is not raised by exactly one, and `LoadMatrix` does not get past this line. -/
theorem C8_nan_line_never_ends (env : Env) (fuel k : Nat) :
    tokenLoop env "0 1 nan".data fuel ⟨0, [], k⟩ = none ∧
    ∀ (filename : String) (n : Nat) (links : List (List Link)) (out : List String),
      (linkLine env fuel filename n "0 1 nan" ⟨links, k⟩ out).res = .timeout := by
  have h := tokenLoop_stuck env "0 1 nan".data 0 [] (by decide) (tokenBody_nan_line env) fuel k
  refine ⟨h, ?_⟩
  intro filename n links out
  have hne : "0 1 nan".data ≠ [] := by decide
  simp only [linkLine, hne, if_false, h]

/-! ## SaveSimpleVector: lemmas -/

theorem coordLine_eq (env : Env) (d : Nat) (hd : d = 1 ∨ d = 2 ∨ d = 3) (n : Node) :
    coordLine env (d : Int) n = some (coordText env d n) := by
  rcases hd with rfl | rfl | rfl <;>
    simp [coordLine, coordText, String.intercalate, String.intercalate.go]

theorem coordLines_eq (env : Env) (d : Nat) (hd : d = 1 ∨ d = 2 ∨ d = 3) :
    ∀ (es : List (Node × number)) (written : List String),
      coordLines env (d : Int) es written
        = (true, written ++ es.map fun e => coordText env d e.1)
  | [], written => by simp [coordLines]
  | e :: es, written => by
    simp only [coordLines, coordLine_eq env d hd, coordLines_eq env d hd es, List.map_cons,
      List.append_assoc, List.singleton_append]

theorem valueLines_length (env : Env) :
    ∀ (es : List (Node × number)) (i : Nat), (valueLines env i es).length = es.length
  | [], _ => rfl
  | _ :: es, i => by simp [valueLines, valueLines_length env es (i + 1)]

theorem valueLines_getElem? (env : Env) :
    ∀ (es : List (Node × number)) (i k : Nat),
      (valueLines env i es)[k]? = es[k]?.map fun e =>
        toString (intOfSizeT (i + k)) ++ " " ++ toString (intOfSizeT (i + k)) ++ " "
          ++ env.showNumber 16 e.2
  | [], _, _ => by simp [valueLines]
  | e :: es, i, 0 => by simp [valueLines]
  | e :: es, i, k + 1 => by
    simp only [valueLines, List.getElem?_cons_succ, valueLines_getElem? env es (i + 1) k]
    have : i + 1 + k = i + (k + 1) := by omega
    rw [this]

/-- The file that `SaveSimpleVector` writes for a world dimension 1, 2 or 3
when the file can be opened. -/
theorem SaveSimpleVector_eq (env : Env) (v : SimpleVector) (filename : String) (d : Nat)
    (hw : env.canWrite filename = true) (hd : d = 1 ∨ d = 2 ∨ d = 3)
    (hdim : v.worldDim = (d : Int)) :
    SaveSimpleVector env v filename =
      ⟨["INFO -- saving vector to " ++ filename],
        some (["1", toString v.worldDim, toString v.entries.length]
          ++ (v.entries.map fun e => coordText env d e.1) ++ ["1"]
          ++ valueLines env 0 v.entries),
        true⟩ := by
  unfold SaveSimpleVector
  rw [if_pos hw, hdim, coordLines_eq env d hd]

/-! ## Claims on the vector writer and on the driver -/

/-- C9 (amended): for a vector of world dimension `d` in 1, 2, 3 with `n`
entries, `n` at most 2^31, and an output file that can be opened,
`SaveSimpleVector` returns success and writes exactly `4 + 2 n` lines: `1`,
`d`, `n`, then for each entry `i` the line of the first `d` coordinates of its
node separated by single spaces, then `1`, then for each entry `i` the line
`i i value` with the scalar of entry `i`. -/
theorem C9_save_format (env : Env) (v : SimpleVector) (filename : String) (d : Nat)
    (hw : env.canWrite filename = true) (hd : d = 1 ∨ d = 2 ∨ d = 3)
    (hdim : v.worldDim = (d : Int)) (hn : v.entries.length ≤ 2147483648) :
    ∃ lines, SaveSimpleVector env v filename
        = ⟨["INFO -- saving vector to " ++ filename], some lines, true⟩ ∧
      lines.length = 4 + 2 * v.entries.length ∧
      lines[0]? = some "1" ∧
      lines[1]? = some (toString d) ∧
      lines[2]? = some (toString v.entries.length) ∧
      (∀ i e, v.entries[i]? = some e → lines[3 + i]? = some (coordText env d e.1)) ∧
      lines[3 + v.entries.length]? = some "1" ∧
      (∀ i e, v.entries[i]? = some e →
        lines[4 + v.entries.length + i]? = some (valueText env i e.2)) := by
  refine ⟨_, SaveSimpleVector_eq env v filename d hw hd hdim, ?_, ?_, ?_, ?_, ?_, ?_, ?_⟩
  · simp [valueLines_length]; omega
  · simp
  · simp only [hdim, List.cons_append, List.nil_append, List.getElem?_cons_succ,
      List.getElem?_cons_zero]
    rfl
  · simp
  · intro i e he
    have hi : i < v.entries.length := by
      by_contra hc
      rw [List.getElem?_eq_none (by omega)] at he
      cases he
    rw [List.append_assoc, List.append_assoc, List.getElem?_append_right (by simp),
      List.getElem?_append_left (by simpa using hi)]
    simp [he]
  · rw [List.append_assoc, List.append_assoc, List.getElem?_append_right (by simp),
      List.getElem?_append_right (by simp)]
    simp
  · intro i e he
    have hi : i < v.entries.length := by
      by_contra hc
      rw [List.getElem?_eq_none (by omega)] at he
      cases he
    rw [List.getElem?_append_right (by simp; omega)]
    have hidx : 4 + v.entries.length + i
        - (["1", toString v.worldDim, toString v.entries.length]
            ++ (v.entries.map fun e => coordText env d e.1) ++ ["1"]).length = i := by
      simp; omega
    rw [hidx, valueLines_getElem?, he, Option.map_some', Nat.zero_add,
      intOfSizeT_small i (by omega)]
    rfl

/-- C9 on `sampleVector`: the lines written are 1, 2, 2, `0 0`, `1 1`, 1,
`0 0 0.5`, `1 1 -0.5`. -/
theorem C9_save_format_witness :
    sampleEnv.canWrite "out.vec" = true ∧
    sampleVector.worldDim = ((2 : Nat) : Int) ∧
    sampleVector.entries.length ≤ 2147483648 ∧
    SaveSimpleVector sampleEnv sampleVector "out.vec"
      = ⟨["INFO -- saving vector to out.vec"],
          some ["1", "2", "2", "0 0", "1 1", "1", "0 0 0.5", "1 1 -0.5"], true⟩ ∧
    ∃ lines, SaveSimpleVector sampleEnv sampleVector "out.vec"
        = ⟨["INFO -- saving vector to " ++ "out.vec"], some lines, true⟩ ∧
      lines.length = 4 + 2 * sampleVector.entries.length ∧
      lines[0]? = some "1" ∧
      lines[1]? = some (toString 2) ∧
      lines[2]? = some (toString sampleVector.entries.length) ∧
      (∀ i e, sampleVector.entries[i]? = some e →
        lines[3 + i]? = some (coordText sampleEnv 2 e.1)) ∧
      lines[3 + sampleVector.entries.length]? = some "1" ∧
      (∀ i e, sampleVector.entries[i]? = some e →
        lines[4 + sampleVector.entries.length + i]? = some (valueText sampleEnv i e.2)) :=
  ⟨by decide, by decide, by decide, by decide!,
    C9_save_format sampleEnv sampleVector "out.vec" 2 (by decide) (by decide) (by decide)
      (by decide)⟩

/-- With more than 2^31 entries the index line of entry 2^31 carries the index
converted to `int`. -/
theorem SaveSimpleVector_wraps (env : Env) (x : Node × number) (N : Nat) (filename : String)
    (hw : env.canWrite filename = true) (hN : 2147483648 < N) :
    ∃ lines, (SaveSimpleVector env ⟨1, List.replicate N x⟩ filename).file = some lines ∧
      lines[4 + N + 2147483648]? =
        some (toString (intOfSizeT 2147483648) ++ " " ++ toString (intOfSizeT 2147483648)
          ++ " " ++ env.showNumber 16 x.2) := by
  refine ⟨_, by rw [SaveSimpleVector_eq env _ filename 1 hw (Or.inl rfl) rfl], ?_⟩
  rw [List.getElem?_append_right (by simp; omega)]
  have hidx : 4 + N + 2147483648
      - (["1", toString (1 : Int), toString (List.replicate N x).length]
          ++ ((List.replicate N x).map fun e => coordText env 1 e.1) ++ ["1"]).length
      = 2147483648 := by
    simp; omega
  rw [hidx, valueLines_getElem?, List.getElem?_replicate, if_pos hN, Option.map_some',
    Nat.zero_add]

/-- C9 (counterexample): the claim fails for an output file that cannot be
opened (nothing is written and the function returns failure), and for a vector
of 2^31 + 1 entries, where the index line of entry 2^31 starts with the
negative number that the conversion of the index to `int` gives. -/
theorem C9_counterexample :
    ((SaveSimpleVector sampleEnv sampleVector "locked.vec").ok = false ∧
      (SaveSimpleVector sampleEnv sampleVector "locked.vec").file = none) ∧
    (∃ lines,
      (SaveSimpleVector sampleEnv ⟨1, List.replicate 2147483649 (Node.init, 0)⟩ "out.vec").file
        = some lines ∧
      lines[4 + 2147483649 + 2147483648]? = some "-2147483648 -2147483648 0" ∧
      lines[4 + 2147483649 + 2147483648]? ≠ some (valueText sampleEnv 2147483648 0)) := by
  refine ⟨⟨by decide, by decide⟩, ?_⟩
  obtain ⟨lines, hfile, hline⟩ :=
    SaveSimpleVector_wraps sampleEnv (Node.init, 0) 2147483649 "out.vec" (by decide) (by decide)
  have hval : toString (intOfSizeT 2147483648) ++ " " ++ toString (intOfSizeT 2147483648)
      ++ " " ++ sampleEnv.showNumber 16 (Node.init, (0 : number)).2
      = "-2147483648 -2147483648 0" := by decide
  rw [hval] at hline
  refine ⟨lines, hfile, hline, ?_⟩
  rw [hline]
  decide

/-! ## main: lemmas -/

theorem isPrefixOf_iff_append :
    ∀ (needle s : List Char), needle.isPrefixOf s = true ↔ ∃ rest, s = needle ++ rest
  | [], s => by simp [List.isPrefixOf]
  | c :: needle, [] => by simp [List.isPrefixOf]
  | c :: needle, a :: s => by
    simp only [List.isPrefixOf, Bool.and_eq_true, beq_iff_eq, List.cons_append, List.cons.injEq,
      isPrefixOf_iff_append needle s]
    constructor
    · rintro ⟨rfl, rest, rfl⟩
      exact ⟨rest, rfl, rfl⟩
    · rintro ⟨rest, rfl, rfl⟩
      exact ⟨rfl, rest, rfl⟩

theorem strFindFrom_ge (needle : List Char) :
    ∀ (s : List Char) (p q : Nat), strFindFrom needle s p = some q → p ≤ q
  | [], p, q, h => by
    simp only [strFindFrom] at h
    split at h
    · simp only [Option.some.injEq] at h; omega
    · cases h
  | c :: cs, p, q, h => by
    simp only [strFindFrom] at h
    split at h
    · simp only [Option.some.injEq] at h; omega
    · have := strFindFrom_ge needle cs (p + 1) q h
      omega

/-- The condition `s.find(needle) == 0` holds exactly when `s` starts with
`needle`. -/
theorem strFind_zero_iff (s needle : List Char) :
    strFind s needle 0 = some 0 ↔ ∃ rest, s = needle ++ rest := by
  unfold strFind
  simp only [Nat.zero_le, if_true, List.drop_zero]
  cases s with
  | nil =>
    simp only [strFindFrom]
    constructor
    · intro h
      split at h
      · rename_i hn; exact ⟨[], by simp [hn]⟩
      · cases h
    · rintro ⟨rest, h⟩
      have : needle = [] := by
        cases needle with
        | nil => rfl
        | cons a l => simp at h
      simp [this]
  | cons c cs =>
    simp only [strFindFrom]
    rw [← isPrefixOf_iff_append]
    constructor
    · intro h
      split at h
      · assumption
      · have := strFindFrom_ge needle cs 1 0 h
        omega
    · intro h
      simp [h]

theorem scanArgs_ok :
    ∀ (args : List String) (p : Params) (files : List String),
      (∀ a ∈ args, a.data.head? = some '-' → a = "-abs" ∨ a = "-verbose") →
      files.length + (args.filter fun a => a.data.head? ≠ some '-').length ≤ 3 →
      scanArgs args p files =
        .ok ⟨p.makeAbs || args.contains "-abs", p.verbose || args.contains "-verbose"⟩
          (files ++ args.filter fun a => a.data.head? ≠ some '-')
  | [], p, files, _, _ => by simp [scanArgs]
  | a :: rest, p, files, hopt, hlen => by
    have hrest : ∀ b ∈ rest, b.data.head? = some '-' → b = "-abs" ∨ b = "-verbose" :=
      fun b hb => hopt b (List.mem_cons_of_mem _ hb)
    by_cases ha : a.data.head? = some '-'
    · have hlen1 : files.length + (rest.filter fun a => a.data.head? ≠ some '-').length ≤ 3 := by
        simpa [List.filter_cons, ha] using hlen
      rcases hopt a (List.mem_cons_self _ _) ha with rfl | rfl
      · rw [scanArgs, if_pos ha, if_pos rfl, scanArgs_ok rest _ files hrest hlen1]
        simp [List.filter_cons]
      · have hne : ¬ ("-verbose" = "-abs") := by decide
        rw [scanArgs, if_pos ha, if_neg hne, if_pos rfl, scanArgs_ok rest _ files hrest hlen1]
        have hne2 : ("-verbose" == "-abs") = false := by decide
        simp [List.filter_cons, List.contains_cons, hne2]
    · have hfc : ((a :: rest).filter fun a => a.data.head? ≠ some '-')
          = a :: rest.filter fun a => a.data.head? ≠ some '-' := by
        simp [List.filter_cons, ha]
      rw [hfc, List.length_cons] at hlen
      have hlen0 : files.length < maxNumFiles := by
        unfold maxNumFiles
        omega
      have hlen1 : (files ++ [a]).length
          + (rest.filter fun a => a.data.head? ≠ some '-').length ≤ 3 := by
        simp only [List.length_append, List.length_singleton]
        omega
      have hna : ¬ ("-abs" = a) := by
        rintro rfl
        exact ha (by decide)
      have hnv : ¬ ("-verbose" = a) := by
        rintro rfl
        exact ha (by decide)
      rw [scanArgs, if_neg ha, if_pos hlen0, scanArgs_ok rest p (files ++ [a]) hrest hlen1, hfc]
      simp [List.contains_cons, hna, hnv]

theorem main_of_scan (env : Env) (fuel : Nat) (argv : List String)
    (hopt : ∀ a ∈ argv.drop 2, a.data.head? = some '-' → a = "-abs" ∨ a = "-verbose")
    (hfiles : ((argv.drop 2).filter fun a => a.data.head? ≠ some '-').length ≤ 3) :
    main env fuel argv =
      match selectCommand (argv.getD 1 "") with
      | .help => ⟨helpText, [], .ret 0⟩
      | c => runCommand env fuel
          ⟨(argv.drop 2).contains "-abs", (argv.drop 2).contains "-verbose"⟩
          ((argv.drop 2).filter fun a => a.data.head? ≠ some '-') c.extract := by
  unfold main
  rw [scanArgs_ok (argv.drop 2) ⟨false, false⟩ [] hopt (by simpa using hfiles)]
  simp

theorem runCommand_file_count (env : Env) (fuel : Nat) (p : Params) (files : List String)
    (extract : SimpleVector → Matrix → Option SimpleVector) (h : files.length ≠ 2) :
    runCommand env fuel p files extract
      = ⟨["ERROR: An in-file and an out-file have to be specified"], [], .ret 1⟩ := by
  unfold runCommand
  rw [if_neg h]

/-- C10: for an argument vector whose arguments after the command word are
recognized options and at most 3 file arguments: the command word takes the
branch of `Diagonal` exactly when it starts with `diag`, the branch of
`MaxOffDiag` exactly when it starts with `maxOffDiag`, and the branch of
`MinOffDiag` exactly when it starts with `minOffDiag`; and when the command is
one of the three and the number of file arguments is not 2, the run prints
`ERROR: An in-file and an out-file have to be specified` and nothing else,
writes no file and exits with code 1, whatever the files hold. -/
theorem C10_dispatch_and_file_count (env : Env) (fuel : Nat) (argv : List String)
    (hopt : ∀ a ∈ argv.drop 2, a.data.head? = some '-' → a = "-abs" ∨ a = "-verbose")
    (hfiles : ((argv.drop 2).filter fun a => a.data.head? ≠ some '-').length ≤ 3) :
    (selectCommand (argv.getD 1 "") = .diag
      ↔ ∃ rest, (argv.getD 1 "").data = "diag".data ++ rest) ∧
    (selectCommand (argv.getD 1 "") = .maxOffDiag
      ↔ ∃ rest, (argv.getD 1 "").data = "maxOffDiag".data ++ rest) ∧
    (selectCommand (argv.getD 1 "") = .minOffDiag
      ↔ ∃ rest, (argv.getD 1 "").data = "minOffDiag".data ++ rest) ∧
    (selectCommand (argv.getD 1 "") = .diag →
      main env fuel argv = runCommand env fuel
        ⟨(argv.drop 2).contains "-abs", (argv.drop 2).contains "-verbose"⟩
        ((argv.drop 2).filter fun a => a.data.head? ≠ some '-') Diagonal) ∧
    (selectCommand (argv.getD 1 "") = .maxOffDiag →
      main env fuel argv = runCommand env fuel
        ⟨(argv.drop 2).contains "-abs", (argv.drop 2).contains "-verbose"⟩
        ((argv.drop 2).filter fun a => a.data.head? ≠ some '-') MaxOffDiag) ∧
    (selectCommand (argv.getD 1 "") = .minOffDiag →
      main env fuel argv = runCommand env fuel
        ⟨(argv.drop 2).contains "-abs", (argv.drop 2).contains "-verbose"⟩
        ((argv.drop 2).filter fun a => a.data.head? ≠ some '-') MinOffDiag) ∧
    (selectCommand (argv.getD 1 "") ≠ .help →
      ((argv.drop 2).filter fun a => a.data.head? ≠ some '-').length ≠ 2 →
      main env fuel argv
        = ⟨["ERROR: An in-file and an out-file have to be specified"], [], .ret 1⟩) := by
  have hmain := main_of_scan env fuel argv hopt hfiles
  have e1 : "diag".data = ['d', 'i', 'a', 'g'] := rfl
  have e2 : "maxOffDiag".data = ['m', 'a', 'x', 'O', 'f', 'f', 'D', 'i', 'a', 'g'] := rfl
  have e3 : "minOffDiag".data = ['m', 'i', 'n', 'O', 'f', 'f', 'D', 'i', 'a', 'g'] := rfl
  have hd : ∀ r r1 : List Char, ¬ ("diag".data ++ r = "maxOffDiag".data ++ r1) := by
    intro r r1 h
    rw [e1, e2] at h
    simp at h
  have hd2 : ∀ r r1 : List Char, ¬ ("diag".data ++ r = "minOffDiag".data ++ r1) := by
    intro r r1 h
    rw [e1, e3] at h
    simp at h
  have hm : ∀ r r1 : List Char, ¬ ("maxOffDiag".data ++ r = "minOffDiag".data ++ r1) := by
    intro r r1 h
    rw [e2, e3] at h
    simp at h
  generalize argv.getD 1 "" = cmd at hmain ⊢
  have s1 := strFind_zero_iff cmd.data "diag".data
  have s2 := strFind_zero_iff cmd.data "maxOffDiag".data
  have s3 := strFind_zero_iff cmd.data "minOffDiag".data
  refine ⟨?_, ?_, ?_, ?_, ?_, ?_, ?_⟩
  · rw [← s1]
    unfold selectCommand
    split_ifs <;> simp_all
  · rw [← s2]
    unfold selectCommand
    constructor
    · intro h
      split_ifs at h
      simp_all
    · intro h
      have h1 : ¬ strFind cmd.data "diag".data 0 = some 0 := by
        rw [s1]
        rintro ⟨r, hr⟩
        obtain ⟨r1, hr1⟩ := s2.mp h
        exact hd r r1 (hr ▸ hr1)
      rw [if_neg h1, if_pos h]
  · rw [← s3]
    unfold selectCommand
    constructor
    · intro h
      split_ifs at h
      simp_all
    · intro h
      have h1 : ¬ strFind cmd.data "diag".data 0 = some 0 := by
        rw [s1]
        rintro ⟨r, hr⟩
        obtain ⟨r1, hr1⟩ := s3.mp h
        exact hd2 r r1 (hr ▸ hr1)
      have h2 : ¬ strFind cmd.data "maxOffDiag".data 0 = some 0 := by
        rw [s2]
        rintro ⟨r, hr⟩
        obtain ⟨r1, hr1⟩ := s3.mp h
        exact hm r r1 (hr ▸ hr1)
      rw [if_neg h1, if_neg h2, if_pos h]
  · intro h
    rw [hmain, h]
    rfl
  · intro h
    rw [hmain, h]
    rfl
  · intro h
    rw [hmain, h]
    rfl
  · intro hc hlen
    rw [hmain]
    cases hsel : selectCommand cmd with
    | help => exact absurd hsel hc
    | diag => exact runCommand_file_count env fuel _ _ _ hlen
    | maxOffDiag => exact runCommand_file_count env fuel _ _ _ hlen
    | minOffDiag => exact runCommand_file_count env fuel _ _ _ hlen

/-- C10 on `ugmat diagnostics -abs in.mat`: the command word `diagnostics`
takes the branch of `Diagonal`, and with one file argument the run prints the
error, writes nothing and exits with code 1. -/
theorem C10_dispatch_and_file_count_witness :
    (∀ a ∈ ["ugmat", "diagnostics", "-abs", "in.mat"].drop 2,
      a.data.head? = some '-' → a = "-abs" ∨ a = "-verbose") ∧
    ((["ugmat", "diagnostics", "-abs", "in.mat"].drop 2).filter
      fun a => a.data.head? ≠ some '-').length ≤ 3 ∧
    selectCommand "diagnostics" = .diag ∧
    main sampleEnv 20 ["ugmat", "diagnostics", "-abs", "in.mat"]
      = ⟨["ERROR: An in-file and an out-file have to be specified"], [], .ret 1⟩ :=
  ⟨by decide, by decide, by decide,
    (C10_dispatch_and_file_count sampleEnv 20 ["ugmat", "diagnostics", "-abs", "in.mat"]
      (by decide) (by decide)).2.2.2.2.2.2 (by decide) (by decide)⟩

/-! ## The driver on unrecognized commands and on arguments it refuses -/

theorem selectCommand_help_iff (cmd : String) :
    selectCommand cmd = .help ↔
      (¬ ∃ rest, cmd.data = "diag".data ++ rest) ∧
      (¬ ∃ rest, cmd.data = "maxOffDiag".data ++ rest) ∧
      (¬ ∃ rest, cmd.data = "minOffDiag".data ++ rest) := by
  rw [← strFind_zero_iff, ← strFind_zero_iff, ← strFind_zero_iff]
  unfold selectCommand
  split_ifs <;> simp_all

/-- The scan of a run of arguments that are recognized options and file
arguments that still fit goes on with the arguments after them. -/
theorem scanArgs_append :
    ∀ (pre rest : List String) (p : Params) (files : List String),
      (∀ a ∈ pre, a.data.head? = some '-' → a = "-abs" ∨ a = "-verbose") →
      files.length + (pre.filter fun a => a.data.head? ≠ some '-').length ≤ 3 →
      scanArgs (pre ++ rest) p files =
        scanArgs rest
          ⟨p.makeAbs || pre.contains "-abs", p.verbose || pre.contains "-verbose"⟩
          (files ++ pre.filter fun a => a.data.head? ≠ some '-')
  | [], rest, p, files, _, _ => by simp
  | a :: pre, rest, p, files, hopt, hlen => by
    have hpre : ∀ b ∈ pre, b.data.head? = some '-' → b = "-abs" ∨ b = "-verbose" :=
      fun b hb => hopt b (List.mem_cons_of_mem _ hb)
    by_cases ha : a.data.head? = some '-'
    · have hlen1 : files.length + (pre.filter fun a => a.data.head? ≠ some '-').length ≤ 3 := by
        simpa [List.filter_cons, ha] using hlen
      rcases hopt a (List.mem_cons_self _ _) ha with rfl | rfl
      · rw [List.cons_append, scanArgs, if_pos ha, if_pos rfl,
          scanArgs_append pre rest _ files hpre hlen1]
        simp [List.filter_cons]
      · have hne : ¬ ("-verbose" = "-abs") := by decide
        rw [List.cons_append, scanArgs, if_pos ha, if_neg hne, if_pos rfl,
          scanArgs_append pre rest _ files hpre hlen1]
        have hne2 : ("-verbose" == "-abs") = false := by decide
        simp [List.filter_cons, List.contains_cons, hne2]
    · have hfc : ((a :: pre).filter fun a => a.data.head? ≠ some '-')
          = a :: pre.filter fun a => a.data.head? ≠ some '-' := by
        simp [List.filter_cons, ha]
      rw [hfc, List.length_cons] at hlen
      have hlen0 : files.length < maxNumFiles := by
        unfold maxNumFiles
        omega
      have hlen1 : (files ++ [a]).length
          + (pre.filter fun a => a.data.head? ≠ some '-').length ≤ 3 := by
        simp only [List.length_append, List.length_singleton]
        omega
      have hna : ¬ ("-abs" = a) := by
        rintro rfl
        exact ha (by decide)
      have hnv : ¬ ("-verbose" = a) := by
        rintro rfl
        exact ha (by decide)
      rw [List.cons_append, scanArgs, if_neg ha, if_pos hlen0,
        scanArgs_append pre rest p (files ++ [a]) hpre hlen1, hfc]
      simp [List.contains_cons, hna, hnv]

/-- An argument list with an unrecognized option or with more file arguments
than fit (counting `k` files before it) has a first argument that the scan
refuses. -/
theorem first_refused :
    ∀ (args : List String) (k : Nat), k ≤ 3 →
      ((∃ a ∈ args, a.data.head? = some '-' ∧ a ≠ "-abs" ∧ a ≠ "-verbose") ∨
        4 ≤ k + (args.filter fun a => a.data.head? ≠ some '-').length) →
      ∃ pre a post, args = pre ++ a :: post ∧
        (∀ b ∈ pre, b.data.head? = some '-' → b = "-abs" ∨ b = "-verbose") ∧
        k + (pre.filter fun a => a.data.head? ≠ some '-').length ≤ 3 ∧
        ((a.data.head? = some '-' ∧ a ≠ "-abs" ∧ a ≠ "-verbose") ∨
          (a.data.head? ≠ some '-' ∧
            k + (pre.filter fun a => a.data.head? ≠ some '-').length = 3))
  | [], k, hk, hbad => by
    rcases hbad with ⟨a, ha, _⟩ | h
    · cases ha
    · simp at h; omega
  | a :: rest, k, hk, hbad => by
    by_cases ha : a.data.head? = some '-'
    · by_cases hrec : a = "-abs" ∨ a = "-verbose"
      · have hbad1 : (∃ b ∈ rest, b.data.head? = some '-' ∧ b ≠ "-abs" ∧ b ≠ "-verbose") ∨
            4 ≤ k + (rest.filter fun a => a.data.head? ≠ some '-').length := by
          rcases hbad with ⟨b, hb, hb1, hb2, hb3⟩ | h
          · rcases List.mem_cons.mp hb with rfl | hb
            · rcases hrec with h | h
              · exact absurd h hb2
              · exact absurd h hb3
            · exact Or.inl ⟨b, hb, hb1, hb2, hb3⟩
          · right
            simpa [List.filter_cons, ha] using h
        obtain ⟨pre, x, post, hsplit, hpre, hcount, hx⟩ := first_refused rest k hk hbad1
        refine ⟨a :: pre, x, post, by rw [hsplit]; rfl, ?_, ?_, ?_⟩
        · intro b hb hb1
          rcases List.mem_cons.mp hb with rfl | hb
          · exact hrec
          · exact hpre b hb hb1
        · simpa [List.filter_cons, ha] using hcount
        · simpa [List.filter_cons, ha] using hx
      · refine ⟨[], a, rest, rfl, (by intro b hb; cases hb), (by simpa using hk), ?_⟩
        left
        exact ⟨ha, fun h => hrec (Or.inl h), fun h => hrec (Or.inr h)⟩
    · have hfc : ∀ l : List String, ((a :: l).filter fun a => a.data.head? ≠ some '-')
          = a :: l.filter fun a => a.data.head? ≠ some '-' := by
        intro l
        simp [List.filter_cons, ha]
      by_cases hk3 : k = 3
      · exact ⟨[], a, rest, rfl, (by intro b hb; cases hb), (by simpa using hk),
          Or.inr ⟨ha, by simpa using hk3⟩⟩
      · have hbad1 : (∃ b ∈ rest, b.data.head? = some '-' ∧ b ≠ "-abs" ∧ b ≠ "-verbose") ∨
            4 ≤ (k + 1) + (rest.filter fun a => a.data.head? ≠ some '-').length := by
          rcases hbad with ⟨b, hb, hb1, hb2, hb3⟩ | h
          · rcases List.mem_cons.mp hb with rfl | hb
            · exact absurd hb1 ha
            · exact Or.inl ⟨b, hb, hb1, hb2, hb3⟩
          · right
            rw [hfc, List.length_cons] at h
            omega
        obtain ⟨pre, x, post, hsplit, hpre, hcount, hx⟩ :=
          first_refused rest (k + 1) (by omega) hbad1
        refine ⟨a :: pre, x, post, by rw [hsplit]; rfl, ?_, ?_, ?_⟩
        · intro b hb hb1
          rcases List.mem_cons.mp hb with rfl | hb
          · exact absurd hb1 ha
          · exact hpre b hb hb1
        · rw [hfc, List.length_cons]
          omega
        · rw [hfc, List.length_cons]
          rcases hx with hx | ⟨hx1, hx2⟩
          · exact Or.inl hx
          · exact Or.inr ⟨hx1, by omega⟩

/-- C11 (amended): for an argument vector whose command word is absent or
starts with none of `diag`, `maxOffDiag`, `minOffDiag`, and whose arguments
after the command word are recognized options and at most 3 file arguments,
the run prints the help text and nothing else, writes no file and exits with
code 0. -/
theorem C11_help (env : Env) (fuel : Nat) (argv : List String)
    (hopt : ∀ a ∈ argv.drop 2, a.data.head? = some '-' → a = "-abs" ∨ a = "-verbose")
    (hfiles : ((argv.drop 2).filter fun a => a.data.head? ≠ some '-').length ≤ 3)
    (hcmd : argv.length ≤ 1 ∨
      ((¬ ∃ rest, (argv.getD 1 "").data = "diag".data ++ rest) ∧
        (¬ ∃ rest, (argv.getD 1 "").data = "maxOffDiag".data ++ rest) ∧
        (¬ ∃ rest, (argv.getD 1 "").data = "minOffDiag".data ++ rest))) :
    main env fuel argv = ⟨helpText, [], .ret 0⟩ := by
  have hsel : selectCommand (argv.getD 1 "") = .help := by
    rcases hcmd with hlen | hno
    · have : argv.getD 1 "" = "" := by
        rw [List.getD_eq_getElem?_getD, List.getElem?_eq_none (by omega)]
        rfl
      rw [this]
      decide
    · exact (selectCommand_help_iff _).mpr hno
  rw [main_of_scan env fuel argv hopt hfiles, hsel]

/-- C11 on `ugmat` (no command word) and on `ugmat help -abs a.mat`. -/
theorem C11_help_witness :
    main sampleEnv 20 ["ugmat"] = ⟨helpText, [], .ret 0⟩ ∧
    main sampleEnv 20 ["ugmat", "help", "-abs", "a.mat"] = ⟨helpText, [], .ret 0⟩ :=
  ⟨C11_help sampleEnv 20 ["ugmat"] (by decide) (by decide) (Or.inl (by decide)),
    C11_help sampleEnv 20 ["ugmat", "help", "-abs", "a.mat"] (by decide) (by decide)
      (Or.inr ((selectCommand_help_iff "help").mp (by decide)))⟩

/-- C11 (counterexample): the command word `help` starts with none of the
three command names, and with the unrecognized option `-x` after it, or with
four file arguments after it, the run prints no help text and exits with
code 1. -/
theorem C11_counterexample :
    selectCommand "help" = .help ∧
    main sampleEnv 20 ["ugmat", "help", "-x"]
      = ⟨["Invalid option supplied: -x"], [], .ret 1⟩ ∧
    main sampleEnv 20 ["ugmat", "help", "a", "b", "c", "d"]
      = ⟨["Can't interpret parameter d: Too many parameters specified."], [], .ret 1⟩ := by
  decide

/-- C12: when the arguments after the command word hold an option other than
`-abs` and `-verbose`, or four or more file arguments, there is a first
argument that the scan refuses (every argument before it is a recognized
option or one of at most three file arguments), and the run prints the message
for that argument and nothing else, writes no file and exits with code 1,
whatever the command word and the files are. -/
theorem C12_scan_errors (env : Env) (fuel : Nat) (argv : List String)
    (hbad : (∃ a ∈ argv.drop 2, a.data.head? = some '-' ∧ a ≠ "-abs" ∧ a ≠ "-verbose") ∨
      4 ≤ ((argv.drop 2).filter fun a => a.data.head? ≠ some '-').length) :
    ∃ pre a post, argv.drop 2 = pre ++ a :: post ∧
      (∀ b ∈ pre, b.data.head? = some '-' → b = "-abs" ∨ b = "-verbose") ∧
      (pre.filter fun a => a.data.head? ≠ some '-').length ≤ 3 ∧
      ((a.data.head? = some '-' ∧ a ≠ "-abs" ∧ a ≠ "-verbose" ∧
          main env fuel argv = ⟨["Invalid option supplied: " ++ a], [], .ret 1⟩) ∨
        (a.data.head? ≠ some '-' ∧
          (pre.filter fun a => a.data.head? ≠ some '-').length = 3 ∧
          main env fuel argv
            = ⟨["Can't interpret parameter " ++ a ++ ": Too many parameters specified."],
                [], .ret 1⟩)) := by
  obtain ⟨pre, a, post, hsplit, hpre, hcount, ha⟩ :=
    first_refused (argv.drop 2) 0 (by omega) (by simpa using hbad)
  simp only [Nat.zero_add] at hcount ha
  have hscan := scanArgs_append pre (a :: post) ⟨false, false⟩ [] hpre (by simpa using hcount)
  refine ⟨pre, a, post, hsplit, hpre, hcount, ?_⟩
  rcases ha with ⟨h1, h2, h3⟩ | ⟨h1, h2⟩
  · left
    refine ⟨h1, h2, h3, ?_⟩
    unfold main
    rw [hsplit, hscan, scanArgs, if_pos h1, if_neg h2, if_neg h3]
  · right
    refine ⟨h1, h2, ?_⟩
    unfold main
    have hfull : ¬ (([] : List String) ++ pre.filter fun a => a.data.head? ≠ some '-').length
        < maxNumFiles := by
      simp only [List.nil_append, h2, maxNumFiles]
      omega
    rw [hsplit, hscan, scanArgs, if_neg h1, if_neg hfull]

/-- C12 on `ugmat diag a b -abs c d -x`: the fourth file argument `d` comes
before the unrecognized option `-x`, and its message is the one printed. -/
theorem C12_scan_errors_witness :
    main sampleEnv 20 ["ugmat", "diag", "a", "b", "-abs", "c", "d", "-x"]
      = ⟨["Can't interpret parameter d: Too many parameters specified."], [], .ret 1⟩ ∧
    ∃ pre a post, ["ugmat", "diag", "a", "b", "-abs", "c", "d", "-x"].drop 2 = pre ++ a :: post ∧
      (∀ b ∈ pre, b.data.head? = some '-' → b = "-abs" ∨ b = "-verbose") ∧
      (pre.filter fun a => a.data.head? ≠ some '-').length ≤ 3 ∧
      ((a.data.head? = some '-' ∧ a ≠ "-abs" ∧ a ≠ "-verbose" ∧
          main sampleEnv 20 ["ugmat", "diag", "a", "b", "-abs", "c", "d", "-x"]
            = ⟨["Invalid option supplied: " ++ a], [], .ret 1⟩) ∨
        (a.data.head? ≠ some '-' ∧
          (pre.filter fun a => a.data.head? ≠ some '-').length = 3 ∧
          main sampleEnv 20 ["ugmat", "diag", "a", "b", "-abs", "c", "d", "-x"]
            = ⟨["Can't interpret parameter " ++ a ++ ": Too many parameters specified."],
                [], .ret 1⟩)) :=
  ⟨by decide,
    C12_scan_errors sampleEnv 20 ["ugmat", "diag", "a", "b", "-abs", "c", "d", "-x"]
      (Or.inr (by decide))⟩

/-- C13: for two argument lists after the command word that hold only
`-abs`, `-verbose` and at most 3 file arguments: the scan of a list gives as
files the arguments that are no options, in their order, `makeAbs` exactly when
`-abs` occurs and `verbose` exactly when `-verbose` occurs; so two lists with
the same file arguments in the same order and the same options occurring give
the same configuration and the same run. -/
theorem C13_interleaving (args1 args2 : List String)
    (hopt1 : ∀ a ∈ args1, a.data.head? = some '-' → a = "-abs" ∨ a = "-verbose")
    (hopt2 : ∀ a ∈ args2, a.data.head? = some '-' → a = "-abs" ∨ a = "-verbose")
    (hlen1 : (args1.filter fun a => a.data.head? ≠ some '-').length ≤ 3)
    (hsame : (args1.filter fun a => a.data.head? ≠ some '-')
      = args2.filter fun a => a.data.head? ≠ some '-')
    (habs : "-abs" ∈ args1 ↔ "-abs" ∈ args2)
    (hverbose : "-verbose" ∈ args1 ↔ "-verbose" ∈ args2) :
    (∃ p files, scanArgs args1 ⟨false, false⟩ [] = .ok p files ∧
      files = (args1.filter fun a => a.data.head? ≠ some '-') ∧
      (p.makeAbs = true ↔ "-abs" ∈ args1) ∧ (p.verbose = true ↔ "-verbose" ∈ args1)) ∧
    scanArgs args1 ⟨false, false⟩ [] = scanArgs args2 ⟨false, false⟩ [] ∧
    (∀ (env : Env) (fuel : Nat) (prog command : String),
      main env fuel (prog :: command :: args1) = main env fuel (prog :: command :: args2)) := by
  have hlen2 : (args2.filter fun a => a.data.head? ≠ some '-').length ≤ 3 := by
    rw [← hsame]; exact hlen1
  have s1 := scanArgs_ok args1 ⟨false, false⟩ [] hopt1 (by simpa using hlen1)
  have s2 := scanArgs_ok args2 ⟨false, false⟩ [] hopt2 (by simpa using hlen2)
  have e1 : args1.contains "-abs" = args2.contains "-abs" := by
    rw [Bool.eq_iff_iff]; simpa using habs
  have e2 : args1.contains "-verbose" = args2.contains "-verbose" := by
    rw [Bool.eq_iff_iff]; simpa using hverbose
  have hscan : scanArgs args1 ⟨false, false⟩ [] = scanArgs args2 ⟨false, false⟩ [] := by
    rw [s1, s2, hsame, e1, e2]
  refine ⟨⟨_, _, s1, by simp, by simp, by simp⟩, hscan, ?_⟩
  intro env fuel prog command
  unfold main
  simp only [List.drop_succ_cons, List.drop_zero, hscan, List.getD_cons_succ, List.getD_cons_zero]

/-- C13 on `-abs a.mat b.vec` and `a.mat b.vec -abs`. -/
theorem C13_interleaving_witness :
    scanArgs ["-abs", "a.mat", "b.vec"] ⟨false, false⟩ []
      = .ok ⟨true, false⟩ ["a.mat", "b.vec"] ∧
    scanArgs ["-abs", "a.mat", "b.vec"] ⟨false, false⟩ []
      = scanArgs ["a.mat", "-abs", "b.vec"] ⟨false, false⟩ [] ∧
    (∀ (env : Env) (fuel : Nat) (prog command : String),
      main env fuel (prog :: command :: ["-abs", "a.mat", "b.vec"])
        = main env fuel (prog :: command :: ["a.mat", "-abs", "b.vec"])) :=
  ⟨by decide,
    (C13_interleaving ["-abs", "a.mat", "b.vec"] ["a.mat", "-abs", "b.vec"]
      (by decide) (by decide) (by decide) (by decide) (by decide) (by decide)).2⟩

/-! ## The driver after a load that fails -/

theorem scanArgs_two_files (inFile outFile : String) (hin : inFile.data.head? ≠ some '-')
    (hout : outFile.data.head? ≠ some '-') :
    scanArgs [inFile, outFile] ⟨false, false⟩ [] = .ok ⟨false, false⟩ [inFile, outFile] := by
  simp [scanArgs, hin, hout, maxNumFiles]

theorem extract_init (c : Command) :
    c.extract SimpleVector.init Matrix.init = some SimpleVector.init := by
  cases c <;> decide

/-- A run of a recognized command on an input file that cannot be opened and
an output file that can be opened: the vector of the matrix that was never
loaded is written and the exit code is 0. -/
theorem main_file_not_found (env : Env) (fuel : Nat) (prog command inFile outFile : String)
    (hin : inFile.data.head? ≠ some '-') (hout : outFile.data.head? ≠ some '-')
    (hcmd : selectCommand command ≠ .help) (hread : env.readFile inFile = none)
    (hwrite : env.canWrite outFile = true) :
    main env fuel [prog, command, inFile, outFile] =
      ⟨["INFO -- loading matrix from " ++ inFile, "ERROR -- File not found: " ++ inFile,
          "INFO -- saving vector to " ++ outFile],
        [(outFile, ["1", "0", "0", "1"])], .ret 0⟩ := by
  have hload : LoadMatrix env false fuel Matrix.init inFile
      = ⟨["INFO -- loading matrix from " ++ inFile, "ERROR -- File not found: " ++ inFile],
          .ret (false, Matrix.init)⟩ := by
    simp [LoadMatrix, hread]
  have hsave : SaveSimpleVector env SimpleVector.init outFile
      = ⟨["INFO -- saving vector to " ++ outFile], some ["1", "0", "0", "1"], true⟩ := by
    simp [SaveSimpleVector, hwrite, SimpleVector.init, coordLines, valueLines]
    decide
  have hrun : ∀ c : Command, runCommand env fuel ⟨false, false⟩ [inFile, outFile] c.extract
      = ⟨["INFO -- loading matrix from " ++ inFile, "ERROR -- File not found: " ++ inFile,
            "INFO -- saving vector to " ++ outFile],
          [(outFile, ["1", "0", "0", "1"])], .ret 0⟩ := by
    intro c
    simp [runCommand, hload, extract_init, hsave]
  unfold main
  simp only [List.drop_succ_cons, List.drop_zero, scanArgs_two_files inFile outFile hin hout,
    List.getD_cons_succ, List.getD_cons_zero]
  cases hsel : selectCommand command with
  | help => exact absurd hsel hcmd
  | diag => exact hrun .diag
  | maxOffDiag => exact hrun .maxOffDiag
  | minOffDiag => exact hrun .minOffDiag

/-- C14 (the code at the failing inputs): `ugmat diag missing.mat out.vec` with
an input file that cannot be opened, and `ugmat maxOffDiag dim4.mat out.vec`
with an input file that declares the world dimension 4, both report the error
of the load, then write the output file from the matrix that was not loaded
and exit with code 0. -/
theorem C14_failed_load_exit_zero :
    sampleEnv.readFile "missing.mat" = none ∧
    main sampleEnv 20 ["ugmat", "diag", "missing.mat", "out.vec"] =
      ⟨["INFO -- loading matrix from missing.mat", "ERROR -- File not found: missing.mat",
          "INFO -- saving vector to out.vec"],
        [("out.vec", ["1", "0", "0", "1"])], .ret 0⟩ ∧
    (sampleEnvDim.readFile "dim4.mat").map (fun f => f.worldDim) = some 4 ∧
    main sampleEnvDim 20 ["ugmat", "maxOffDiag", "dim4.mat", "out.vec"] =
      ⟨["INFO -- loading matrix from dim4.mat",
          "ERROR -- Unsupported world-dimension (4) during write: dim4.mat",
          "INFO -- saving vector to out.vec"],
        [("out.vec", ["1", "4", "0", "1"])], .ret 0⟩ := by
  decide

/-! ## Unsupported world dimensions -/

theorem readCoords_none (d : Int) (hd : d ≠ 1 ∧ d ≠ 2 ∧ d ≠ 3) (reals : List number) :
    readCoords d reals = none := by
  simp [readCoords, hd.1, hd.2.1, hd.2.2]

theorem readNodes_bad_dim (d : Int) (hd : d ≠ 1 ∧ d ≠ 2 ∧ d ≠ 3) (count : Nat)
    (reals : List number) (nodeMap : List (Node × Nat)) (nodes : List Node) :
    readNodes d (count + 1) reals nodeMap nodes = (false, nodes) := by
  simp [readNodes, readCoords_none d hd]

/-- C15 (amended): for an input file that can be opened and whose header
declares a world dimension other than 1, 2 or 3 and a node count of at least
1, `LoadMatrix` prints the error, returns failure and leaves a matrix with the
declared world dimension, no nodes and the rows it had before. -/
theorem C15_load_bad_dimension (env : Env) (makeAbs : Bool) (fuel : Nat) (m0 : Matrix)
    (filename : String) (f : MatFile) (hf : env.readFile filename = some f)
    (hd : f.worldDim ≠ 1 ∧ f.worldDim ≠ 2 ∧ f.worldDim ≠ 3) (hn : 0 < f.numEntries) :
    LoadMatrix env makeAbs fuel m0 filename =
      ⟨["INFO -- loading matrix from " ++ filename,
          "ERROR -- Unsupported world-dimension (" ++ toString f.worldDim
            ++ ") during write: " ++ filename],
        .ret (false, ⟨f.worldDim, [], m0.links⟩)⟩ := by
  obtain ⟨k, hk⟩ : ∃ k, f.numEntries.toNat = k + 1 := ⟨f.numEntries.toNat - 1, by omega⟩
  have hneg : ¬ f.numEntries < 0 := by omega
  simp [LoadMatrix, hf, hneg, hk, readNodes_bad_dim f.worldDim hd]

/-- C15 on `dim4.mat`, which declares the world dimension 4 and two nodes. -/
theorem C15_load_bad_dimension_witness :
    sampleEnvDim.readFile "dim4.mat" = some sampleBadDimFile ∧
    (sampleBadDimFile.worldDim ≠ 1 ∧ sampleBadDimFile.worldDim ≠ 2
      ∧ sampleBadDimFile.worldDim ≠ 3) ∧
    0 < sampleBadDimFile.numEntries ∧
    LoadMatrix sampleEnvDim false 20 Matrix.init "dim4.mat" =
      ⟨["INFO -- loading matrix from " ++ "dim4.mat",
          "ERROR -- Unsupported world-dimension (" ++ toString sampleBadDimFile.worldDim
            ++ ") during write: " ++ "dim4.mat"],
        .ret (false, ⟨sampleBadDimFile.worldDim, [], Matrix.init.links⟩)⟩ :=
  ⟨by decide, by decide, by decide,
    C15_load_bad_dimension sampleEnvDim false 20 Matrix.init "dim4.mat" sampleBadDimFile
      (by decide) (by decide) (by decide)⟩

/-- C15 (counterexample): `empty4.mat` can be opened and declares the world
dimension 4 and the node count 0; `LoadMatrix` prints no error and returns
success. -/
theorem C15_counterexample :
    sampleEnvDim.readFile "empty4.mat" = some sampleEmptyBadDimFile ∧
    sampleEmptyBadDimFile.worldDim = 4 ∧ sampleEmptyBadDimFile.numEntries = 0 ∧
    LoadMatrix sampleEnvDim false 20 Matrix.init "empty4.mat" =
      ⟨["INFO -- loading matrix from empty4.mat"], .ret (true, ⟨4, [], []⟩)⟩ := by
  decide

theorem coordLines_bad_dim (env : Env) (d : Int) (hd : d ≠ 1 ∧ d ≠ 2 ∧ d ≠ 3)
    (e : Node × number) (es : List (Node × number)) (written : List String) :
    coordLines env d (e :: es) written = (false, written) := by
  simp [coordLines, coordLine, hd.1, hd.2.1, hd.2.2]

/-- C16 (amended): for a vector whose world dimension is not 1, 2 or 3 and
that has at least one entry, and an output file that can be opened,
`SaveSimpleVector` prints the error and returns failure; the file then holds
the three header lines. -/
theorem C16_save_bad_dimension (env : Env) (v : SimpleVector) (filename : String)
    (hw : env.canWrite filename = true)
    (hd : v.worldDim ≠ 1 ∧ v.worldDim ≠ 2 ∧ v.worldDim ≠ 3) (hne : v.entries ≠ []) :
    SaveSimpleVector env v filename =
      ⟨["INFO -- saving vector to " ++ filename,
          "ERROR -- Unsupported world-dimension (" ++ toString v.worldDim
            ++ ") during write: " ++ filename],
        some ["1", toString v.worldDim, toString v.entries.length], false⟩ := by
  obtain ⟨e, es, hes⟩ := List.exists_cons_of_ne_nil hne
  unfold SaveSimpleVector
  rw [if_pos hw, hes, coordLines_bad_dim env v.worldDim hd]
  rfl

/-- C16 on a vector of world dimension 0 with one entry. -/
theorem C16_save_bad_dimension_witness :
    sampleEnv.canWrite "out.vec" = true ∧
    SaveSimpleVector sampleEnv ⟨0, [(Node.init, 5)]⟩ "out.vec" =
      ⟨["INFO -- saving vector to out.vec",
          "ERROR -- Unsupported world-dimension (0) during write: out.vec"],
        some ["1", "0", "1"], false⟩ ∧
    SaveSimpleVector sampleEnv ⟨0, [(Node.init, 5)]⟩ "out.vec" =
      ⟨["INFO -- saving vector to " ++ "out.vec",
          "ERROR -- Unsupported world-dimension ("
            ++ toString (⟨0, [(Node.init, 5)]⟩ : SimpleVector).worldDim
            ++ ") during write: " ++ "out.vec"],
        some ["1", toString (⟨0, [(Node.init, 5)]⟩ : SimpleVector).worldDim,
          toString (⟨0, [(Node.init, 5)]⟩ : SimpleVector).entries.length], false⟩ :=
  ⟨by decide, by decide,
    C16_save_bad_dimension sampleEnv ⟨0, [(Node.init, 5)]⟩ "out.vec" (by decide) (by decide)
      (by decide)⟩

/-- C16 (counterexample): the vector that `Diagonal` gives for a matrix that
was never loaded has the world dimension 0 and no entries, and for it
`SaveSimpleVector` prints no error, writes the lines 1, 0, 0, 1 and returns
success. -/
theorem C16_counterexample :
    Diagonal SimpleVector.init Matrix.init = some ⟨0, []⟩ ∧
    sampleEnv.canWrite "out.vec" = true ∧
    SaveSimpleVector sampleEnv ⟨0, []⟩ "out.vec" =
      ⟨["INFO -- saving vector to out.vec"], some ["1", "0", "0", "1"], true⟩ := by
  decide

/-! ## The tokenizer loop on a token that does not move the position -/

/-- When an iteration of the tokenizer loop at the position `start` leaves the
position as it is, whatever the values and the counter are, the loop never
ends. -/
theorem tokenLoop_no_advance (env : Env) (ln : List Char) (start : Nat)
    (hlt : start < ln.length)
    (hfix : ∀ values k, (tokenBody env ln ⟨start, values, k⟩).start = start) :
    ∀ (fuel : Nat) (t : Tok), t.start = start → tokenLoop env ln fuel t = none := by
  intro fuel
  induction fuel with
  | zero => intro t _; rfl
  | succ fuel ih =>
    intro t ht
    obtain ⟨s, values, k⟩ := t
    simp only at ht
    subst ht
    simp only [tokenLoop, hlt, if_true]
    exact ih _ (hfix values k)

theorem tokenLoop_step (env : Env) (ln : List Char) (fuel : Nat) (t : Tok)
    (h : t.start < ln.length) :
    tokenLoop env ln (fuel + 1) t = tokenLoop env ln fuel (tokenBody env ln t) := by
  simp only [tokenLoop, h, if_true]

/-- C17 (the code at the failing inputs): on the line `n` the tokenizer loop
never ends, whatever the C library is; on the line `x`, and on the line
`0 0 1` followed by a carriage return, it never ends when `strtod` is
`sampleStrtod`, which like the C function uses no character of a string that
does not start with a number. In each case an iteration leaves the position
where it is. -/
theorem C17_tokenizer_never_ends (env : Env) (fuel k : Nat) (values : List number) :
    (tokenBody env "n".data ⟨0, values, k⟩ = ⟨0, values, k + 1⟩ ∧
      tokenLoop env "n".data fuel ⟨0, values, k⟩ = none) ∧
    (tokenBody sampleEnv "x".data ⟨0, values, k⟩ = ⟨0, values ++ [0], k⟩ ∧
      tokenLoop sampleEnv "x".data fuel ⟨0, values, k⟩ = none) ∧
    (tokenBody sampleEnv "0 0 1\r".data ⟨5, values, k⟩ = ⟨5, values ++ [0], k⟩ ∧
      tokenLoop sampleEnv "0 0 1\r".data fuel ⟨0, [], 0⟩ = none) := by
  refine ⟨⟨rfl, ?_⟩, ⟨rfl, ?_⟩, ⟨rfl, ?_⟩⟩
  · exact tokenLoop_no_advance env "n".data 0 (by decide) (fun _ _ => rfl) fuel _ rfl
  · exact tokenLoop_no_advance sampleEnv "x".data 0 (by decide) (fun _ _ => rfl) fuel _ rfl
  · have hstuck := tokenLoop_no_advance sampleEnv "0 0 1\r".data 5 (by decide)
      (fun _ _ => rfl)
    have b0 : tokenBody sampleEnv "0 0 1\r".data ⟨0, [], 0⟩ = ⟨1, [0], 0⟩ := by decide
    have b1 : tokenBody sampleEnv "0 0 1\r".data ⟨1, [0], 0⟩ = ⟨2, [0], 0⟩ := by decide
    have b2 : tokenBody sampleEnv "0 0 1\r".data ⟨2, [0], 0⟩ = ⟨3, [0, 0], 0⟩ := by decide
    have b3 : tokenBody sampleEnv "0 0 1\r".data ⟨3, [0, 0], 0⟩ = ⟨4, [0, 0], 0⟩ := by decide
    have b4 : tokenBody sampleEnv "0 0 1\r".data ⟨4, [0, 0], 0⟩ = ⟨5, [0, 0, 1], 0⟩ := by
      decide
    rcases fuel with _ | _ | _ | _ | _ | f
    · decide
    · decide
    · decide
    · decide
    · decide
    · rw [tokenLoop_step _ _ _ _ (by decide), b0, tokenLoop_step _ _ _ _ (by decide), b1,
        tokenLoop_step _ _ _ _ (by decide), b2, tokenLoop_step _ _ _ _ (by decide), b3,
        tokenLoop_step _ _ _ _ (by decide), b4]
      exact hstuck f ⟨5, [0, 0, 1], 0⟩ rfl

/-! ## The index checks of the loader -/

theorem reportIndices_source (filename : String) (n i1 i2 : Nat) (out : List String)
    (h : n ≤ i1) :
    ("ERROR -- Bad source index: " ++ toString i1 ++ ". In File: " ++ filename)
      ∈ reportIndices filename n i1 i2 out := by
  unfold reportIndices
  simp only [ge_iff_le, h, if_true]
  split_ifs <;> simp

theorem reportIndices_target (filename : String) (n i1 i2 : Nat) (out : List String)
    (h : n ≤ i2) :
    ("ERROR -- Bad target index: " ++ toString i2 ++ ". In File: " ++ filename)
      ∈ reportIndices filename n i1 i2 out := by
  unfold reportIndices
  simp only [ge_iff_le, h, if_true]
  simp

theorem linkLine_three (env : Env) (fuel : Nat) (filename : String) (n : Nat) (ln : String)
    (s : LoadState) (out : List String) (t : Tok) (a b w : number) (i1 i2 : Nat)
    (htok : tokenLoop env ln.data fuel ⟨0, [], s.numNANs⟩ = some t)
    (hv : t.values = [a, b, w]) (ha : toSizeT a = some i1) (hb : toSizeT b = some i2) :
    linkLine env fuel filename n ln s out =
      match s.links[i1]? with
      | none => ⟨reportIndices filename n i1 i2 out, .ub⟩
      | some row =>
        ⟨reportIndices filename n i1 i2 out,
          .ret ⟨s.links.set i1 (row ++ [(i2, w)]), t.numNANs⟩⟩ := by
  have hne : ln.data ≠ [] := by
    intro hnil
    rw [hnil] at htok
    have ht := tokenLoop_nil env fuel _ t htok
    rw [ht] at hv
    simp at hv
  simp [linkLine, hne, htok, hv, ha, hb]

theorem linkLine_no_ub (env : Env) (fuel : Nat) (filename : String) (n : Nat) (ln : String)
    (s : LoadState) (out : List String) (hlen : s.links.length = n)
    (h : lineInBounds env fuel n ln) :
    (linkLine env fuel filename n ln s out).res ≠ .ub := by
  unfold linkLine
  split
  · simp
  · split
    · simp
    · rename_i t htok
      split
      · simp
      · split
        · simp
        · rename_i h1 h2
          obtain ⟨i1, i2, e1, e2, hlt⟩ := h s.numNANs t htok (by omega)
          rw [e1, e2]
          simp only
          rw [List.getElem?_eq_getElem (by omega)]
          simp

theorem linkLines_no_ub (env : Env) (fuel : Nat) (filename : String) (n : Nat) :
    ∀ (lines : List String) (s : LoadState) (out : List String), s.links.length = n →
      (∀ ln ∈ lines, lineInBounds env fuel n ln) →
      (linkLines env fuel filename n lines s out).res ≠ .ub
  | [], s, out, _, _ => by simp [linkLines]
  | ln :: rest, s, out, hlen, h => by
    have h0 := linkLine_no_ub env fuel filename n ln s out hlen
      (h ln (List.mem_cons_self _ _))
    rcases hr : linkLine env fuel filename n ln s out with ⟨o1, r1⟩
    rw [hr] at h0
    cases r1 with
    | ret s1 =>
      rw [linkLines_cons env fuel filename n ln rest s s1 out o1 hr]
      exact linkLines_no_ub env fuel filename n rest s1 o1
        (by rw [linkLine_length env fuel filename n ln s s1 out o1 hr, hlen])
        (fun l hl => h l (List.mem_cons_of_mem _ hl))
    | thrown => simp [linkLines, hr]
    | ub => exact absurd rfl h0
    | timeout => simp [linkLines, hr]

/-- The counter `numNANs` does not steer the tokenizer: with a counter that is
greater by `d`, an iteration gives the same position and values and a counter
that is greater by `d`. -/
theorem tokenBody_shift (env : Env) (ln : List Char) (d : Nat) (t : Tok) :
    tokenBody env ln ⟨t.start, t.values, t.numNANs + d⟩ =
      ⟨(tokenBody env ln t).start, (tokenBody env ln t).values,
        (tokenBody env ln t).numNANs + d⟩ := by
  unfold tokenBody
  cases ln[t.start]? with
  | none => rfl
  | some cur =>
    simp only
    split_ifs <;> simp
    omega

theorem tokenLoop_shift (env : Env) (ln : List Char) (d : Nat) :
    ∀ (fuel : Nat) (t : Tok),
      tokenLoop env ln fuel ⟨t.start, t.values, t.numNANs + d⟩ =
        (tokenLoop env ln fuel t).map fun r => ⟨r.start, r.values, r.numNANs + d⟩
  | 0, _ => rfl
  | fuel + 1, t => by
    simp only [tokenLoop]
    split_ifs
    · rw [tokenBody_shift, tokenLoop_shift env ln d fuel (tokenBody env ln t)]
    · rfl

/-- A line on which the tokenizer, started with the counter 0, gives three
values with a source index below `n` is in bounds for every counter. -/
theorem lineInBounds_of_run (env : Env) (fuel n : Nat) (ln : String) (t0 : Tok) (i1 i2 : Nat)
    (hrun : tokenLoop env ln.data fuel ⟨0, [], 0⟩ = some t0)
    (h1 : toSizeT (t0.values.getD 0 0) = some i1) (h2 : toSizeT (t0.values.getD 1 0) = some i2)
    (hlt : i1 < n) : lineInBounds env fuel n ln := by
  intro k t htok _
  have hs := tokenLoop_shift env ln.data k fuel ⟨0, [], 0⟩
  simp only [Nat.zero_add, hrun, Option.map_some'] at hs
  rw [hs] at htok
  cases htok
  exact ⟨i1, i2, h1, h2, hlt⟩

/-- A line on which the tokenizer, started with the counter 0, gives a number
of values other than three is in bounds for every counter. -/
theorem lineInBounds_of_skip (env : Env) (fuel n : Nat) (ln : String) (t0 : Tok)
    (hrun : tokenLoop env ln.data fuel ⟨0, [], 0⟩ = some t0) (hlen : t0.values.length ≠ 3) :
    lineInBounds env fuel n ln := by
  intro k t htok h3
  have hs := tokenLoop_shift env ln.data k fuel ⟨0, [], 0⟩
  simp only [Nat.zero_add, hrun, Option.map_some'] at hs
  rw [hs] at htok
  cases htok
  exact absurd h3 hlen

theorem LoadMatrix_no_ub (env : Env) (makeAbs : Bool) (fuel : Nat) (m0 : Matrix)
    (filename : String)
    (h : ∀ f, env.readFile filename = some f →
      ∀ ln ∈ f.lines, lineInBounds env fuel f.numEntries.toNat ln) :
    (LoadMatrix env makeAbs fuel m0 filename).res ≠ .ub := by
  unfold LoadMatrix
  cases hf : env.readFile filename with
  | none => simp
  | some f =>
    by_cases hn : f.numEntries < 0
    · simp [hn]
    · rcases hnodes : readNodes f.worldDim f.numEntries.toNat f.reals [] [] with ⟨b, nodes⟩
      cases b
      · simp [hn, hnodes]
      · have hl := linkLines_no_ub env fuel filename f.numEntries.toNat f.lines
          ⟨List.replicate f.numEntries.toNat [], 0⟩
          ["INFO -- loading matrix from " ++ filename] (by simp) (h f hf)
        rcases hlines : linkLines env fuel filename f.numEntries.toNat f.lines
          ⟨List.replicate f.numEntries.toNat [], 0⟩
          ["INFO -- loading matrix from " ++ filename] with ⟨out1, r⟩
        rw [hlines] at hl
        cases r with
        | ret s =>
          have hlen : (⟨f.worldDim, nodes, s.links⟩ : Matrix).links.length
              = (⟨f.worldDim, nodes, s.links⟩ : Matrix).nodes.length := by
            have h1 := readNodes_length _ _ _ _ _ _ hnodes
            have h2 := linkLines_length _ _ _ _ _ _ _ _ _ hlines
            simp only [List.length_replicate, List.length_nil, Nat.zero_add] at h1 h2
            simp only [h1, h2]
          cases makeAbs
          · simp [hn, hnodes, hlines]
          · simp [hn, hnodes, hlines, MakeAbs_eq _ hlen]
        | thrown => simp [hn, hnodes, hlines]
        | ub => exact absurd rfl hl
        | timeout => simp [hn, hnodes, hlines]

/-- C18: the append to a row in `LoadMatrix` is not guarded by the index
checks. For a line with three values whose source index `i1` is not below the
number of rows, the message `Bad source index` is printed and the append is
still made at the row `i1`, which does not exist (undefined behaviour); the
file `index.mat` with two nodes and the line `5 0 1.0` is such an input. When
on every line with three values the indices have a conversion and the source
index is below `numEntries`, no access of the loader is out of bounds. For a
target index that is not below `numEntries` the message `Bad target index` is
printed and the link is appended with that target index. -/
theorem C18_unguarded_append (env : Env) (fuel : Nat) (filename : String) :
    (∀ (ln : String) (s : LoadState) (out : List String) (t : Tok) (a b w : number)
        (i1 i2 : Nat),
      tokenLoop env ln.data fuel ⟨0, [], s.numNANs⟩ = some t → t.values = [a, b, w] →
      toSizeT a = some i1 → toSizeT b = some i2 → s.links.length ≤ i1 →
      s.links[i1]? = none ∧
      (linkLine env fuel filename s.links.length ln s out).res = .ub ∧
      ("ERROR -- Bad source index: " ++ toString i1 ++ ". In File: " ++ filename)
        ∈ (linkLine env fuel filename s.links.length ln s out).out) ∧
    LoadMatrix sampleEnvDim false 20 Matrix.init "index.mat" =
      ⟨["INFO -- loading matrix from index.mat",
          "ERROR -- Bad target index: 7. In File: index.mat",
          "ERROR -- Bad source index: 5. In File: index.mat"], .ub⟩ ∧
    (∀ (makeAbs : Bool) (m0 : Matrix),
      (∀ f, env.readFile filename = some f →
        ∀ ln ∈ f.lines, lineInBounds env fuel f.numEntries.toNat ln) →
      (LoadMatrix env makeAbs fuel m0 filename).res ≠ .ub) ∧
    (∀ (ln : String) (s : LoadState) (out : List String) (t : Tok) (a b w : number)
        (i1 i2 : Nat) (row : List Link),
      tokenLoop env ln.data fuel ⟨0, [], s.numNANs⟩ = some t → t.values = [a, b, w] →
      toSizeT a = some i1 → toSizeT b = some i2 → s.links[i1]? = some row →
      s.links.length ≤ i2 →
      (linkLine env fuel filename s.links.length ln s out).res
        = .ret ⟨s.links.set i1 (row ++ [(i2, w)]), t.numNANs⟩ ∧
      ("ERROR -- Bad target index: " ++ toString i2 ++ ". In File: " ++ filename)
        ∈ (linkLine env fuel filename s.links.length ln s out).out) := by
  refine ⟨?_, by decide, ?_, ?_⟩
  · intro ln s out t a b w i1 i2 htok hv ha hb hge
    have hnone : s.links[i1]? = none := List.getElem?_eq_none hge
    rw [linkLine_three env fuel filename _ ln s out t a b w i1 i2 htok hv ha hb, hnone]
    exact ⟨rfl, rfl, reportIndices_source filename _ i1 i2 out hge⟩
  · intro makeAbs m0 h
    exact LoadMatrix_no_ub env makeAbs fuel m0 filename h
  · intro ln s out t a b w i1 i2 row htok hv ha hb hrow hge
    rw [linkLine_three env fuel filename _ ln s out t a b w i1 i2 htok hv ha hb, hrow]
    exact ⟨rfl, reportIndices_target filename _ i1 i2 out hge⟩

/-- C18 on `in.mat`: every line of `sampleFile` is in bounds, and the load has
no access out of bounds. -/
theorem C18_unguarded_append_witness :
    (∀ f, sampleEnv.readFile "in.mat" = some f →
      ∀ ln ∈ f.lines, lineInBounds sampleEnv 20 f.numEntries.toNat ln) ∧
    (LoadMatrix sampleEnv false 20 Matrix.init "in.mat").res ≠ .ub := by
  have hin : ∀ f, sampleEnv.readFile "in.mat" = some f →
      ∀ ln ∈ f.lines, lineInBounds sampleEnv 20 f.numEntries.toNat ln := by
    intro f hf
    have hf2 : f = sampleFile := by
      have : sampleEnv.readFile "in.mat" = some sampleFile := by decide
      rw [this] at hf
      exact (Option.some.inj hf).symm
    subst hf2
    intro ln hln
    have hmem : ln = "0 0 2.0" ∨ ln = "0 1 -5.0" ∨ ln = "1 1 3.0" ∨ ln = "" := by
      simpa [sampleFile] using hln
    rcases hmem with rfl | rfl | rfl | rfl
    · exact lineInBounds_of_run sampleEnv 20 _ "0 0 2.0" ⟨7, [0, 0, 2], 0⟩ 0 0
        (by decide) (by decide) (by decide) (by decide)
    · exact lineInBounds_of_run sampleEnv 20 _ "0 1 -5.0" ⟨8, [0, 1, -5], 0⟩ 0 1
        (by decide) (by decide) (by decide) (by decide)
    · exact lineInBounds_of_run sampleEnv 20 _ "1 1 3.0" ⟨7, [1, 1, 3], 0⟩ 1 1
        (by decide) (by decide) (by decide) (by decide)
    · exact lineInBounds_of_skip sampleEnv 20 _ "" ⟨0, [], 0⟩ (by decide) (by decide)
  exact ⟨hin, (C18_unguarded_append sampleEnv 20 "in.mat").2.2.1 false Matrix.init hin⟩

/-! ## The invariant that there are as many rows as nodes -/

theorem readNodes_good_dim (d : Int) (hd : d = 1 ∨ d = 2 ∨ d = 3) :
    ∀ (count : Nat) (reals : List number) (nodeMap : List (Node × Nat)) (nodes : List Node),
      (readNodes d count reals nodeMap nodes).1 = true
  | 0, _, _, _ => rfl
  | count + 1, reals, nodeMap, nodes => by
    unfold readNodes
    rcases hd with h | h | h <;> subst h <;> simp only [readCoords] <;>
      exact readNodes_good_dim _ (by decide) count _ _ _

/-- When the node loop of `LoadMatrix` returns from the default case of the
switch, it has added no node. -/
theorem readNodes_false (d : Int) (count : Nat) (reals : List number)
    (nodeMap : List (Node × Nat)) (nodes res : List Node)
    (h : readNodes d count reals nodeMap nodes = (false, res)) : res = nodes := by
  by_cases hd : d = 1 ∨ d = 2 ∨ d = 3
  · have := readNodes_good_dim d hd count reals nodeMap nodes
    rw [h] at this
    cases this
  · have hd2 : d ≠ 1 ∧ d ≠ 2 ∧ d ≠ 3 := by
      refine ⟨fun e => hd (Or.inl e), fun e => hd (Or.inr (Or.inl e)),
        fun e => hd (Or.inr (Or.inr e))⟩
    cases count with
    | zero => simp [readNodes] at h
    | succ k =>
      rw [readNodes_bad_dim d hd2] at h
      simp only [Prod.mk.injEq, true_and] at h
      exact h.symm

/-- The three ways in which `LoadMatrix` returns. -/
theorem LoadMatrix_ret_cases (env : Env) (makeAbs : Bool) (fuel : Nat) (m0 m : Matrix)
    (filename : String) (b : Bool)
    (h : (LoadMatrix env makeAbs fuel m0 filename).res = .ret (b, m)) :
    (b = false ∧ env.readFile filename = none ∧ m = m0) ∨
    (b = false ∧ ∃ f, env.readFile filename = some f ∧ ¬ f.numEntries < 0 ∧
      m = ⟨f.worldDim, [], m0.links⟩) ∨
    (b = true ∧ ∃ f, env.readFile filename = some f ∧ ¬ f.numEntries < 0 ∧
      m.nodes.length = f.numEntries.toNat ∧ m.links.length = f.numEntries.toNat) := by
  cases b with
  | true =>
    right; right
    obtain ⟨f, nodes, out1, s, hf, hn, hnodes, hlines⟩ :=
      LoadMatrix_inv env makeAbs fuel m0 m filename h
    obtain ⟨hres, -⟩ :=
      LoadMatrix_of env makeAbs fuel m0 filename f nodes out1 s hf hn hnodes hlines
    have h1 := readNodes_length _ _ _ _ _ _ hnodes
    have h2 := linkLines_length _ _ _ _ _ _ _ _ _ hlines
    simp only [List.length_replicate, List.length_nil, Nat.zero_add] at h1 h2
    have hlen : (⟨f.worldDim, nodes, s.links⟩ : Matrix).links.length
        = (⟨f.worldDim, nodes, s.links⟩ : Matrix).nodes.length := by
      simp only [h1, h2]
    rw [h] at hres
    refine ⟨rfl, f, hf, hn, ?_⟩
    cases makeAbs
    · simp only [Bool.false_eq_true, if_false, Outcome.ret.injEq, Prod.mk.injEq, true_and] at hres
      rw [hres]
      exact ⟨h1, h2⟩
    · simp only [if_true, MakeAbs_eq _ hlen, Outcome.ret.injEq, Prod.mk.injEq, true_and] at hres
      rw [hres]
      exact ⟨h1, by simpa using h2⟩
  | false =>
    unfold LoadMatrix at h
    cases hf : env.readFile filename with
    | none =>
      left
      simp only [hf, Outcome.ret.injEq, Prod.mk.injEq, true_and] at h
      exact ⟨rfl, rfl, h.symm⟩
    | some f =>
      right; left
      by_cases hn : f.numEntries < 0
      · simp [hf, hn] at h
      · rcases hnodes : readNodes f.worldDim f.numEntries.toNat f.reals [] [] with ⟨b1, nodes⟩
        cases b1
        · have hnil := readNodes_false _ _ _ _ _ _ hnodes
          subst hnil
          simp only [hf, hn, if_false, hnodes, Outcome.ret.injEq, Prod.mk.injEq, true_and] at h
          exact ⟨rfl, f, rfl, hn, h.symm⟩
        · rcases hlines : linkLines env fuel filename f.numEntries.toNat f.lines
            ⟨List.replicate f.numEntries.toNat [], 0⟩
            ["INFO -- loading matrix from " ++ filename] with ⟨out1, r⟩
          cases r with
          | ret s =>
            cases makeAbs
            · simp [hf, hn, hnodes, hlines] at h
            · simp only [hf, hn, if_false, hnodes, hlines, if_true] at h
              cases hm : MakeAbs ⟨f.worldDim, nodes, s.links⟩ <;> simp [hm] at h
          | thrown => simp [hf, hn, hnodes, hlines] at h
          | ub => simp [hf, hn, hnodes, hlines] at h
          | timeout => simp [hf, hn, hnodes, hlines] at h

theorem extraction_in_bounds (m : Matrix) (h : m.links.length = m.nodes.length)
    (vOut : SimpleVector) :
    (∃ v, Diagonal vOut m = some v) ∧ (∃ v, MaxOffDiag vOut m = some v) ∧
      (∃ v, MinOffDiag vOut m = some v) := by
  refine ⟨?_, ?_, ?_⟩
  · obtain ⟨es1, h1, -, -⟩ := rowBody_shape (fun i ls _ => Diagonal.scan i ls 0) vOut m h
    exact ⟨⟨m.worldDim, es1⟩, by simp [Diagonal, Diagonal.body_eq, h1]⟩
  · obtain ⟨es1, h1, -, -⟩ :=
      rowBody_shape (fun i ls c => offDiagFold stdMax i ls (offDiagSeed i ls c)) vOut m h
    exact ⟨⟨m.worldDim, es1⟩, by simp [MaxOffDiag, offDiagBody_eq, h1]⟩
  · obtain ⟨es1, h1, -, -⟩ :=
      rowBody_shape (fun i ls c => offDiagFold stdMin i ls (offDiagSeed i ls c)) vOut m h
    exact ⟨⟨m.worldDim, es1⟩, by simp [MinOffDiag, offDiagBody_eq, h1]⟩

/-- C19: when `LoadMatrix`, called on a freshly constructed matrix, returns
(with success or with failure), the matrix has as many rows as nodes: none of
both when the file was not found or the world dimension is unsupported,
`numEntries` of both after a success, where `numEntries` is not negative.
`MakeAbs` keeps the number of rows and of nodes. Hence on the matrix that the
loader leaves, and on every matrix with as many rows as nodes, `MakeAbs`,
`Diagonal`, `MaxOffDiag` and `MinOffDiag` make no row access out of bounds,
whatever the target indices of the links are. -/
theorem C19_rows_nodes_invariant (env : Env) (makeAbs : Bool) (fuel : Nat) (filename : String)
    (b : Bool) (m : Matrix)
    (h : (LoadMatrix env makeAbs fuel Matrix.init filename).res = .ret (b, m)) :
    m.links.length = m.nodes.length ∧
    (b = false → m.nodes.length = 0 ∧ m.links.length = 0) ∧
    (env.readFile filename = none → b = false) ∧
    (∀ f, env.readFile filename = some f →
      f.worldDim ≠ 1 ∧ f.worldDim ≠ 2 ∧ f.worldDim ≠ 3 → 0 < f.numEntries → b = false) ∧
    (b = true → ∃ f, env.readFile filename = some f ∧ 0 ≤ f.numEntries ∧
      m.nodes.length = f.numEntries.toNat ∧ m.links.length = f.numEntries.toNat) ∧
    (∀ m1 : Matrix, m1.links.length = m1.nodes.length →
      ∃ m2, MakeAbs m1 = some m2 ∧ m2.nodes = m1.nodes ∧
        m2.links.length = m1.links.length ∧ m2.links.length = m2.nodes.length) ∧
    (∃ m2, MakeAbs m = some m2) ∧
    (∀ vOut, (∃ v, Diagonal vOut m = some v) ∧ (∃ v, MaxOffDiag vOut m = some v) ∧
      (∃ v, MinOffDiag vOut m = some v)) ∧
    (∀ (m1 : Matrix) (vOut : SimpleVector), m1.links.length = m1.nodes.length →
      (∃ v, Diagonal vOut m1 = some v) ∧ (∃ v, MaxOffDiag vOut m1 = some v) ∧
        (∃ v, MinOffDiag vOut m1 = some v)) := by
  have hcases := LoadMatrix_ret_cases env makeAbs fuel Matrix.init m filename b h
  have hinv : m.links.length = m.nodes.length := by
    rcases hcases with ⟨-, -, rfl⟩ | ⟨-, f, -, -, rfl⟩ | ⟨-, f, -, -, h1, h2⟩
    · rfl
    · rfl
    · rw [h1, h2]
  have hfalse : b = false → m.nodes.length = 0 ∧ m.links.length = 0 := by
    intro hb
    rcases hcases with ⟨-, -, rfl⟩ | ⟨-, f, -, -, rfl⟩ | ⟨ht, -⟩
    · exact ⟨rfl, rfl⟩
    · exact ⟨rfl, rfl⟩
    · rw [hb] at ht; cases ht
  refine ⟨hinv, hfalse, ?_, ?_, ?_, ?_, ⟨_, MakeAbs_eq m hinv⟩, extraction_in_bounds m hinv,
    fun m1 vOut h1 => extraction_in_bounds m1 h1 vOut⟩
  · intro hnone
    rcases hcases with ⟨hb, -⟩ | ⟨hb, -⟩ | ⟨-, f, hf, -⟩
    · exact hb
    · exact hb
    · rw [hnone] at hf; cases hf
  · intro f hf hd hn
    obtain ⟨k, hk⟩ : ∃ k, f.numEntries.toNat = k + 1 := ⟨f.numEntries.toNat - 1, by omega⟩
    have hneg : ¬ f.numEntries < 0 := by omega
    simp only [LoadMatrix, hf, hneg, if_false, hk, readNodes_bad_dim f.worldDim hd,
      Outcome.ret.injEq, Prod.mk.injEq] at h
    exact h.1.symm
  · intro hb
    rcases hcases with ⟨hf, -⟩ | ⟨hf, -⟩ | ⟨-, f, hf, hn, h1, h2⟩
    · rw [hb] at hf; cases hf
    · rw [hb] at hf; cases hf
    · exact ⟨f, hf, by omega, h1, h2⟩
  · intro m1 h1
    exact ⟨_, MakeAbs_eq m1 h1, rfl, by simp, by simpa using h1⟩

/-- C19 on `in.mat`, a load that succeeds. -/
theorem C19_rows_nodes_invariant_witness :
    (LoadMatrix sampleEnv true 20 Matrix.init "in.mat").res
      = .ret (true, ⟨2, [⟨0, 0, 0, 0⟩, ⟨1, 1, 0, 0⟩], [[(0, 2), (1, 5)], [(1, 3)]]⟩) ∧
    (⟨2, [⟨0, 0, 0, 0⟩, ⟨1, 1, 0, 0⟩], [[(0, 2), (1, 5)], [(1, 3)]]⟩ : Matrix).links.length
      = (⟨2, [⟨0, 0, 0, 0⟩, ⟨1, 1, 0, 0⟩], [[(0, 2), (1, 5)], [(1, 3)]]⟩ : Matrix).nodes.length :=
  ⟨by decide,
    (C19_rows_nodes_invariant sampleEnv true 20 "in.mat" true
      ⟨2, [⟨0, 0, 0, 0⟩, ⟨1, 1, 0, 0⟩], [[(0, 2), (1, 5)], [(1, 3)]]⟩ (by decide)).1⟩

/-! ## The output vector passed to the extraction functions -/

theorem rowBody_independent (val : Nat → List Link → number → number) (m : Matrix)
    (h : m.links.length = m.nodes.length)
    (hval : ∀ i ls c1 c2, m.links[i]? = some ls → val i ls c1 = val i ls c2)
    (v1 v2 : SimpleVector) :
    forRange m.nodes.length (rowBody val m) (resize v1.entries m.nodes.length (Node.init, 0))
      = forRange m.nodes.length (rowBody val m)
          (resize v2.entries m.nodes.length (Node.init, 0)) := by
  obtain ⟨e1, h1, l1, g1⟩ := rowBody_loop val m h
    (resize v1.entries m.nodes.length (Node.init, 0)) (resize_length _ _ _)
  obtain ⟨e2, h2, l2, g2⟩ := rowBody_loop val m h
    (resize v2.entries m.nodes.length (Node.init, 0)) (resize_length _ _ _)
  rw [h1, h2]
  congr 1
  apply List.ext_getElem?
  intro i
  by_cases hi : i < m.nodes.length
  · have r1 : i < (resize v1.entries m.nodes.length (Node.init, (0 : number))).length := by
      rw [resize_length]; exact hi
    have r2 : i < (resize v2.entries m.nodes.length (Node.init, (0 : number))).length := by
      rw [resize_length]; exact hi
    have hl : m.links[i]? = some m.links[i] := List.getElem?_eq_getElem (h ▸ hi)
    rw [g1 i m.nodes[i] m.links[i] _ (List.getElem?_eq_getElem hi) hl
        (List.getElem?_eq_getElem r1),
      g2 i m.nodes[i] m.links[i] _ (List.getElem?_eq_getElem hi) hl
        (List.getElem?_eq_getElem r2),
      hval i m.links[i] _ _ hl]
  · rw [List.getElem?_eq_none (by omega), List.getElem?_eq_none (by omega)]

/-- On a matrix without an empty row the results of `MaxOffDiag` and
`MinOffDiag` do not depend on what the output vector held. -/
theorem offDiag_independent (m : Matrix) (h : m.links.length = m.nodes.length)
    (hrows : ∀ row ∈ m.links, row ≠ []) (v1 v2 : SimpleVector) :
    MaxOffDiag v1 m = MaxOffDiag v2 m ∧ MinOffDiag v1 m = MinOffDiag v2 m := by
  have hseed : ∀ (i : Nat) (ls : List Link) (c1 c2 : number), m.links[i]? = some ls →
      offDiagSeed i ls c1 = offDiagSeed i ls c2 := by
    intro i ls c1 c2 hls
    have hne : ls ≠ [] := hrows ls (List.getElem?_mem hls)
    cases ls with
    | nil => exact absurd rfl hne
    | cons l rest => rfl
  constructor
  · unfold MaxOffDiag
    rw [offDiagBody_eq, rowBody_independent _ m h
      (fun i ls c1 c2 hls => by simp only [hseed i ls c1 c2 hls]) v1 v2]
  · unfold MinOffDiag
    rw [offDiagBody_eq, rowBody_independent _ m h
      (fun i ls c1 c2 hls => by simp only [hseed i ls c1 c2 hls]) v1 v2]

end Ugmat
